import Mathlib

/-!
# The uniter's resolver loop and its decorating operation factory

A shallow embedding of `worker/uniter/resolver/opfactory.go` and
`worker/uniter/resolver/loop.go`.

Go state is passed explicitly.  The heap cell behind the pointer
`rf *resolverOpFactory` is the field `s` of a `World`; everything else a
collaborator can touch (the executor's persisted state, the watcher, the
resolver's own memory, ...) is the field `ext`, of an arbitrary type `ω`.
A constructor returning `(operation.Operation, error)` is an `Except`; the
`(*operation.State, error)` of an operation's phase, where both or neither
may be nil, is a pair of options.
-/

set_option autoImplicit false

/-! ## Imported packages, as far as this package uses them -/

namespace errors

/-- Error values as github.com/juju/errors sees them.  `New id msg` is a value
built by `errors.New(msg)`, or any other error that is its own cause: Go
compares such values by identity (they are pointers), not by their text, and
`id` is that identity, so two values built from the same text are different
errors unless they are the same value.  `traced previous` is the `*errors.Err`
that `errors.Trace(previous)` builds: it records `previous` and carries
`Cause(previous)` as its cause; the code compares causes only, never annotated
errors. -/
inductive Error where
  | New (id : Nat) (msg : String)
  | traced (previous : Error)
  deriving DecidableEq, Repr

/-- `errors.Cause`: the underlying cause of an error; an error that was never
annotated is its own cause. -/
def Cause : Error → Error
  | .New id msg => .New id msg
  | .traced previous => Cause previous

/-- `errors.Trace`: annotate with the caller's location (not modelled), keep
the cause. -/
def Trace (other : Error) : Error := .traced other

end errors

namespace tomb

/-- `tomb.ErrDying`; the identities 0, 1 and 2 are those of the three sentinel
values `tomb.ErrDying`, `ErrWaiting` and `ErrNoOperation`. -/
def ErrDying : errors.Error := .New 0 "tomb: dying"

end tomb

namespace hooks

/-- `type Kind string` of gopkg.in/juju/charm.v5/hooks. -/
abbrev Kind := String

/-- `hooks.ConfigChanged`. -/
def ConfigChanged : Kind := "config-changed"

/-- `hooks.LeaderSettingsChanged`. -/
def LeaderSettingsChanged : Kind := "leader-settings-changed"

/-- `hooks.UpgradeCharm`. -/
def UpgradeCharm : Kind := "upgrade-charm"

end hooks

namespace charm

/-- A charm URL; the code only stores and copies `*charm.URL` values, which
are `Option URL` here. -/
abbrev URL := String

end charm

namespace hook

/-- Modelled from the spec: `hook.Info` (worker/uniter/hook is not among the
sources).  Only `Kind` is read by this package; the other fields are carried
along. -/
structure Info where
  Kind : hooks.Kind
  RelationId : Int
  RemoteUnit : String
  ChangeVersion : Int
  deriving DecidableEq, Repr

end hook

namespace operation

/-- `type Kind string` of worker/uniter/operation. -/
abbrev Kind := String

/-- `operation.Install`. -/
def Install : Kind := "install"

/-- `operation.RunHook`. -/
def RunHook : Kind := "run-hook"

/-- `operation.RunAction`. -/
def RunAction : Kind := "run-action"

/-- `operation.Upgrade`. -/
def Upgrade : Kind := "upgrade"

/-- `operation.Continue`. -/
def Continue : Kind := "continue"

/-- Modelled from the spec: `operation.State`, the persisted operation state
(worker/uniter/operation is not among the sources).  This package reads
`Kind`, `Hook`, `Started` and `Stopped`. -/
structure State where
  Leader : Bool
  Started : Bool
  Stopped : Bool
  Kind : Kind
  Step : String
  Hook : Option hook.Info
  ActionId : Option String
  CharmURL : Option charm.URL
  deriving DecidableEq, Repr

/-- The zero value `operation.State{}`. -/
def State.zero : State :=
  { Leader := false, Started := false, Stopped := false, Kind := "", Step := "",
    Hook := none, ActionId := none, CharmURL := none }

/-- What one phase of an operation returns: `(*State, error)`. -/
abbrev Result := Option State × Option errors.Error

/-- An `operation.Operation` built by the underlying factory: a value whose
dynamic type is not `onCommitWrapper`.  Its three phases act on the world
outside the `resolverOpFactory`, which such an operation cannot reach. -/
structure Base (ω : Type) where
  Prepare : State → ω → Result × ω
  Execute : State → ω → Result × ω
  Commit : State → ω → Result × ω

/-- The `operation.Factory` interface, as implemented by the underlying
(undecorated) factory: each constructor either fails or returns an
operation. -/
structure Factory (ω : Type) where
  NewRunHook : hook.Info → ω → Except errors.Error (Base ω) × ω
  NewSkipHook : hook.Info → ω → Except errors.Error (Base ω) × ω
  NewUpgrade : Option charm.URL → ω → Except errors.Error (Base ω) × ω
  NewRevertUpgrade : Option charm.URL → ω → Except errors.Error (Base ω) × ω
  NewResolvedUpgrade : Option charm.URL → ω → Except errors.Error (Base ω) × ω
  NewAction : String → ω → Except errors.Error (Base ω) × ω

end operation

namespace remotestate

/-- Modelled from the spec: `remotestate.Snapshot` (worker/uniter/remotestate
is not among the sources): the version counters and the identifiers of the
actions still pending. -/
structure Snapshot where
  ConfigVersion : Int
  LeaderSettingsVersion : Int
  UpdateStatusVersion : Int
  Actions : List String
  deriving DecidableEq, Repr

end remotestate

namespace resolver

open errors (Error)

/-- Modelled from the spec: `resolver.LocalState` (its declaration,
worker/uniter/resolver/interface.go, is not among the sources).
`CompletedActions` is a `map[string]struct{}`, a finite set of identifiers;
`Loop` creates it empty and `trimCompletedActions` returns a fresh map, so it
is never a nil map. -/
structure LocalState where
  State : operation.State
  CharmURL : Option charm.URL
  Conflicted : Bool
  Restart : Bool
  UpdateStatusVersion : Int
  ConfigVersion : Int
  LeaderSettingsVersion : Int
  CompletedActions : Finset String
  deriving DecidableEq

/-- `ErrWaiting` (declared in interface.go). -/
def ErrWaiting : Error := .New 1 "waiting for remote state change"

/-- `ErrNoOperation` (declared in interface.go). -/
def ErrNoOperation : Error := .New 2 "no operations to execute"

/-- `type resolverOpFactory struct`. -/
structure resolverOpFactory (ω : Type) where
  Factory : operation.Factory ω
  LocalState : LocalState
  RemoteState : remotestate.Snapshot

/-- The program state: `s` is the `resolverOpFactory` that the closures built
by the factory hold a pointer to, `ext` is everything else. -/
structure World (ω : Type) where
  ext : ω
  s : resolverOpFactory ω

/-- An `operation.Operation` as this package handles it: an operation of the
underlying factory, or `type onCommitWrapper struct { operation.Operation; f func() }`. -/
inductive Operation (ω : Type) where
  | base (op : operation.Base ω)
  | onCommitWrapper (op : Operation ω) (f : World ω → World ω)

variable {ω : Type}

/-- `func onCommit(op operation.Operation)`: when `op` is an `onCommitWrapper`,
call its `f`, then recurse into the operation it embeds. -/
def onCommit : Operation ω → World ω → World ω
  | .onCommitWrapper op f, w => onCommit op (f w)
  | .base _, w => w

/-- `Commit`: for an `onCommitWrapper`, `func (op onCommitWrapper) Commit`; for
an operation of the underlying factory, its own `Commit`. -/
def Operation.Commit : Operation ω → operation.State → World ω → operation.Result × World ω
  | .base b, state, w =>
    let r := b.Commit state w.ext
    (r.1, { w with ext := r.2 })
  | .onCommitWrapper op f, state, w =>
    let r := op.Commit state w
    match r.1.2 with
    | some err => ((none, some err), r.2)
    | none => ((r.1.1, none), onCommit (.onCommitWrapper op f) r.2)

/-- `Prepare` is promoted from the embedded operation. -/
def Operation.Prepare : Operation ω → operation.State → World ω → operation.Result × World ω
  | .base b, state, w =>
    let r := b.Prepare state w.ext
    (r.1, { w with ext := r.2 })
  | .onCommitWrapper op _, state, w => op.Prepare state w

/-- `Execute` is promoted from the embedded operation. -/
def Operation.Execute : Operation ω → operation.State → World ω → operation.Result × World ω
  | .base b, state, w =>
    let r := b.Execute state w.ext
    (r.1, { w with ext := r.2 })
  | .onCommitWrapper op _, state, w => op.Execute state w

/-- `func trimCompletedActions(pendingActions []string, completedActions map[string]struct{})`. -/
def trimCompletedActions (pendingActions : List String) (completedActions : Finset String) :
    Finset String :=
  pendingActions.foldl
    (fun newCompletedActions pendingAction =>
      if pendingAction ∈ completedActions then insert pendingAction newCompletedActions
      else newCompletedActions)
    ∅

namespace resolverOpFactory

/-- The closure of `wrapUpgradeOp` (lines 99-103). -/
def upgradeCallback (charmURL : Option charm.URL) (w : World ω) : World ω :=
  { w with s := { w.s with LocalState :=
      { w.s.LocalState with CharmURL := charmURL, Restart := true, Conflicted := false } } }

/-- `func (s *resolverOpFactory) wrapUpgradeOp`. -/
def wrapUpgradeOp (op : Operation ω) (charmURL : Option charm.URL) : Operation ω :=
  .onCommitWrapper op (upgradeCallback charmURL)

/-- The closure of lines 110-112, with `v` already read. -/
def configCallback (v : Int) (w : World ω) : World ω :=
  { w with s := { w.s with LocalState := { w.s.LocalState with ConfigVersion := v } } }

/-- The closure of lines 115-117, with `v` already read. -/
def leaderSettingsCallback (v : Int) (w : World ω) : World ω :=
  { w with s := { w.s with LocalState := { w.s.LocalState with LeaderSettingsVersion := v } } }

/-- The closure of lines 122-124, with `v` already read. -/
def updateStatusCallback (v : Int) (w : World ω) : World ω :=
  { w with s := { w.s with LocalState := { w.s.LocalState with UpdateStatusVersion := v } } }

/-- `func (s *resolverOpFactory) wrapHookOp`; `s` is the factory as it is when
the method runs. -/
def wrapHookOp (s : resolverOpFactory ω) (op : Operation ω) (info : hook.Info) : Operation ω :=
  let op :=
    if info.Kind = hooks.ConfigChanged then
      .onCommitWrapper op (configCallback s.RemoteState.ConfigVersion)
    else if info.Kind = hooks.LeaderSettingsChanged then
      .onCommitWrapper op (leaderSettingsCallback s.RemoteState.LeaderSettingsVersion)
    else op
  .onCommitWrapper op (updateStatusCallback s.RemoteState.UpdateStatusVersion)

/-- The closure `f` of `NewAction` (lines 80-83): it reads `s.RemoteState` and
`s.LocalState` when it is called. -/
def actionCallback (id : String) (w : World ω) : World ω :=
  { w with s := { w.s with LocalState := { w.s.LocalState with
      CompletedActions :=
        trimCompletedActions w.s.RemoteState.Actions (insert id w.s.LocalState.CompletedActions) } } }

/-- `func (s *resolverOpFactory) NewRunHook`. -/
def NewRunHook (info : hook.Info) (w : World ω) : Except Error (Operation ω) × World ω :=
  match w.s.Factory.NewRunHook info w.ext with
  | (.error err, e) => (.error (errors.Trace err), { w with ext := e })
  | (.ok op, e) => (.ok (wrapHookOp w.s (.base op) info), { w with ext := e })

/-- `func (s *resolverOpFactory) NewSkipHook`. -/
def NewSkipHook (info : hook.Info) (w : World ω) : Except Error (Operation ω) × World ω :=
  match w.s.Factory.NewSkipHook info w.ext with
  | (.error err, e) => (.error (errors.Trace err), { w with ext := e })
  | (.ok op, e) => (.ok (wrapHookOp w.s (.base op) info), { w with ext := e })

/-- `func (s *resolverOpFactory) NewUpgrade`. -/
def NewUpgrade (charmURL : Option charm.URL) (w : World ω) :
    Except Error (Operation ω) × World ω :=
  match w.s.Factory.NewUpgrade charmURL w.ext with
  | (.error err, e) => (.error (errors.Trace err), { w with ext := e })
  | (.ok op, e) => (.ok (wrapUpgradeOp (.base op) charmURL), { w with ext := e })

/-- `func (s *resolverOpFactory) NewRevertUpgrade`. -/
def NewRevertUpgrade (charmURL : Option charm.URL) (w : World ω) :
    Except Error (Operation ω) × World ω :=
  match w.s.Factory.NewRevertUpgrade charmURL w.ext with
  | (.error err, e) => (.error (errors.Trace err), { w with ext := e })
  | (.ok op, e) => (.ok (wrapUpgradeOp (.base op) charmURL), { w with ext := e })

/-- `func (s *resolverOpFactory) NewResolvedUpgrade`. -/
def NewResolvedUpgrade (charmURL : Option charm.URL) (w : World ω) :
    Except Error (Operation ω) × World ω :=
  match w.s.Factory.NewResolvedUpgrade charmURL w.ext with
  | (.error err, e) => (.error (errors.Trace err), { w with ext := e })
  | (.ok op, e) => (.ok (wrapUpgradeOp (.base op) charmURL), { w with ext := e })

/-- `func (s *resolverOpFactory) NewAction`. -/
def NewAction (id : String) (w : World ω) : Except Error (Operation ω) × World ω :=
  match w.s.Factory.NewAction id w.ext with
  | (.error err, e) => (.error (errors.Trace err), { w with ext := e })
  | (.ok op, e) => (.ok (.onCommitWrapper (.base op) (actionCallback id)), { w with ext := e })

end resolverOpFactory

end resolver

/-! ## Observing a commit -/

namespace resolver

open errors (Error)

variable {ω : Type}

/-- Wrap `op` in one `onCommitWrapper` per callback of the list; the head of
the list is the callback of the outermost decoration. -/
def decorate (op : Operation ω) : List (World ω → World ω) → Operation ω
  | [] => op
  | f :: fs => .onCommitWrapper (decorate op fs) f

/-- What an observer of a commit sees: the undecorated `Commit` being called
with a state, and the callback of a decoration being called; decorations are
numbered from the outermost one, which is number 1. -/
inductive Event where
  | commit (state : operation.State)
  | fired (layer : Nat)
  deriving DecidableEq, Repr

/-- An undecorated operation whose `Commit` returns `c state` and records the
call in the log. -/
def recordingBase (c : operation.State → operation.Result) : operation.Base (List Event) :=
  { Prepare := fun _ log => ((none, none), log)
    Execute := fun _ log => ((none, none), log)
    Commit := fun state log => (c state, log ++ [Event.commit state]) }

/-- A callback that changes the factory by `g` and records in the log that the
decoration numbered `layer` fired. -/
def recordingCallback (layer : Nat)
    (g : resolverOpFactory (List Event) → resolverOpFactory (List Event))
    (w : World (List Event)) : World (List Event) :=
  { ext := w.ext ++ [Event.fired layer], s := g w.s }

/-- The recording operation wrapped in one decoration per element of the list,
numbered `j`, `j + 1`, ... from the outermost one. -/
def recordingChain (c : operation.State → operation.Result) :
    Nat → List (resolverOpFactory (List Event) → resolverOpFactory (List Event)) →
      Operation (List Event)
  | _, [] => .base (recordingBase c)
  | j, g :: gs => .onCommitWrapper (recordingChain c (j + 1) gs) (recordingCallback j g)

/-- The order in which a successful `Commit` of `n` nested decorations numbered
`j`, `j + 1`, ... calls their callbacks. -/
def firingOrder : Nat → Nat → List Nat
  | _, 0 => []
  | j, n + 1 => firingOrder (j + 1) n ++ List.range' j (n + 1)

end resolver

/-! ## The collaborators of `Loop` -/

namespace remotestate

/-- The `remotestate.Watcher` interface: `Snapshot()` returns the latest view
of the remote state; receiving from `RemoteStateChanged()` is part of
`LoopConfig.select`. -/
structure Watcher (ω : Type) where
  Snapshot : ω → Snapshot × ω

end remotestate

namespace charmdir

/-- The `charmdir.Locker` interface. -/
structure Locker (ω : Type) where
  SetAvailable : Bool → ω → ω

end charmdir

namespace operation

/-- The `operation.Executor` interface: `State()` reads the persisted operation
state, `Run(op)` runs an operation, which calls the methods of `op`. -/
structure Executor (ω : Type) where
  State : ω → State
  Run : resolver.Operation ω → resolver.World ω → Option errors.Error × resolver.World ω

/-- One step of the executor: run a phase of the operation on the persisted
state and persist the state it returns, if any. -/
def executorStep {ω : Type} (get : ω → State) (put : State → ω → ω)
    (phase : State → resolver.World ω → Result × resolver.World ω) (w : resolver.World ω) :
    Option errors.Error × resolver.World ω :=
  let r := phase (get w.ext) w
  match r.1.1 with
  | some st => (r.1.2, { r.2 with ext := put st r.2.ext })
  | none => (r.1.2, r.2)

/-- Modelled from the spec: the executor behind `operation.Executor`
(worker/uniter/operation/executor.go is not among the sources): "running an
operation performs its full prepare/execute/commit lifecycle and durably
persists the resulting operation state; exposes the latest persisted state for
read-back.  A failure at any lifecycle phase is returned to the Loop verbatim".
The persisted state is read from the world by `get` and written by `put`. -/
def NewExecutor {ω : Type} (get : ω → State) (put : State → ω → ω) : Executor ω :=
  { State := get
    Run := fun op w =>
      match executorStep get put op.Prepare w with
      | (some err, w1) => (some err, w1)
      | (none, w1) =>
        match executorStep get put op.Execute w1 with
        | (some err, w2) => (some err, w2)
        | (none, w2) => executorStep get put op.Commit w2 }

end operation

namespace resolver

open errors (Error)

variable {ω : Type}

/-- The `Resolver` interface: `NextOp(localState, remoteState, opFactory)`.  The
factory handed over is `rf`, the `resolverOpFactory` of the world; the result
is an operation or an error. -/
structure Resolver (ω : Type) where
  NextOp : LocalState → remotestate.Snapshot → World ω → Except Error (Operation ω) × World ω

/-- What an operation can be asked of the factory for: one case per constructor of
`operation.Factory` that `resolverOpFactory` decorates. -/
inductive Request where
  | RunHook (info : hook.Info)
  | SkipHook (info : hook.Info)
  | Upgrade (charmURL : Option charm.URL)
  | RevertUpgrade (charmURL : Option charm.URL)
  | ResolvedUpgrade (charmURL : Option charm.URL)
  | Action (id : String)
  deriving DecidableEq, Repr

/-- Call the constructor of the decorating factory that the request names. -/
def Request.make : Request → World ω → Except Error (Operation ω) × World ω
  | .RunHook info => resolverOpFactory.NewRunHook info
  | .SkipHook info => resolverOpFactory.NewSkipHook info
  | .Upgrade charmURL => resolverOpFactory.NewUpgrade charmURL
  | .RevertUpgrade charmURL => resolverOpFactory.NewRevertUpgrade charmURL
  | .ResolvedUpgrade charmURL => resolverOpFactory.NewResolvedUpgrade charmURL
  | .Action id => resolverOpFactory.NewAction id

/-- A resolver that chooses, from the two states and its own memory, an error
to return or a constructor of the factory it was handed, and returns what that
constructor returns. -/
def Resolver.ofPlan (plan : LocalState → remotestate.Snapshot → ω → Except Error Request × ω) :
    Resolver ω :=
  { NextOp := fun localState remoteState w =>
      match plan localState remoteState w.ext with
      | (.error err, e) => (.error err, { w with ext := e })
      | (.ok request, e) => request.make { w with ext := e } }

/-- How the `select` statement of lines 100-104 comes out. -/
inductive Wakeup where
  | dying
  | remoteStateChanged
  | never
  deriving DecidableEq, Repr

/-- `type LoopConfig struct`.  `Dying` and `Watcher.RemoteStateChanged()` are
channels; `select` says which of them the `select` statement receives from
when `Loop` waits, or that neither ever becomes ready. -/
structure LoopConfig (ω : Type) where
  Resolver : Resolver ω
  Watcher : remotestate.Watcher ω
  Executor : operation.Executor ω
  Factory : operation.Factory ω
  CharmURL : Option charm.URL
  Conflicted : Bool
  select : ω → Wakeup × ω
  OnIdle : Option (ω → Option Error × ω)
  CharmDirLocker : charmdir.Locker ω

/-- The value `available` that `updateCharmDir` computes (lines 111-120). -/
def charmDirAvailable (opState : operation.State) : Bool :=
  let changing : Bool :=
    if opState.Kind == operation.Install || opState.Kind == operation.Upgrade then true
    else if opState.Kind == operation.RunHook &&
        (match opState.Hook with
          | some h => h.Kind == hooks.UpgradeCharm
          | none => false) then true
    else false
  opState.Started && !opState.Stopped && !changing

/-- `func updateCharmDir(opState operation.State, locker charmdir.Locker)`. -/
def updateCharmDir (opState : operation.State) (locker : charmdir.Locker ω) (e : ω) : ω :=
  locker.SetAvailable (charmDirAvailable opState) e

/-- The calls `Loop` makes to its collaborators, in the order it makes them. -/
inductive LoopEvent where
  | SetAvailable (available : Bool)
  | NextOp (localState : LocalState) (remoteState : remotestate.Snapshot)
  | Run
  | OnIdle
  | Wait
  deriving DecidableEq

/-- How a run of `Loop` ends: it returns, it waits in `select` for ever, or the
model ran out of fuel. -/
inductive Ending where
  | returned (localState : LocalState) (err : Error)
  | blocked
  | outOfFuel
  deriving DecidableEq

/-- A run of `Loop`: how it ended, the calls it made, and the world it left. -/
structure Outcome (ω : Type) where
  ending : Ending
  events : List LoopEvent
  world : World ω

/-- Put events in front of those of a run. -/
def Outcome.after (events : List LoopEvent) (t : Outcome ω) : Outcome ω :=
  { t with events := events ++ t.events }

/-- Lines 67-70 and 78-80: refresh `rf.RemoteState` and `rf.LocalState.State`,
then call the resolver. -/
def Loop.nextOp (cfg : LoopConfig ω) (w : World ω) :
    LoopEvent × Except Error (Operation ω) × World ω :=
  let r := cfg.Watcher.Snapshot w.ext
  let w1 : World ω := { ext := r.2, s := { w.s with RemoteState := r.1 } }
  let w2 : World ω :=
    { w1 with s := { w1.s with LocalState :=
        { w1.s.LocalState with State := cfg.Executor.State w1.ext } } }
  (.NextOp w2.s.LocalState w2.s.RemoteState,
    cfg.Resolver.NextOp w2.s.LocalState w2.s.RemoteState w2)

/-- How the inner loop of lines 71-81 ends. -/
inductive Burst (ω : Type) where
  | settled (err : Error) (events : List LoopEvent) (w : World ω)
  | failed (err : Error) (events : List LoopEvent) (w : World ω)
  | outOfFuel (events : List LoopEvent) (w : World ω)

/-- Put events in front of those of a burst. -/
def Burst.after (events : List LoopEvent) : Burst ω → Burst ω
  | .settled err evs w => .settled err (events ++ evs) w
  | .failed err evs w => .failed err (events ++ evs) w
  | .outOfFuel evs w => .outOfFuel (events ++ evs) w

/-- The inner loop `for err == nil` of lines 71-81, entered with what the
resolver returned: `settled err` when the resolver returns `err`, `failed err`
when line 74 returns. -/
def Loop.burst (cfg : LoopConfig ω) :
    Nat → Except Error (Operation ω) → World ω → Burst ω
  | _, .error err, w => .settled err [] w
  | 0, .ok _, w => .outOfFuel [] w
  | fuel + 1, .ok op, w =>
    match cfg.Executor.Run op w with
    | (some err, w1) => .failed (errors.Trace err) [.Run] w1
    | (none, w1) =>
      let r := Loop.nextOp cfg w1
      (Loop.burst cfg fuel r.2.1 r.2.2).after [.Run, r.1]

/-- The `select` statement of lines 100-104, then the next iteration when the
remote state changed. -/
def Loop.wait (cfg : LoopConfig ω) (next : World ω → Outcome ω) (w : World ω) : Outcome ω :=
  match cfg.select w.ext with
  | (.dying, e) =>
    { ending := .returned w.s.LocalState tomb.ErrDying, events := [.Wait],
      world := { w with ext := e } }
  | (.remoteStateChanged, e) => (next { w with ext := e }).after [.Wait]
  | (.never, e) => { ending := .blocked, events := [.Wait], world := { w with ext := e } }

/-- The outer `for` loop of lines 66-105. -/
def Loop.loop (cfg : LoopConfig ω) : Nat → World ω → Outcome ω
  | 0, w => { ending := .outOfFuel, events := [], world := w }
  | fuel + 1, w =>
    let r := Loop.nextOp cfg w
    match Loop.burst cfg fuel r.2.1 r.2.2 with
    | .outOfFuel evs w1 => { ending := .outOfFuel, events := r.1 :: evs, world := w1 }
    | .failed err evs w1 =>
      { ending := .returned w1.s.LocalState err, events := r.1 :: evs, world := w1 }
    | .settled err evs w1 =>
      let w2 : World ω :=
        { w1 with ext := updateCharmDir w1.s.LocalState.State cfg.CharmDirLocker w1.ext }
      let evs2 := r.1 :: evs ++ [.SetAvailable (charmDirAvailable w1.s.LocalState.State)]
      if errors.Cause err = ErrWaiting then
        (Loop.wait cfg (Loop.loop cfg fuel) w2).after evs2
      else if errors.Cause err = ErrNoOperation then
        match cfg.OnIdle with
        | none => (Loop.wait cfg (Loop.loop cfg fuel) w2).after evs2
        | some onIdle =>
          match onIdle w2.ext with
          | (some err, e) =>
            { ending := .returned w2.s.LocalState (errors.Trace err),
              events := evs2 ++ [.OnIdle], world := { w2 with ext := e } }
          | (none, e) =>
            (Loop.wait cfg (Loop.loop cfg fuel) { w2 with ext := e }).after (evs2 ++ [.OnIdle])
      else { ending := .returned w2.s.LocalState err, events := evs2, world := w2 }

/-- `func Loop(cfg LoopConfig) (LocalState, error)`, run for at most `fuel`
iterations of the outer loop, each running at most `fuel` operations, from the
world `e` outside the factory. -/
def Loop (cfg : LoopConfig ω) (fuel : Nat) (e : ω) : Outcome ω :=
  let rf : resolverOpFactory ω :=
    { Factory := cfg.Factory
      LocalState :=
        { State := operation.State.zero, CharmURL := cfg.CharmURL, Conflicted := cfg.Conflicted,
          Restart := false, UpdateStatusVersion := 0, ConfigVersion := 0,
          LeaderSettingsVersion := 0, CompletedActions := ∅ }
      RemoteState :=
        { ConfigVersion := 0, LeaderSettingsVersion := 0, UpdateStatusVersion := 0, Actions := [] } }
  let opState := cfg.Executor.State e
  (Loop.loop cfg fuel { ext := updateCharmDir opState cfg.CharmDirLocker e, s := rf }).after
    [.SetAvailable (charmDirAvailable opState)]

end resolver

/-! ## Concrete collaborators, for the examples -/

namespace resolver

open errors (Error)

variable {ω : Type}

/-- An undecorated operation whose `Prepare` and `Execute` succeed and whose
`Commit` returns `r`; none of them touches the world. -/
def constBase (r : operation.Result) : operation.Base ω :=
  { Prepare := fun _ e => ((none, none), e)
    Execute := fun _ e => ((none, none), e)
    Commit := fun _ e => (r, e) }

/-- An underlying factory all of whose constructors return `r`. -/
def constFactory (r : Except Error (operation.Base ω)) : operation.Factory ω :=
  { NewRunHook := fun _ e => (r, e)
    NewSkipHook := fun _ e => (r, e)
    NewUpgrade := fun _ e => (r, e)
    NewRevertUpgrade := fun _ e => (r, e)
    NewResolvedUpgrade := fun _ e => (r, e)
    NewAction := fun _ e => (r, e) }

/-- A local state with the given completed actions, running charm `cs:v1`. -/
def exampleLocal (completed : Finset String) : LocalState :=
  { State := operation.State.zero, CharmURL := some "cs:v1", Conflicted := true,
    Restart := false, UpdateStatusVersion := 1, ConfigVersion := 2,
    LeaderSettingsVersion := 3, CompletedActions := completed }

/-- A remote state with the three version counters at `v`, `v + 1`, `v + 2`
and the given pending actions. -/
def exampleRemote (v : Int) (actions : List String) : remotestate.Snapshot :=
  { ConfigVersion := v, LeaderSettingsVersion := v + 1, UpdateStatusVersion := v + 2,
    Actions := actions }

/-- A world whose underlying factory always returns `r`. -/
def exampleWorld (e : ω) (r : Except Error (operation.Base ω)) (localState : LocalState)
    (remoteState : remotestate.Snapshot) : World ω :=
  { ext := e, s := { Factory := constFactory r, LocalState := localState, RemoteState := remoteState } }

/-- A hook info of the given kind. -/
def exampleInfo (kind : hooks.Kind) : hook.Info :=
  { Kind := kind, RelationId := 0, RemoteUnit := "", ChangeVersion := 0 }

/-- Scenario B: the first snapshot has `a1` and `a2` pending, every later one
only `a2`; the resolver asks for a run-action operation for `a1` on its first
call and has nothing to do afterwards; every operation succeeds; the loop is
told to die when it first waits.  The world outside the factory is the number
of snapshots taken so far. -/
def scenarioB : LoopConfig Nat :=
  { Resolver := Resolver.ofPlan fun _ _ e =>
      (if e = 1 then .ok (Request.Action "a1") else .error ErrNoOperation, e)
    Watcher := { Snapshot := fun e => (exampleRemote 0 (if e = 0 then ["a1", "a2"] else ["a2"]), e + 1) }
    Executor := operation.NewExecutor (fun _ => operation.State.zero) (fun _ e => e)
    Factory := constFactory (.ok (constBase (none, none)))
    CharmURL := some "cs:v1"
    Conflicted := false
    select := fun e => (Wakeup.dying, e)
    OnIdle := none
    CharmDirLocker := { SetAvailable := fun _ e => e } }

/-- The local state of scenario B with the given completed actions. -/
def scenarioBLocal (completed : Finset String) : LocalState :=
  { State := operation.State.zero, CharmURL := some "cs:v1", Conflicted := false,
    Restart := false, UpdateStatusVersion := 0, ConfigVersion := 0,
    LeaderSettingsVersion := 0, CompletedActions := completed }

/-! ### Predicates for the invariant of the completed actions -/

/-- The completed actions are covered by the snapshots `seen`: there is none, or
one snapshot of `seen` has all of them pending. -/
def Covered (seen : List remotestate.Snapshot) (completed : Finset String) : Prop :=
  completed = ∅ ∨ ∃ rs ∈ seen, ∀ x ∈ completed, x ∈ rs.Actions

/-- A step from `w` to `w1` keeps the remote state of the factory, and either
keeps the completed actions or leaves only actions pending in that remote
state. -/
def Keeps (w w1 : World ω) : Prop :=
  w1.s.RemoteState = w.s.RemoteState ∧
    (w1.s.LocalState.CompletedActions = w.s.LocalState.CompletedActions ∨
      ∀ x ∈ w1.s.LocalState.CompletedActions, x ∈ w.s.RemoteState.Actions)

/-- Each phase of the operation is a step that `Keeps`. -/
def Operation.Tame (op : Operation ω) : Prop :=
  ∀ (state : operation.State) (w : World ω),
    Keeps w (op.Prepare state w).2 ∧ Keeps w (op.Execute state w).2 ∧
      Keeps w (op.Commit state w).2

/-- The snapshots `seen` together with those the `NextOp` calls of the events
hand to the resolver. -/
def seenAfter : List remotestate.Snapshot → List LoopEvent → List remotestate.Snapshot
  | seen, [] => seen
  | seen, .NextOp _ rs :: evs => seenAfter (rs :: seen) evs
  | seen, .SetAvailable _ :: evs => seenAfter seen evs
  | seen, .Run :: evs => seenAfter seen evs
  | seen, .OnIdle :: evs => seenAfter seen evs
  | seen, .Wait :: evs => seenAfter seen evs

/-- Every `NextOp` call of the events is made with completed actions covered by
`seen` and the snapshots of the `NextOp` calls before it. -/
def Good : List remotestate.Snapshot → List LoopEvent → Prop
  | _, [] => True
  | seen, .NextOp ls rs :: evs => Covered seen ls.CompletedActions ∧ Good (rs :: seen) evs
  | seen, .SetAvailable _ :: evs => Good seen evs
  | seen, .Run :: evs => Good seen evs
  | seen, .OnIdle :: evs => Good seen evs
  | seen, .Wait :: evs => Good seen evs

/-- A run is sound after `seen`: its events are `Good`, and the local state it
returns, if it returns, has its completed actions covered. -/
def Outcome.Sound (seen : List remotestate.Snapshot) (t : Outcome ω) : Prop :=
  Good seen t.events ∧
    ∀ ls err, t.ending = .returned ls err → Covered (seenAfter seen t.events) ls.CompletedActions

/-- The events of a burst. -/
def Burst.events : Burst ω → List LoopEvent
  | .settled _ evs _ => evs
  | .failed _ evs _ => evs
  | .outOfFuel evs _ => evs

/-- The world a burst leaves. -/
def Burst.world : Burst ω → World ω
  | .settled _ _ w => w
  | .failed _ _ w => w
  | .outOfFuel _ w => w

/-- A locker that records every value it is given. -/
def recordingLocker : charmdir.Locker (List Bool) :=
  { SetAvailable := fun available log => log ++ [available] }

/-- An operation state that is started and not stopped, with the given kind and
hook. -/
def exampleState (kind : operation.Kind) (hook : Option hook.Info) : operation.State :=
  { Leader := false, Started := true, Stopped := false, Kind := kind, Step := "pending",
    Hook := hook, ActionId := none, CharmURL := none }

/-! ### Describing a burst of the inner loop -/

/-- The events of a burst that runs an operation before each of the given
`NextOp` calls. -/
def burstEvents : List (LocalState × remotestate.Snapshot) → List LoopEvent
  | [] => []
  | call :: calls => .Run :: .NextOp call.1 call.2 :: burstEvents calls

/-- The world in which `Loop` enters its outer loop (lines 54-64 done), when it
is called in the world `e` outside the factory. -/
def Loop.start (cfg : LoopConfig ω) (e : ω) : World ω :=
  { ext := updateCharmDir (cfg.Executor.State e) cfg.CharmDirLocker e
    s :=
      { Factory := cfg.Factory
        LocalState :=
          { State := operation.State.zero, CharmURL := cfg.CharmURL,
            Conflicted := cfg.Conflicted, Restart := false, UpdateStatusVersion := 0,
            ConfigVersion := 0, LeaderSettingsVersion := 0, CompletedActions := ∅ }
        RemoteState :=
          { ConfigVersion := 0, LeaderSettingsVersion := 0, UpdateStatusVersion := 0,
            Actions := [] } } }

/-- Where the inner loop of lines 71-81 stands after `k` operations ran without
an error, when it is entered with the resolver's answer and the world of the
pair: the resolver's next answer and the world then; `none` when the inner loop
ends earlier. -/
def Loop.afterOps (cfg : LoopConfig ω) :
    Nat → Except Error (Operation ω) × World ω → Option (Except Error (Operation ω) × World ω)
  | 0, rw => some rw
  | _ + 1, (.error _, _) => none
  | k + 1, (.ok op, w) =>
    match cfg.Executor.Run op w with
    | (some _, _) => none
    | (none, w1) => Loop.afterOps cfg k (Loop.nextOp cfg w1).2

/-- An underlying operation for the charm URL `u`: its `Execute` fails when
`fails u`, everything else succeeds. -/
def scriptedBase (fails : Option charm.URL → Bool) (u : Option charm.URL) : operation.Base Nat :=
  { Prepare := fun _ e => ((none, none), e)
    Execute := fun _ e => ((none, if fails u then some (Error.New 11 "execute failed") else none), e)
    Commit := fun _ e => ((none, none), e) }

/-- A scripted run: the world outside the factory is the number of `NextOp`
calls made so far; the resolver gives the answers of the list in turn, through
the factory, and `ErrNoOperation` when the list is exhausted; the executor is
the one modelled from the spec; upgrade operations fail to execute for the
charm URLs that `fails` selects; the watcher always reports the same remote
state; `select` always comes out as `wake`. -/
def scripted (charmURL : Option charm.URL) (conflicted : Bool)
    (answers : List (Except Error Request)) (fails : Option charm.URL → Bool)
    (onIdle : Option (Nat → Option Error × Nat)) (wake : Wakeup) : LoopConfig Nat :=
  { Resolver := Resolver.ofPlan fun _ _ n => (answers.getD n (.error ErrNoOperation), n + 1)
    Watcher := { Snapshot := fun e => (exampleRemote 0 [], e) }
    Executor := operation.NewExecutor (fun _ => operation.State.zero) (fun _ e => e)
    Factory :=
      { NewRunHook := fun _ e => (.ok (constBase (none, none)), e)
        NewSkipHook := fun _ e => (.ok (constBase (none, none)), e)
        NewUpgrade := fun u e => (.ok (scriptedBase fails u), e)
        NewRevertUpgrade := fun u e => (.ok (scriptedBase fails u), e)
        NewResolvedUpgrade := fun u e => (.ok (scriptedBase fails u), e)
        NewAction := fun _ e => (.ok (constBase (none, none)), e) }
    CharmURL := charmURL
    Conflicted := conflicted
    select := fun e => (wake, e)
    OnIdle := onIdle
    CharmDirLocker := { SetAvailable := fun _ e => e } }

/-- The local state of a scripted run with the given charm URL and flags. -/
def scriptedLocal (charmURL : Option charm.URL) (conflicted restart : Bool) : LocalState :=
  { State := operation.State.zero, CharmURL := charmURL, Conflicted := conflicted,
    Restart := restart, UpdateStatusVersion := 0, ConfigVersion := 0,
    LeaderSettingsVersion := 0, CompletedActions := ∅ }

/-- Scenario C: three upgrades are queued, to `cs:v2`, `cs:v3` and `cs:v4`; the
second fails to execute. -/
def scenarioC : LoopConfig Nat :=
  scripted (some "cs:v1") false
    [.ok (Request.Upgrade (some "cs:v2")), .ok (Request.Upgrade (some "cs:v3")),
      .ok (Request.Upgrade (some "cs:v4"))]
    (fun u => u == some "cs:v3") (some fun e => (none, e)) Wakeup.never

/-- The resolver has nothing to do on its first call; `OnIdle` fails. -/
def scenarioIdleFails : LoopConfig Nat :=
  scripted none false [] (fun _ => false) (some fun e => (some (Error.New 12 "idle failed"), e))
    Wakeup.never

/-- The resolver returns `ErrWaiting` on its first call, and no signal ever
arrives. -/
def scenarioWaiting : LoopConfig Nat :=
  scripted none false [.error ErrWaiting] (fun _ => false) (some fun e => (none, e))
    Wakeup.never

/-- Scenario D: the resolver returns `ErrWaiting` on its first call, then the
`Dying` signal fires. -/
def scenarioD : LoopConfig Nat :=
  scripted none false [.error ErrWaiting] (fun _ => false) (some fun e => (none, e))
    Wakeup.dying

/-- The resolver fails on its first call. -/
def scenarioResolverFails : LoopConfig Nat :=
  scripted none false [.error (Error.New 14 "resolver failed")] (fun _ => false)
    (some fun e => (none, e)) Wakeup.never

/-- The resolver returns `tomb.ErrDying` on its first call; the `Dying` signal
never fires. -/
def scenarioResolverDying : LoopConfig Nat :=
  scripted none false [.error tomb.ErrDying] (fun _ => false) (some fun e => (none, e))
    Wakeup.never

/-- `trimCompletedActions` with both maps passed along: `newCompletedActions` and
`completedActions` after the loop of lines 90-94, whose body reads the second
and writes to the first only. -/
def trimCompletedActions.run (pendingActions : List String) (completedActions : Finset String) :
    Finset String × Finset String :=
  pendingActions.foldl
    (fun maps pendingAction =>
      if pendingAction ∈ maps.2 then (insert pendingAction maps.1, maps.2) else maps)
    (∅, completedActions)

/-! ### What the resolver and the executor can do to the factory -/

/-- An operation that the decorating factory returned, for some request, in some
world (not necessarily in the call of the resolver that hands it out). -/
def Operation.Made (op : Operation ω) : Prop :=
  ∃ (request : Request) (w0 : World ω), (request.make w0).1 = .ok op

/-- What an executor can do to the world.  `rf` is a local variable of `Loop`,
so the executor does not reach the factory except by calling a method of an
operation the factory made; the world outside the factory it changes as it
likes. -/
inductive Executes : World ω → World ω → Prop where
  | done (w : World ω) : Executes w w
  | outside (w w1 : World ω) (e : ω) : Executes w w1 → Executes w { w1 with ext := e }
  | prepare (w w1 : World ω) (op : Operation ω) (state : operation.State) :
    op.Made → Executes w w1 → Executes w (op.Prepare state w1).2
  | execute (w w1 : World ω) (op : Operation ω) (state : operation.State) :
    op.Made → Executes w w1 → Executes w (op.Execute state w1).2
  | commit (w w1 : World ω) (op : Operation ω) (state : operation.State) :
    op.Made → Executes w w1 → Executes w (op.Commit state w1).2

/-- Scenario B with a resolver that has nothing to do and writes `zz` into the
completed-action map of the local state it is handed: a Go map is a reference,
so that map is the one of `rf.LocalState`. -/
def scenarioSharedMap : LoopConfig Nat :=
  { scenarioB with
    Resolver :=
      { NextOp := fun _ _ w =>
          (.error ErrNoOperation,
            { w with s := { w.s with LocalState := { w.s.LocalState with
                CompletedActions := insert "zz" w.s.LocalState.CompletedActions } } }) } }

/-! ### Collaborators that record the calls they receive -/

/-- The number of `NextOp` calls in a list of calls. -/
def nextOpCalls (log : List LoopEvent) : Nat :=
  log.countP fun ev =>
    match ev with
    | .NextOp _ _ => true
    | _ => false

/-- The number of waits in a list of calls. -/
def waits (log : List LoopEvent) : Nat :=
  log.countP fun ev =>
    match ev with
    | .Wait => true
    | _ => false

/-- Whether a list of calls has a run of an operation. -/
def ran (log : List LoopEvent) : Bool :=
  log.any fun ev =>
    match ev with
    | .Run => true
    | _ => false

/-- An undecorated operation that records, when it is prepared, that it is being
run; its three phases succeed. -/
def recordedBase : operation.Base (List LoopEvent) :=
  { Prepare := fun _ log => ((none, none), log ++ [LoopEvent.Run])
    Execute := fun _ log => ((none, none), log)
    Commit := fun _ log => ((none, none), log) }

/-- A run whose collaborators record the calls they receive: the world outside
the factory is the list of the calls made so far, and the resolver, the
operation being run, the locker, `OnIdle` and the `select` statement each add
the call they receive at its end.  The resolver gives the answers of the list in
turn, through the factory, and `ErrNoOperation` when the list is exhausted; the
executor is the one modelled from the spec, and the operation state it holds is
started once an operation has run; `OnIdle`, if there is one, returns `onIdle`;
the waits come out as the list `wakes` says, in turn, and no signal arrives
when the list is exhausted. -/
def recorded (charmURL : Option charm.URL) (conflicted : Bool)
    (answers : List (Except Error Request)) (onIdle : Option (Option Error))
    (wakes : List Wakeup) : LoopConfig (List LoopEvent) :=
  { Resolver := Resolver.ofPlan fun ls rs log =>
      (answers.getD (nextOpCalls log) (.error ErrNoOperation), log ++ [LoopEvent.NextOp ls rs])
    Watcher := { Snapshot := fun log => (exampleRemote 0 [], log) }
    Executor := operation.NewExecutor
      (fun log => if ran log then exampleState operation.Continue none else operation.State.zero)
      (fun _ log => log)
    Factory := constFactory (.ok recordedBase)
    CharmURL := charmURL
    Conflicted := conflicted
    select := fun log => (wakes.getD (waits log) Wakeup.never, log ++ [LoopEvent.Wait])
    OnIdle := onIdle.map fun r log => (r, log ++ [LoopEvent.OnIdle])
    CharmDirLocker := { SetAvailable := fun available log => log ++ [LoopEvent.SetAvailable available] } }

/-- The local state of a recorded run: the operation state is started when
`started`, and zero otherwise. -/
def recordedLocal (started : Bool) (charmURL : Option charm.URL) (conflicted restart : Bool) :
    LocalState :=
  { State := if started then exampleState operation.Continue none else operation.State.zero
    CharmURL := charmURL, Conflicted := conflicted, Restart := restart, UpdateStatusVersion := 0,
    ConfigVersion := 0, LeaderSettingsVersion := 0, CompletedActions := ∅ }

/-- Scenario C with another executor and no failing phase: the executor runs
the three phases as the one modelled from the spec does and then, for the
operation the resolver handed out on its second call, returns an error although
the commit succeeded (the state could not be written, say); that error is
already annotated. -/
def scenarioCommitThenFail : LoopConfig Nat :=
  { scripted (some "cs:v1") false
      [.ok (Request.Upgrade (some "cs:v2")), .ok (Request.Upgrade (some "cs:v3")),
        .ok (Request.Upgrade (some "cs:v4"))]
      (fun _ => false) (some fun e => (none, e)) Wakeup.never with
    Executor :=
      { State := fun _ => operation.State.zero
        Run := fun op w =>
          match (operation.NewExecutor (fun _ => operation.State.zero) (fun _ e => e)).Run op w with
          | (some err, w1) => (some err, w1)
          | (none, w1) =>
            if w1.ext = 2 then (some (errors.Trace (Error.New 16 "state not written")), w1)
            else (none, w1) } }

/-- The resolver has nothing to do on its first call; `OnIdle` fails with an
error that is already annotated. -/
def scenarioIdleFailsTraced : LoopConfig Nat :=
  scripted none false [] (fun _ => false)
    (some fun e => (some (errors.Trace (Error.New 12 "idle failed")), e)) Wakeup.never

/-- The resolver fails on its first call with an error of its own that has the
text of `ErrWaiting`. -/
def scenarioResolverFailsLikeWaiting : LoopConfig Nat :=
  scripted none false [.error (Error.New 99 "waiting for remote state change")] (fun _ => false)
    (some fun e => (none, e)) Wakeup.never

/-- A recorded run with an earlier wakeup: the resolver returns `ErrWaiting` on
its first call and has nothing to do on its second; `OnIdle` succeeds; the
first wait ends because the remote state changed, the second because the
`Dying` signal fires. -/
def scenarioWakeThenDie : LoopConfig (List LoopEvent) :=
  recorded none false [.error ErrWaiting] (some none) [Wakeup.remoteStateChanged, Wakeup.dying]

/-- The world of `scenarioWakeThenDie` when its second iteration begins: the
calls of the first iteration have been received, the factory is as the first
call of the resolver left it. -/
def scenarioWakeThenDie.second : World (List LoopEvent) :=
  { ext :=
      [LoopEvent.SetAvailable false,
        LoopEvent.NextOp (recordedLocal false none false false) (exampleRemote 0 []),
        LoopEvent.SetAvailable false, LoopEvent.Wait]
    s := (Loop.nextOp scenarioWakeThenDie (Loop.start scenarioWakeThenDie [])).2.2.s }

/-- Scenario A, recorded: the resolver asks for an upgrade to `u` on its first
call and has nothing to do on its second; the upgrade succeeds; `OnIdle`
succeeds; the `Dying` signal fires in the first wait. -/
def scenarioARecorded (charmURL : Option charm.URL) (conflicted : Bool) (u : Option charm.URL) :
    LoopConfig (List LoopEvent) :=
  recorded charmURL conflicted [.ok (Request.Upgrade u)] (some none) [Wakeup.dying]

end resolver

/-! ## Theorems -/

namespace resolver

open errors (Error)

variable {ω : Type}

/-! ### The commit-wrapper chain -/

theorem onCommit_decorate (op : Operation ω) (fs : List (World ω → World ω)) (w : World ω) :
    onCommit (decorate op fs) w = onCommit op (fs.foldl (fun w f => f w) w) := by
  induction fs generalizing w with
  | nil => rfl
  | cons f fs ih => simp [decorate, onCommit, ih]

theorem Commit_wrapper_failed (op : Operation ω) (f : World ω → World ω)
    (state : operation.State) (w : World ω) (e : Error)
    (h : (op.Commit state w).1.2 = some e) :
    (Operation.onCommitWrapper op f).Commit state w = ((none, some e), (op.Commit state w).2) := by
  simp [Operation.Commit, h]

theorem Commit_wrapper_ok (op : Operation ω) (f : World ω → World ω)
    (state : operation.State) (w : World ω)
    (h : (op.Commit state w).1.2 = none) :
    (Operation.onCommitWrapper op f).Commit state w =
      (((op.Commit state w).1.1, none), onCommit op (f (op.Commit state w).2)) := by
  simp [Operation.Commit, h, onCommit]

theorem Commit_decorate_failed (b : operation.Base ω) (fs : List (World ω → World ω))
    (state : operation.State) (w : World ω) (e : Error)
    (h : (b.Commit state w.ext).1.2 = some e) :
    ((decorate (.base b) fs).Commit state w).1.2 = some e ∧
      ((decorate (.base b) fs).Commit state w).2 = { w with ext := (b.Commit state w.ext).2 } := by
  induction fs with
  | nil => exact ⟨h, rfl⟩
  | cons f fs ih =>
    have hw := Commit_wrapper_failed (decorate (.base b) fs) f state w e ih.1
    simp only [decorate]
    rw [hw]
    exact ⟨rfl, ih.2⟩

/-- C2: when the `Commit` of the undecorated operation returns the error `e`, the
`Commit` of one or more nested `onCommitWrapper` decorations around it returns
no state and exactly `e`, and leaves the world as the undecorated `Commit` left
it, whatever the callbacks are: none of them has run, and the factory, its
`LocalState` included, is unchanged. -/
theorem commit_failure_fires_no_callback (b : operation.Base ω) (f : World ω → World ω)
    (fs : List (World ω → World ω)) (state : operation.State) (w : World ω) (e : Error)
    (h : (b.Commit state w.ext).1.2 = some e) :
    (decorate (.base b) (f :: fs)).Commit state w =
        ((none, some e), { w with ext := (b.Commit state w.ext).2 }) ∧
      ((decorate (.base b) (f :: fs)).Commit state w).2.s.LocalState = w.s.LocalState := by
  have ih := Commit_decorate_failed b fs state w e h
  have hw := Commit_wrapper_failed (decorate (.base b) fs) f state w e ih.1
  simp only [decorate]
  rw [hw, ih.2]
  exact ⟨rfl, rfl⟩

/-- C2, at a concrete input: a failing commit under an upgrade callback and a
config-version callback. -/
theorem commit_failure_fires_no_callback_witness :
    ((constBase (some operation.State.zero, some (Error.New 10 "commit failed")) :
          operation.Base Unit).Commit operation.State.zero ()).1.2 =
        some (Error.New 10 "commit failed") ∧
      (decorate (.base (constBase (some operation.State.zero, some (Error.New 10 "commit failed"))))
          [resolverOpFactory.upgradeCallback (some "cs:v2"),
            resolverOpFactory.configCallback 9]).Commit operation.State.zero
          (exampleWorld () (.error (Error.New 15 "unused")) (exampleLocal ∅) (exampleRemote 5 [])) =
        ((none, some (Error.New 10 "commit failed")),
          exampleWorld () (.error (Error.New 15 "unused")) (exampleLocal ∅) (exampleRemote 5 [])) :=
  ⟨rfl,
    (commit_failure_fires_no_callback
      (constBase (some operation.State.zero, some (Error.New 10 "commit failed")))
      (resolverOpFactory.upgradeCallback (some "cs:v2")) [resolverOpFactory.configCallback 9]
      operation.State.zero
      (exampleWorld () (.error (Error.New 15 "unused")) (exampleLocal ∅) (exampleRemote 5 []))
      (Error.New 10 "commit failed") rfl).1⟩

theorem onCommit_recordingChain_ext (c : operation.State → operation.Result)
    (gs : List (resolverOpFactory (List Event) → resolverOpFactory (List Event))) (j : Nat)
    (w : World (List Event)) :
    (onCommit (recordingChain c j gs) w).ext =
      w.ext ++ (List.range' j gs.length).map Event.fired := by
  induction gs generalizing j w with
  | nil => simp [recordingChain, onCommit]
  | cons g gs ih =>
    simp [recordingChain, onCommit, ih, recordingCallback, List.range'_succ]

theorem Commit_recordingChain_err (c : operation.State → operation.Result)
    (gs : List (resolverOpFactory (List Event) → resolverOpFactory (List Event))) (j : Nat)
    (state : operation.State) (w : World (List Event)) :
    ((recordingChain c j gs).Commit state w).1.2 = (c state).2 := by
  induction gs generalizing j with
  | nil => simp [recordingChain, Operation.Commit, recordingBase]
  | cons g gs ih =>
    cases h : (c state).2 with
    | none =>
      have hi := ih (j + 1)
      rw [h] at hi
      simp [recordingChain, Commit_wrapper_ok _ _ _ _ hi]
    | some e =>
      have hi := ih (j + 1)
      rw [h] at hi
      simp [recordingChain, Commit_wrapper_failed _ _ _ _ e hi]

theorem Commit_recordingChain_ext (c : operation.State → operation.Result)
    (gs : List (resolverOpFactory (List Event) → resolverOpFactory (List Event))) (j : Nat)
    (state : operation.State) (w : World (List Event)) :
    ((recordingChain c j gs).Commit state w).2.ext =
      w.ext ++ Event.commit state ::
        (if (c state).2 = none then firingOrder j gs.length else []).map Event.fired := by
  induction gs generalizing j with
  | nil => simp [recordingChain, Operation.Commit, recordingBase, firingOrder]
  | cons g gs ih =>
    have he := Commit_recordingChain_err c gs (j + 1) state w
    cases h : (c state).2 with
    | none =>
      rw [h] at he
      have hi := ih (j + 1)
      simp only [h, if_true] at hi
      simp only [recordingChain, Commit_wrapper_ok _ _ _ _ he, onCommit_recordingChain_ext,
        recordingCallback, hi, if_true, firingOrder, List.range'_succ]
      simp
    | some e =>
      rw [h] at he
      have hi := ih (j + 1)
      simp only [h] at hi
      simp only [recordingChain, Commit_wrapper_failed _ _ _ _ e he, hi]
      simp

theorem Commit_recordingChain_state (c : operation.State → operation.Result)
    (g : resolverOpFactory (List Event) → resolverOpFactory (List Event))
    (gs : List (resolverOpFactory (List Event) → resolverOpFactory (List Event))) (j : Nat)
    (state : operation.State) (w : World (List Event)) :
    ((recordingChain c j (g :: gs)).Commit state w).1 =
      if (c state).2 = none then ((c state).1, none) else (none, (c state).2) := by
  have he := Commit_recordingChain_err c gs (j + 1) state w
  have hs : ∀ (gs : List (resolverOpFactory (List Event) → resolverOpFactory (List Event)))
      (j : Nat), (c state).2 = none →
      ((recordingChain c j gs).Commit state w).1.1 = (c state).1 := by
    intro gs
    induction gs with
    | nil => intro j _; simp [recordingChain, Operation.Commit, recordingBase]
    | cons g gs ih =>
      intro j hc
      have hi := Commit_recordingChain_err c gs (j + 1) state w
      rw [hc] at hi
      simp [recordingChain, Commit_wrapper_ok _ _ _ _ hi, ih (j + 1) hc]
  cases h : (c state).2 with
  | none =>
    rw [h] at he
    simp [recordingChain, Commit_wrapper_ok _ _ _ _ he, hs gs (j + 1) h]
  | some e =>
    rw [h] at he
    simp [recordingChain, Commit_wrapper_failed _ _ _ _ e he]

/-- C1, evaluated where it fails: the operation `NewRunHook` builds for a
config-changed hook is two nested decorations (the update-status callback
outside, the config-version callback inside), and a successful `Commit` of two
nested decorations calls the callback of the inner one, then that of the outer
one, then that of the inner one again. -/
theorem two_decorations_fire_inner_callback_twice :
    (resolverOpFactory.NewRunHook (exampleInfo hooks.ConfigChanged)
        (exampleWorld () (.ok (constBase (none, none))) (exampleLocal ∅) (exampleRemote 5 []))).1 =
      .ok (decorate (.base (constBase (none, none)))
        [resolverOpFactory.updateStatusCallback 7, resolverOpFactory.configCallback 5]) ∧
    ((recordingChain (fun st => (some st, none)) 1 [id, id]).Commit operation.State.zero
        (exampleWorld [] (.error (Error.New 15 "unused")) (exampleLocal ∅) (exampleRemote 5 []))).2.ext =
      [Event.commit operation.State.zero, Event.fired 2, Event.fired 1, Event.fired 2] :=
  ⟨rfl, by decide⟩

/-- C3: one `Commit` of one or more nested decorations calls the `Commit` of the
undecorated operation exactly once, with the state it was given, before any
callback: the log grows by that call followed by callback firings only.  When
the undecorated `Commit` succeeds its state is what the caller gets; when it
fails the caller gets no state and its error. -/
theorem commit_reaches_undecorated_once (c : operation.State → operation.Result)
    (g : resolverOpFactory (List Event) → resolverOpFactory (List Event))
    (gs : List (resolverOpFactory (List Event) → resolverOpFactory (List Event)))
    (state : operation.State) (w : World (List Event)) :
    (∃ ks : List Nat,
      ((recordingChain c 1 (g :: gs)).Commit state w).2.ext =
        w.ext ++ Event.commit state :: ks.map Event.fired) ∧
    ((recordingChain c 1 (g :: gs)).Commit state w).1 =
      if (c state).2 = none then ((c state).1, none) else (none, (c state).2) :=
  ⟨⟨_, Commit_recordingChain_ext c (g :: gs) 1 state w⟩,
    Commit_recordingChain_state c g gs 1 state w⟩

/-! ### What the decorated operations do when they commit -/

namespace resolverOpFactory

theorem NewRunHook_ok (info : hook.Info) (w : World ω) (op : Operation ω)
    (h : (NewRunHook info w).1 = .ok op) :
    ∃ b, op = wrapHookOp w.s (.base b) info := by
  unfold NewRunHook at h
  split at h
  · simp at h
  · next b e _ => exact ⟨b, by simpa using h.symm⟩

theorem NewSkipHook_ok (info : hook.Info) (w : World ω) (op : Operation ω)
    (h : (NewSkipHook info w).1 = .ok op) :
    ∃ b, op = wrapHookOp w.s (.base b) info := by
  unfold NewSkipHook at h
  split at h
  · simp at h
  · next b e _ => exact ⟨b, by simpa using h.symm⟩

theorem NewUpgrade_ok (charmURL : Option charm.URL) (w : World ω) (op : Operation ω)
    (h : (NewUpgrade charmURL w).1 = .ok op) :
    ∃ b, op = wrapUpgradeOp (.base b) charmURL := by
  unfold NewUpgrade at h
  split at h
  · simp at h
  · next b e _ => exact ⟨b, by simpa using h.symm⟩

theorem NewRevertUpgrade_ok (charmURL : Option charm.URL) (w : World ω) (op : Operation ω)
    (h : (NewRevertUpgrade charmURL w).1 = .ok op) :
    ∃ b, op = wrapUpgradeOp (.base b) charmURL := by
  unfold NewRevertUpgrade at h
  split at h
  · simp at h
  · next b e _ => exact ⟨b, by simpa using h.symm⟩

theorem NewResolvedUpgrade_ok (charmURL : Option charm.URL) (w : World ω) (op : Operation ω)
    (h : (NewResolvedUpgrade charmURL w).1 = .ok op) :
    ∃ b, op = wrapUpgradeOp (.base b) charmURL := by
  unfold NewResolvedUpgrade at h
  split at h
  · simp at h
  · next b e _ => exact ⟨b, by simpa using h.symm⟩

theorem NewAction_ok (id : String) (w : World ω) (op : Operation ω)
    (h : (NewAction id w).1 = .ok op) :
    ∃ b, op = .onCommitWrapper (.base b) (actionCallback id) := by
  unfold NewAction at h
  split at h
  · simp at h
  · next b e _ => exact ⟨b, by simpa using h.symm⟩

theorem Commit_wrapHookOp (s : resolverOpFactory ω) (b : operation.Base ω) (info : hook.Info)
    (state : operation.State) (w : World ω) :
    (wrapHookOp s (.base b) info).Commit state w =
      match (b.Commit state w.ext).1.2 with
      | some err => ((none, some err), { w with ext := (b.Commit state w.ext).2 })
      | none =>
        (((b.Commit state w.ext).1.1, none),
          { ext := (b.Commit state w.ext).2
            s := { w.s with LocalState := { w.s.LocalState with
              UpdateStatusVersion := s.RemoteState.UpdateStatusVersion
              ConfigVersion :=
                if info.Kind = hooks.ConfigChanged then s.RemoteState.ConfigVersion
                else w.s.LocalState.ConfigVersion
              LeaderSettingsVersion :=
                if info.Kind = hooks.LeaderSettingsChanged then s.RemoteState.LeaderSettingsVersion
                else w.s.LocalState.LeaderSettingsVersion } } }) := by
  have hne : hooks.ConfigChanged ≠ hooks.LeaderSettingsChanged := by decide
  by_cases h1 : info.Kind = hooks.ConfigChanged
  · have h2 : info.Kind ≠ hooks.LeaderSettingsChanged := fun h => hne (h1.symm.trans h)
    cases hc : (b.Commit state w.ext).1.2 <;>
      simp [wrapHookOp, h1, Operation.Commit, onCommit, hc, configCallback,
        updateStatusCallback, hne]
  · by_cases h2 : info.Kind = hooks.LeaderSettingsChanged
    · cases hc : (b.Commit state w.ext).1.2 <;>
        simp [wrapHookOp, h1, h2, Operation.Commit, onCommit, hc, leaderSettingsCallback,
          updateStatusCallback, hne.symm]
    · cases hc : (b.Commit state w.ext).1.2 <;>
        simp [wrapHookOp, h1, h2, Operation.Commit, onCommit, hc, updateStatusCallback]

theorem Commit_wrapUpgradeOp (b : operation.Base ω) (charmURL : Option charm.URL)
    (state : operation.State) (w : World ω) :
    (wrapUpgradeOp (.base b) charmURL).Commit state w =
      match (b.Commit state w.ext).1.2 with
      | some err => ((none, some err), { w with ext := (b.Commit state w.ext).2 })
      | none =>
        (((b.Commit state w.ext).1.1, none),
          { ext := (b.Commit state w.ext).2
            s := { w.s with LocalState := { w.s.LocalState with
              CharmURL := charmURL, Restart := true, Conflicted := false } } }) := by
  cases hc : (b.Commit state w.ext).1.2 <;>
    simp [wrapUpgradeOp, Operation.Commit, onCommit, hc, upgradeCallback]

theorem Commit_actionOp (b : operation.Base ω) (id : String)
    (state : operation.State) (w : World ω) :
    (Operation.onCommitWrapper (.base b) (actionCallback id)).Commit state w =
      match (b.Commit state w.ext).1.2 with
      | some err => ((none, some err), { w with ext := (b.Commit state w.ext).2 })
      | none =>
        (((b.Commit state w.ext).1.1, none),
          { ext := (b.Commit state w.ext).2
            s := { w.s with LocalState := { w.s.LocalState with
              CompletedActions :=
                trimCompletedActions w.s.RemoteState.Actions
                  (insert id w.s.LocalState.CompletedActions) } } }) := by
  cases hc : (b.Commit state w.ext).1.2 <;>
    simp [Operation.Commit, onCommit, hc, actionCallback]

end resolverOpFactory

theorem trimCompletedActions_eq (pendingActions : List String) (completedActions : Finset String) :
    trimCompletedActions pendingActions completedActions =
      pendingActions.toFinset.filter (fun x => x ∈ completedActions) := by
  have h : ∀ (pending : List String) (acc : Finset String),
      pending.foldl
        (fun newCompletedActions pendingAction =>
          if pendingAction ∈ completedActions then insert pendingAction newCompletedActions
          else newCompletedActions) acc =
        acc ∪ pending.toFinset.filter (fun x => x ∈ completedActions) := by
    intro pending
    induction pending with
    | nil => intro acc; simp
    | cons a pending ih =>
      intro acc
      rw [List.foldl_cons, ih]
      ext x
      by_cases ha : a ∈ completedActions
      · simp only [ha, if_true, Finset.mem_union, Finset.mem_insert, Finset.mem_filter,
          List.mem_toFinset, List.mem_cons]
        constructor
        · rintro ((rfl | h) | ⟨h, hc⟩)
          · exact Or.inr ⟨Or.inl rfl, ha⟩
          · exact Or.inl h
          · exact Or.inr ⟨Or.inr h, hc⟩
        · rintro (h | ⟨rfl | h, hc⟩)
          · exact Or.inl (Or.inr h)
          · exact Or.inl (Or.inl rfl)
          · exact Or.inr ⟨h, hc⟩
      · simp only [ha, if_false, Finset.mem_union, Finset.mem_filter,
          List.mem_toFinset, List.mem_cons]
        constructor
        · rintro (h | ⟨h, hc⟩)
          · exact Or.inl h
          · exact Or.inr ⟨Or.inr h, hc⟩
        · rintro (h | ⟨rfl | h, hc⟩)
          · exact Or.inl h
          · exact absurd hc ha
          · exact Or.inr ⟨h, hc⟩
  unfold trimCompletedActions
  rw [h]
  simp

/-- C4: an operation returned by `NewRunHook` or `NewSkipHook` for a
config-changed (resp. leader-settings-changed) hook while the factory holds the
remote state of `w0` sets, when it commits successfully in any later world `w2`,
`LocalState.ConfigVersion` (resp. `LeaderSettingsVersion`) to the version of the
remote state of `w0`, whatever remote state `w2` holds. -/
theorem hook_commit_sets_version_of_creation (info : hook.Info) (w0 w2 : World ω)
    (state : operation.State) (op : Operation ω)
    (hmade : (resolverOpFactory.NewRunHook info w0).1 = .ok op ∨
      (resolverOpFactory.NewSkipHook info w0).1 = .ok op)
    (hok : (op.Commit state w2).1.2 = none) :
    (info.Kind = hooks.ConfigChanged →
      (op.Commit state w2).2.s.LocalState.ConfigVersion = w0.s.RemoteState.ConfigVersion) ∧
    (info.Kind = hooks.LeaderSettingsChanged →
      (op.Commit state w2).2.s.LocalState.LeaderSettingsVersion =
        w0.s.RemoteState.LeaderSettingsVersion) := by
  have hb : ∃ b, op = resolverOpFactory.wrapHookOp w0.s (.base b) info := by
    rcases hmade with h | h
    · exact resolverOpFactory.NewRunHook_ok info w0 op h
    · exact resolverOpFactory.NewSkipHook_ok info w0 op h
  obtain ⟨b, rfl⟩ := hb
  rw [resolverOpFactory.Commit_wrapHookOp] at hok ⊢
  cases hc : (b.Commit state w2.ext).1.2 with
  | some err => simp [hc] at hok
  | none =>
    constructor
    · intro hk; simp [hk]
    · intro hk; simp [hk]

/-- C4, at concrete inputs: built under config version 5 and leader-settings
version 6, committed under versions 50 and 51. -/
theorem hook_commit_sets_version_of_creation_witness :
    ((resolverOpFactory.wrapHookOp
        (exampleWorld () (.ok (constBase (none, none))) (exampleLocal ∅) (exampleRemote 5 [])).s
        (.base (constBase (none, none))) (exampleInfo hooks.ConfigChanged)).Commit
      operation.State.zero
      (exampleWorld () (.ok (constBase (none, none))) (exampleLocal ∅)
        (exampleRemote 50 []))).2.s.LocalState.ConfigVersion = 5 ∧
    ((resolverOpFactory.wrapHookOp
        (exampleWorld () (.ok (constBase (none, none))) (exampleLocal ∅) (exampleRemote 5 [])).s
        (.base (constBase (none, none))) (exampleInfo hooks.LeaderSettingsChanged)).Commit
      operation.State.zero
      (exampleWorld () (.ok (constBase (none, none))) (exampleLocal ∅)
        (exampleRemote 50 []))).2.s.LocalState.LeaderSettingsVersion = 6 :=
  ⟨(hook_commit_sets_version_of_creation (exampleInfo hooks.ConfigChanged)
      (exampleWorld () (.ok (constBase (none, none))) (exampleLocal ∅) (exampleRemote 5 []))
      (exampleWorld () (.ok (constBase (none, none))) (exampleLocal ∅) (exampleRemote 50 []))
      operation.State.zero _ (Or.inl rfl) rfl).1 rfl,
    (hook_commit_sets_version_of_creation (exampleInfo hooks.LeaderSettingsChanged)
      (exampleWorld () (.ok (constBase (none, none))) (exampleLocal ∅) (exampleRemote 5 []))
      (exampleWorld () (.ok (constBase (none, none))) (exampleLocal ∅) (exampleRemote 50 []))
      operation.State.zero _ (Or.inr rfl) rfl).2 rfl⟩

/-- C5: an operation returned by `NewRunHook` or `NewSkipHook`, for a hook of any
kind, while the factory holds the remote state of `w0` sets, when it commits
successfully in any later world `w2`, `LocalState.UpdateStatusVersion` to the
update-status version of the remote state of `w0`. -/
theorem hook_commit_resets_update_status_version (info : hook.Info) (w0 w2 : World ω)
    (state : operation.State) (op : Operation ω)
    (hmade : (resolverOpFactory.NewRunHook info w0).1 = .ok op ∨
      (resolverOpFactory.NewSkipHook info w0).1 = .ok op)
    (hok : (op.Commit state w2).1.2 = none) :
    (op.Commit state w2).2.s.LocalState.UpdateStatusVersion =
      w0.s.RemoteState.UpdateStatusVersion := by
  have hb : ∃ b, op = resolverOpFactory.wrapHookOp w0.s (.base b) info := by
    rcases hmade with h | h
    · exact resolverOpFactory.NewRunHook_ok info w0 op h
    · exact resolverOpFactory.NewSkipHook_ok info w0 op h
  obtain ⟨b, rfl⟩ := hb
  rw [resolverOpFactory.Commit_wrapHookOp] at hok ⊢
  cases hc : (b.Commit state w2.ext).1.2 with
  | some err => simp [hc] at hok
  | none => simp

/-- C5, at a concrete input: a start hook built under update-status version 7 and
committed under update-status version 52. -/
theorem hook_commit_resets_update_status_version_witness :
    ((resolverOpFactory.wrapHookOp
        (exampleWorld () (.ok (constBase (none, none))) (exampleLocal ∅) (exampleRemote 5 [])).s
        (.base (constBase (none, none))) (exampleInfo "start")).Commit
      operation.State.zero
      (exampleWorld () (.ok (constBase (none, none))) (exampleLocal ∅)
        (exampleRemote 50 []))).2.s.LocalState.UpdateStatusVersion = 7 :=
  hook_commit_resets_update_status_version (exampleInfo "start")
    (exampleWorld () (.ok (constBase (none, none))) (exampleLocal ∅) (exampleRemote 5 []))
    (exampleWorld () (.ok (constBase (none, none))) (exampleLocal ∅) (exampleRemote 50 []))
    operation.State.zero _ (Or.inr rfl) rfl

/-- C7: an operation returned by `NewUpgrade`, `NewRevertUpgrade` or
`NewResolvedUpgrade` for the charm URL `u` sets, when it commits successfully on
any local state, `CharmURL` to `u`, `Restart` to true and `Conflicted` to false,
and leaves the three version counters and the completed actions as they were. -/
theorem upgrade_commit_sets_charm_url (u : Option charm.URL) (w0 w2 : World ω)
    (state : operation.State) (op : Operation ω)
    (hmade : (resolverOpFactory.NewUpgrade u w0).1 = .ok op ∨
      (resolverOpFactory.NewRevertUpgrade u w0).1 = .ok op ∨
      (resolverOpFactory.NewResolvedUpgrade u w0).1 = .ok op)
    (hok : (op.Commit state w2).1.2 = none) :
    (op.Commit state w2).2.s.LocalState.CharmURL = u ∧
    (op.Commit state w2).2.s.LocalState.Restart = true ∧
    (op.Commit state w2).2.s.LocalState.Conflicted = false ∧
    (op.Commit state w2).2.s.LocalState.ConfigVersion = w2.s.LocalState.ConfigVersion ∧
    (op.Commit state w2).2.s.LocalState.LeaderSettingsVersion =
      w2.s.LocalState.LeaderSettingsVersion ∧
    (op.Commit state w2).2.s.LocalState.UpdateStatusVersion =
      w2.s.LocalState.UpdateStatusVersion ∧
    (op.Commit state w2).2.s.LocalState.CompletedActions = w2.s.LocalState.CompletedActions := by
  have hb : ∃ b, op = resolverOpFactory.wrapUpgradeOp (.base b) u := by
    rcases hmade with h | h | h
    · exact resolverOpFactory.NewUpgrade_ok u w0 op h
    · exact resolverOpFactory.NewRevertUpgrade_ok u w0 op h
    · exact resolverOpFactory.NewResolvedUpgrade_ok u w0 op h
  obtain ⟨b, rfl⟩ := hb
  rw [resolverOpFactory.Commit_wrapUpgradeOp] at hok ⊢
  cases hc : (b.Commit state w2.ext).1.2 with
  | some err => simp [hc] at hok
  | none => simp

/-- C7, at a concrete input: an upgrade to `cs:v2` committed on a conflicted
local state running `cs:v1` with the completed action `a1`. -/
theorem upgrade_commit_sets_charm_url_witness :
    ((resolverOpFactory.wrapUpgradeOp (.base (constBase (none, none))) (some "cs:v2")).Commit
        operation.State.zero
        (exampleWorld () (.ok (constBase (none, none))) (exampleLocal {"a1"})
          (exampleRemote 50 []))).2.s.LocalState =
      { exampleLocal {"a1"} with CharmURL := some "cs:v2", Restart := true, Conflicted := false } ∧
    ((resolverOpFactory.wrapUpgradeOp (.base (constBase (none, none))) (some "cs:v2")).Commit
        operation.State.zero
        (exampleWorld () (.ok (constBase (none, none))) (exampleLocal {"a1"})
          (exampleRemote 50 []))).2.s.LocalState.CharmURL = some "cs:v2" :=
  ⟨rfl,
    (upgrade_commit_sets_charm_url (some "cs:v2")
      (exampleWorld () (.ok (constBase (none, none))) (exampleLocal ∅) (exampleRemote 5 []))
      (exampleWorld () (.ok (constBase (none, none))) (exampleLocal {"a1"}) (exampleRemote 50 []))
      operation.State.zero _ (Or.inr (Or.inl rfl)) rfl).1⟩

/-- C8: an operation returned by `NewAction(id)` leaves, when it commits
successfully while the factory holds the pending actions `P` and the completed
actions `C`, exactly the elements of `P` that are `id` or in `C` as completed
actions: a subset of `P`, without `id` when `id` is not in `P`. -/
theorem action_commit_trims_completed_actions (id : String) (w0 w2 : World ω)
    (state : operation.State) (op : Operation ω)
    (hmade : (resolverOpFactory.NewAction id w0).1 = .ok op)
    (hok : (op.Commit state w2).1.2 = none) :
    (op.Commit state w2).2.s.LocalState.CompletedActions =
      w2.s.RemoteState.Actions.toFinset.filter
        (fun x => x = id ∨ x ∈ w2.s.LocalState.CompletedActions) ∧
    (∀ x ∈ (op.Commit state w2).2.s.LocalState.CompletedActions,
      x ∈ w2.s.RemoteState.Actions) ∧
    (id ∉ w2.s.RemoteState.Actions →
      id ∉ (op.Commit state w2).2.s.LocalState.CompletedActions) := by
  obtain ⟨b, rfl⟩ := resolverOpFactory.NewAction_ok id w0 op hmade
  rw [resolverOpFactory.Commit_actionOp] at hok ⊢
  cases hc : (b.Commit state w2.ext).1.2 with
  | some err => simp [hc] at hok
  | none =>
    simp only [trimCompletedActions_eq]
    refine ⟨?_, ?_, ?_⟩
    · ext x
      simp only [Finset.mem_filter, Finset.mem_insert, List.mem_toFinset]
    · intro x hx
      exact List.mem_toFinset.mp (Finset.mem_filter.mp hx).1
    · intro hid hx
      exact hid (List.mem_toFinset.mp (Finset.mem_filter.mp hx).1)

/-- C8, at a concrete input: `a1` committed with `a1`, `a2` pending and `a2`,
`a9` completed leaves `a1`, `a2`; `a3` committed with only `a2` pending leaves
`a2`. -/
theorem action_commit_trims_completed_actions_witness :
    ((Operation.onCommitWrapper (.base (constBase (none, none)))
          (resolverOpFactory.actionCallback "a1")).Commit operation.State.zero
        (exampleWorld () (.ok (constBase (none, none))) (exampleLocal {"a2", "a9"})
          (exampleRemote 50 ["a1", "a2"]))).2.s.LocalState.CompletedActions = {"a1", "a2"} ∧
    "a3" ∉ ((Operation.onCommitWrapper (.base (constBase (none, none)))
          (resolverOpFactory.actionCallback "a3")).Commit operation.State.zero
        (exampleWorld () (.ok (constBase (none, none))) (exampleLocal {"a2", "a9"})
          (exampleRemote 50 ["a2"]))).2.s.LocalState.CompletedActions :=
  ⟨(action_commit_trims_completed_actions "a1"
      (exampleWorld () (.ok (constBase (none, none))) (exampleLocal ∅) (exampleRemote 5 []))
      (exampleWorld () (.ok (constBase (none, none))) (exampleLocal {"a2", "a9"})
        (exampleRemote 50 ["a1", "a2"]))
      operation.State.zero _ rfl rfl).1.trans (by decide),
    (action_commit_trims_completed_actions "a3"
      (exampleWorld () (.ok (constBase (none, none))) (exampleLocal ∅) (exampleRemote 5 []))
      (exampleWorld () (.ok (constBase (none, none))) (exampleLocal {"a2", "a9"})
        (exampleRemote 50 ["a2"]))
      operation.State.zero _ rfl rfl).2.2 (by decide)⟩

/-- C10, where it fails: the underlying constructor fails with an error `e` that
is already annotated, `errors.Trace` of "no such hook"; the decorating
constructor returns `errors.Trace(e)`, whose cause is the cause of `e`, the
error "no such hook", and not `e`. -/
theorem construction_failure_cause_differs :
    resolverOpFactory.NewRunHook (exampleInfo "start")
        (exampleWorld () (.error (errors.Trace (Error.New 13 "no such hook"))) (exampleLocal ∅)
          (exampleRemote 5 [])) =
      (.error (errors.Trace (errors.Trace (Error.New 13 "no such hook"))),
        exampleWorld () (.error (errors.Trace (Error.New 13 "no such hook"))) (exampleLocal ∅)
          (exampleRemote 5 [])) ∧
    errors.Cause (errors.Trace (errors.Trace (Error.New 13 "no such hook"))) =
      Error.New 13 "no such hook" ∧
    errors.Cause (errors.Trace (errors.Trace (Error.New 13 "no such hook"))) ≠
      errors.Trace (Error.New 13 "no such hook") :=
  ⟨rfl, rfl, by decide⟩

/-- C10, amended: when the constructor of the underlying factory fails with `e`,
each of the six constructors of the decorating factory returns no operation
(hence no callback) and `errors.Trace(e)`, whose cause is the cause of `e`,
which is `e` itself when `e` is its own cause (not an annotated error), and
leaves the factory, its `LocalState` included, as it was; the world outside the
factory is as the underlying constructor left it. -/
theorem construction_failure_is_propagated (w : World ω) (e : Error) (e1 : ω) :
    errors.Cause (errors.Trace e) = errors.Cause e ∧
    (errors.Cause e = e → errors.Cause (errors.Trace e) = e) ∧
    (∀ info, w.s.Factory.NewRunHook info w.ext = (.error e, e1) →
      resolverOpFactory.NewRunHook info w = (.error (errors.Trace e), { w with ext := e1 })) ∧
    (∀ info, w.s.Factory.NewSkipHook info w.ext = (.error e, e1) →
      resolverOpFactory.NewSkipHook info w = (.error (errors.Trace e), { w with ext := e1 })) ∧
    (∀ u, w.s.Factory.NewUpgrade u w.ext = (.error e, e1) →
      resolverOpFactory.NewUpgrade u w = (.error (errors.Trace e), { w with ext := e1 })) ∧
    (∀ u, w.s.Factory.NewRevertUpgrade u w.ext = (.error e, e1) →
      resolverOpFactory.NewRevertUpgrade u w =
        (.error (errors.Trace e), { w with ext := e1 })) ∧
    (∀ u, w.s.Factory.NewResolvedUpgrade u w.ext = (.error e, e1) →
      resolverOpFactory.NewResolvedUpgrade u w =
        (.error (errors.Trace e), { w with ext := e1 })) ∧
    (∀ id, w.s.Factory.NewAction id w.ext = (.error e, e1) →
      resolverOpFactory.NewAction id w = (.error (errors.Trace e), { w with ext := e1 })) := by
  refine ⟨rfl, fun h => h, ?_, ?_, ?_, ?_, ?_, ?_⟩
  · intro info h; simp [resolverOpFactory.NewRunHook, h]
  · intro info h; simp [resolverOpFactory.NewSkipHook, h]
  · intro u h; simp [resolverOpFactory.NewUpgrade, h]
  · intro u h; simp [resolverOpFactory.NewRevertUpgrade, h]
  · intro u h; simp [resolverOpFactory.NewResolvedUpgrade, h]
  · intro id h; simp [resolverOpFactory.NewAction, h]

/-- C10 amended, at a concrete input: an underlying factory all of whose
constructors fail with "no such hook", an error that is its own cause. -/
theorem construction_failure_is_propagated_witness :
    errors.Cause (errors.Trace (Error.New 13 "no such hook")) = Error.New 13 "no such hook" ∧
    resolverOpFactory.NewRunHook (exampleInfo "start")
        (exampleWorld () (.error (Error.New 13 "no such hook")) (exampleLocal ∅)
          (exampleRemote 5 [])) =
      (.error (errors.Trace (Error.New 13 "no such hook")),
        exampleWorld () (.error (Error.New 13 "no such hook")) (exampleLocal ∅) (exampleRemote 5 [])) ∧
    resolverOpFactory.NewAction "a1"
        (exampleWorld () (.error (Error.New 13 "no such hook")) (exampleLocal ∅)
          (exampleRemote 5 [])) =
      (.error (errors.Trace (Error.New 13 "no such hook")),
        exampleWorld () (.error (Error.New 13 "no such hook")) (exampleLocal ∅) (exampleRemote 5 [])) :=
  ⟨(construction_failure_is_propagated
      (exampleWorld () (.error (Error.New 13 "no such hook")) (exampleLocal ∅) (exampleRemote 5 []))
      (Error.New 13 "no such hook") ()).2.1 rfl,
    (construction_failure_is_propagated
      (exampleWorld () (.error (Error.New 13 "no such hook")) (exampleLocal ∅) (exampleRemote 5 []))
      (Error.New 13 "no such hook") ()).2.2.1 (exampleInfo "start") rfl,
    (construction_failure_is_propagated
      (exampleWorld () (.error (Error.New 13 "no such hook")) (exampleLocal ∅) (exampleRemote 5 []))
      (Error.New 13 "no such hook") ()).2.2.2.2.2.2.2 "a1" rfl⟩

/-- C6, evaluated where it fails: the operation `NewAction` returns for `a1`,
committed successfully on the same local state in two runs that differ only in
the remote state assigned after its creation (`a1` still pending, or no action
pending), leaves different local states. -/
theorem action_commit_depends_on_later_remote_state :
    (resolverOpFactory.NewAction "a1"
        (exampleWorld () (.ok (constBase (none, none))) (exampleLocal ∅)
          (exampleRemote 5 ["a1"]))).1 =
      .ok (.onCommitWrapper (.base (constBase (none, none)))
        (resolverOpFactory.actionCallback "a1")) ∧
    ((Operation.onCommitWrapper (.base (constBase (none, none)))
          (resolverOpFactory.actionCallback "a1")).Commit operation.State.zero
        (exampleWorld () (.ok (constBase (none, none))) (exampleLocal ∅)
          (exampleRemote 5 ["a1"]))).1.2 = none ∧
    ((Operation.onCommitWrapper (.base (constBase (none, none)))
          (resolverOpFactory.actionCallback "a1")).Commit operation.State.zero
        (exampleWorld () (.ok (constBase (none, none))) (exampleLocal ∅)
          (exampleRemote 5 []))).1.2 = none ∧
    ((Operation.onCommitWrapper (.base (constBase (none, none)))
          (resolverOpFactory.actionCallback "a1")).Commit operation.State.zero
        (exampleWorld () (.ok (constBase (none, none))) (exampleLocal ∅)
          (exampleRemote 5 ["a1"]))).2.s.LocalState ≠
      ((Operation.onCommitWrapper (.base (constBase (none, none)))
          (resolverOpFactory.actionCallback "a1")).Commit operation.State.zero
        (exampleWorld () (.ok (constBase (none, none))) (exampleLocal ∅)
          (exampleRemote 5 []))).2.s.LocalState :=
  ⟨rfl, rfl, rfl, by decide⟩

/-- The other five constructors do what `NewAction` misses: for an operation
returned by `NewRunHook`, `NewSkipHook`, `NewUpgrade`, `NewRevertUpgrade` or
`NewResolvedUpgrade`, two commits that differ only in the remote state the
factory holds return the same and leave the same local state; for an operation
returned by `NewAction` they do so when the two remote states have the same
pending actions. -/
theorem commit_ignores_later_remote_state (w0 w1 w2 : World ω) (state : operation.State)
    (op : Operation ω) (hext : w1.ext = w2.ext) (hlocal : w1.s.LocalState = w2.s.LocalState) :
    (((∃ info, (resolverOpFactory.NewRunHook info w0).1 = .ok op) ∨
        (∃ info, (resolverOpFactory.NewSkipHook info w0).1 = .ok op) ∨
        (∃ u, (resolverOpFactory.NewUpgrade u w0).1 = .ok op) ∨
        (∃ u, (resolverOpFactory.NewRevertUpgrade u w0).1 = .ok op) ∨
        (∃ u, (resolverOpFactory.NewResolvedUpgrade u w0).1 = .ok op)) →
      (op.Commit state w1).1 = (op.Commit state w2).1 ∧
        (op.Commit state w1).2.s.LocalState = (op.Commit state w2).2.s.LocalState) ∧
    ((∃ id, (resolverOpFactory.NewAction id w0).1 = .ok op) →
      w1.s.RemoteState.Actions = w2.s.RemoteState.Actions →
      (op.Commit state w1).1 = (op.Commit state w2).1 ∧
        (op.Commit state w1).2.s.LocalState = (op.Commit state w2).2.s.LocalState) := by
  constructor
  · intro hmade
    have hshape : (∃ b info, op = resolverOpFactory.wrapHookOp w0.s (.base b) info) ∨
        (∃ b u, op = resolverOpFactory.wrapUpgradeOp (.base b) u) := by
      rcases hmade with ⟨i, h⟩ | ⟨i, h⟩ | ⟨u, h⟩ | ⟨u, h⟩ | ⟨u, h⟩
      · obtain ⟨b, hb⟩ := resolverOpFactory.NewRunHook_ok i w0 op h
        exact Or.inl ⟨b, i, hb⟩
      · obtain ⟨b, hb⟩ := resolverOpFactory.NewSkipHook_ok i w0 op h
        exact Or.inl ⟨b, i, hb⟩
      · obtain ⟨b, hb⟩ := resolverOpFactory.NewUpgrade_ok u w0 op h
        exact Or.inr ⟨b, u, hb⟩
      · obtain ⟨b, hb⟩ := resolverOpFactory.NewRevertUpgrade_ok u w0 op h
        exact Or.inr ⟨b, u, hb⟩
      · obtain ⟨b, hb⟩ := resolverOpFactory.NewResolvedUpgrade_ok u w0 op h
        exact Or.inr ⟨b, u, hb⟩
    rcases hshape with ⟨b, info, rfl⟩ | ⟨b, u, rfl⟩
    · rw [resolverOpFactory.Commit_wrapHookOp, resolverOpFactory.Commit_wrapHookOp, hext, hlocal]
      cases (b.Commit state w2.ext).1.2 with
      | some err => exact ⟨rfl, hlocal⟩
      | none => exact ⟨rfl, rfl⟩
    · rw [resolverOpFactory.Commit_wrapUpgradeOp, resolverOpFactory.Commit_wrapUpgradeOp, hext,
        hlocal]
      cases (b.Commit state w2.ext).1.2 with
      | some err => exact ⟨rfl, hlocal⟩
      | none => exact ⟨rfl, rfl⟩
  · rintro ⟨id, h⟩ hactions
    obtain ⟨b, rfl⟩ := resolverOpFactory.NewAction_ok id w0 op h
    rw [resolverOpFactory.Commit_actionOp, resolverOpFactory.Commit_actionOp, hext, hlocal,
      hactions]
    cases (b.Commit state w2.ext).1.2 with
    | some err => exact ⟨rfl, hlocal⟩
    | none => exact ⟨rfl, rfl⟩

/-- At concrete inputs: a config-changed hook built under config
version 5 and committed under versions 50 and 60, and an action committed under
two remote states that both have `a1` pending. -/
theorem commit_ignores_later_remote_state_witness :
    ((resolverOpFactory.wrapHookOp
          (exampleWorld () (.ok (constBase (none, none))) (exampleLocal ∅) (exampleRemote 5 [])).s
          (.base (constBase (none, none))) (exampleInfo hooks.ConfigChanged)).Commit
        operation.State.zero
        (exampleWorld () (.ok (constBase (none, none))) (exampleLocal ∅)
          (exampleRemote 50 ["a1"]))).2.s.LocalState =
      ((resolverOpFactory.wrapHookOp
          (exampleWorld () (.ok (constBase (none, none))) (exampleLocal ∅) (exampleRemote 5 [])).s
          (.base (constBase (none, none))) (exampleInfo hooks.ConfigChanged)).Commit
        operation.State.zero
        (exampleWorld () (.ok (constBase (none, none))) (exampleLocal ∅)
          (exampleRemote 60 []))).2.s.LocalState ∧
    ((Operation.onCommitWrapper (.base (constBase (none, none)))
          (resolverOpFactory.actionCallback "a1")).Commit operation.State.zero
        (exampleWorld () (.ok (constBase (none, none))) (exampleLocal ∅)
          (exampleRemote 50 ["a1"]))).2.s.LocalState =
      ((Operation.onCommitWrapper (.base (constBase (none, none)))
          (resolverOpFactory.actionCallback "a1")).Commit operation.State.zero
        (exampleWorld () (.ok (constBase (none, none))) (exampleLocal ∅)
          (exampleRemote 60 ["a1"]))).2.s.LocalState :=
  ⟨((commit_ignores_later_remote_state
        (exampleWorld () (.ok (constBase (none, none))) (exampleLocal ∅) (exampleRemote 5 []))
        (exampleWorld () (.ok (constBase (none, none))) (exampleLocal ∅) (exampleRemote 50 ["a1"]))
        (exampleWorld () (.ok (constBase (none, none))) (exampleLocal ∅) (exampleRemote 60 []))
        operation.State.zero _ rfl rfl).1
      (Or.inl ⟨exampleInfo hooks.ConfigChanged, rfl⟩)).2,
    ((commit_ignores_later_remote_state
        (exampleWorld () (.ok (constBase (none, none))) (exampleLocal ∅) (exampleRemote 5 []))
        (exampleWorld () (.ok (constBase (none, none))) (exampleLocal ∅) (exampleRemote 50 ["a1"]))
        (exampleWorld () (.ok (constBase (none, none))) (exampleLocal ∅) (exampleRemote 60 ["a1"]))
        operation.State.zero _ rfl rfl).2 ⟨"a1", rfl⟩ rfl).2⟩

/-- C9, where it fails: in scenario B the loop calls the resolver a second time,
after the run-action operation for `a1` has committed and the remote state has
changed to `a2` pending only, with `a1` among the completed actions, and it is
with `a1` among the completed actions that it returns.  And when the resolver
writes `zz` into the completed-action map it is handed, the loop returns with
`zz` completed, which was pending in no snapshot at all. -/
theorem loop_keeps_completed_action_no_longer_pending :
    (Loop scenarioB 2 0).events =
      [LoopEvent.SetAvailable false,
        LoopEvent.NextOp (scenarioBLocal ∅) (exampleRemote 0 ["a1", "a2"]),
        LoopEvent.Run,
        LoopEvent.NextOp (scenarioBLocal {"a1"}) (exampleRemote 0 ["a2"]),
        LoopEvent.SetAvailable false,
        LoopEvent.Wait] ∧
    (Loop scenarioB 2 0).ending = Ending.returned (scenarioBLocal {"a1"}) tomb.ErrDying ∧
    "a1" ∈ (scenarioBLocal {"a1"}).CompletedActions ∧
    "a1" ∉ (exampleRemote 0 ["a2"]).Actions ∧
    (Loop scenarioSharedMap 1 0).events =
      [LoopEvent.SetAvailable false,
        LoopEvent.NextOp (scenarioBLocal ∅) (exampleRemote 0 ["a1", "a2"]),
        LoopEvent.SetAvailable false,
        LoopEvent.Wait] ∧
    (Loop scenarioSharedMap 1 0).ending =
      Ending.returned (scenarioBLocal {"zz"}) tomb.ErrDying ∧
    "zz" ∉ (exampleRemote 0 ["a1", "a2"]).Actions := by
  decide

/-! ### The completed actions along a run of `Loop` -/

theorem Covered.mono {seen seen1 : List remotestate.Snapshot} {completed : Finset String}
    (h : Covered seen completed) (hsub : ∀ rs ∈ seen, rs ∈ seen1) : Covered seen1 completed := by
  rcases h with h | ⟨rs, hrs, hx⟩
  · exact Or.inl h
  · exact Or.inr ⟨rs, hsub rs hrs, hx⟩

theorem Keeps.refl (w : World ω) : Keeps w w := ⟨rfl, Or.inl rfl⟩

theorem Keeps.trans {w w1 w2 : World ω} (h1 : Keeps w w1) (h2 : Keeps w1 w2) : Keeps w w2 := by
  refine ⟨h2.1.trans h1.1, ?_⟩
  rcases h2.2 with h | h
  · rcases h1.2 with h0 | h0
    · exact Or.inl (h.trans h0)
    · exact Or.inr (fun x hx => h0 x (h ▸ hx))
  · exact Or.inr (fun x hx => h1.1 ▸ h x hx)

theorem Keeps.covered {w w1 : World ω} {seen : List remotestate.Snapshot} (h : Keeps w w1)
    (hc : Covered seen w.s.LocalState.CompletedActions) (hr : w.s.RemoteState ∈ seen) :
    Covered seen w1.s.LocalState.CompletedActions ∧ w1.s.RemoteState ∈ seen := by
  refine ⟨?_, h.1 ▸ hr⟩
  rcases h.2 with h2 | h2
  · rw [h2]; exact hc
  · exact Or.inr ⟨_, hr, h2⟩

theorem Keeps.of_s_eq {w w1 : World ω} (h : w1.s = w.s) : Keeps w w1 := by
  unfold Keeps
  rw [h]
  exact ⟨rfl, Or.inl rfl⟩

theorem Prepare_s (op : Operation ω) (state : operation.State) (w : World ω) :
    (op.Prepare state w).2.s = w.s := by
  induction op with
  | base b => rfl
  | onCommitWrapper op f ih => exact ih

theorem Execute_s (op : Operation ω) (state : operation.State) (w : World ω) :
    (op.Execute state w).2.s = w.s := by
  induction op with
  | base b => rfl
  | onCommitWrapper op f ih => exact ih

theorem wrapHookOp_tame (s : resolverOpFactory ω) (b : operation.Base ω) (info : hook.Info) :
    (resolverOpFactory.wrapHookOp s (.base b) info).Tame := by
  intro state w
  refine ⟨Keeps.of_s_eq (Prepare_s _ _ _), Keeps.of_s_eq (Execute_s _ _ _), ?_⟩
  rw [resolverOpFactory.Commit_wrapHookOp]
  cases (b.Commit state w.ext).1.2 with
  | some err => exact ⟨rfl, Or.inl rfl⟩
  | none => exact ⟨rfl, Or.inl rfl⟩

theorem wrapUpgradeOp_tame (b : operation.Base ω) (u : Option charm.URL) :
    (resolverOpFactory.wrapUpgradeOp (.base b) u).Tame := by
  intro state w
  refine ⟨Keeps.of_s_eq (Prepare_s _ _ _), Keeps.of_s_eq (Execute_s _ _ _), ?_⟩
  rw [resolverOpFactory.Commit_wrapUpgradeOp]
  cases (b.Commit state w.ext).1.2 with
  | some err => exact ⟨rfl, Or.inl rfl⟩
  | none => exact ⟨rfl, Or.inl rfl⟩

theorem actionOp_tame (b : operation.Base ω) (id : String) :
    (Operation.onCommitWrapper (.base b) (resolverOpFactory.actionCallback id)).Tame := by
  intro state w
  refine ⟨Keeps.of_s_eq (Prepare_s _ _ _), Keeps.of_s_eq (Execute_s _ _ _), ?_⟩
  rw [resolverOpFactory.Commit_actionOp]
  cases (b.Commit state w.ext).1.2 with
  | some err => exact ⟨rfl, Or.inl rfl⟩
  | none =>
    refine ⟨rfl, Or.inr ?_⟩
    intro x hx
    simp only [trimCompletedActions_eq] at hx
    exact List.mem_toFinset.mp (Finset.mem_filter.mp hx).1

theorem Request.make_spec (request : Request) (w : World ω) :
    (request.make w).2.s = w.s ∧ ∀ op, (request.make w).1 = .ok op → op.Tame := by
  cases request with
  | RunHook info =>
    simp only [Request.make, resolverOpFactory.NewRunHook]
    split
    · exact ⟨rfl, fun op h => by simp at h⟩
    · exact ⟨rfl, fun op h => by
        simp only [Except.ok.injEq] at h; subst h; exact wrapHookOp_tame _ _ _⟩
  | SkipHook info =>
    simp only [Request.make, resolverOpFactory.NewSkipHook]
    split
    · exact ⟨rfl, fun op h => by simp at h⟩
    · exact ⟨rfl, fun op h => by
        simp only [Except.ok.injEq] at h; subst h; exact wrapHookOp_tame _ _ _⟩
  | Upgrade u =>
    simp only [Request.make, resolverOpFactory.NewUpgrade]
    split
    · exact ⟨rfl, fun op h => by simp at h⟩
    · exact ⟨rfl, fun op h => by
        simp only [Except.ok.injEq] at h; subst h; exact wrapUpgradeOp_tame _ _⟩
  | RevertUpgrade u =>
    simp only [Request.make, resolverOpFactory.NewRevertUpgrade]
    split
    · exact ⟨rfl, fun op h => by simp at h⟩
    · exact ⟨rfl, fun op h => by
        simp only [Except.ok.injEq] at h; subst h; exact wrapUpgradeOp_tame _ _⟩
  | ResolvedUpgrade u =>
    simp only [Request.make, resolverOpFactory.NewResolvedUpgrade]
    split
    · exact ⟨rfl, fun op h => by simp at h⟩
    · exact ⟨rfl, fun op h => by
        simp only [Except.ok.injEq] at h; subst h; exact wrapUpgradeOp_tame _ _⟩
  | Action id =>
    simp only [Request.make, resolverOpFactory.NewAction]
    split
    · exact ⟨rfl, fun op h => by simp at h⟩
    · exact ⟨rfl, fun op h => by
        simp only [Except.ok.injEq] at h; subst h; exact actionOp_tame _ _⟩

theorem ofPlan_spec (plan : LocalState → remotestate.Snapshot → ω → Except Error Request × ω)
    (ls : LocalState) (rs : remotestate.Snapshot) (w : World ω) :
    ((Resolver.ofPlan plan).NextOp ls rs w).2.s = w.s ∧
      ∀ op, ((Resolver.ofPlan plan).NextOp ls rs w).1 = .ok op → op.Tame := by
  simp only [Resolver.ofPlan]
  split
  · exact ⟨rfl, fun op h => by simp at h⟩
  · next request e _ => exact Request.make_spec request { w with ext := e }

theorem seenAfter_append (seen : List remotestate.Snapshot) (a b : List LoopEvent) :
    seenAfter seen (a ++ b) = seenAfter (seenAfter seen a) b := by
  induction a generalizing seen with
  | nil => rfl
  | cons ev a ih => cases ev <;> simp [seenAfter, ih]

theorem Good_append (seen : List remotestate.Snapshot) (a b : List LoopEvent) :
    Good seen (a ++ b) ↔ Good seen a ∧ Good (seenAfter seen a) b := by
  induction a generalizing seen with
  | nil => simp [Good, seenAfter]
  | cons ev a ih => cases ev <;> simp [Good, seenAfter, ih, and_assoc]

theorem mem_seenAfter (seen : List remotestate.Snapshot) (evs : List LoopEvent)
    (rs : remotestate.Snapshot) :
    rs ∈ seenAfter seen evs ↔ rs ∈ seen ∨ ∃ ls, LoopEvent.NextOp ls rs ∈ evs := by
  induction evs generalizing seen with
  | nil => simp [seenAfter]
  | cons ev evs ih =>
    cases ev with
    | NextOp ls1 rs1 =>
      simp only [seenAfter, ih, List.mem_cons, LoopEvent.NextOp.injEq]
      constructor
      · rintro ((rfl | h) | ⟨ls, h⟩)
        · exact Or.inr ⟨ls1, Or.inl ⟨rfl, rfl⟩⟩
        · exact Or.inl h
        · exact Or.inr ⟨ls, Or.inr h⟩
      · rintro (h | ⟨ls, ⟨_, rfl⟩ | h⟩)
        · exact Or.inl (Or.inr h)
        · exact Or.inl (Or.inl rfl)
        · exact Or.inr ⟨ls, h⟩
    | SetAvailable b => simp [seenAfter, ih]
    | Run => simp [seenAfter, ih]
    | OnIdle => simp [seenAfter, ih]
    | Wait => simp [seenAfter, ih]

theorem Good_split (seen : List remotestate.Snapshot) (pre post : List LoopEvent)
    (ls : LocalState) (rs : remotestate.Snapshot)
    (h : Good seen (pre ++ LoopEvent.NextOp ls rs :: post)) :
    Covered (seenAfter seen pre) ls.CompletedActions := by
  rw [Good_append] at h
  exact h.2.1

theorem Outcome.Sound.after {seen : List remotestate.Snapshot} {evs : List LoopEvent}
    {t : Outcome ω} (hg : Good seen evs) (ht : t.Sound (seenAfter seen evs)) :
    (t.after evs).Sound seen := by
  refine ⟨(Good_append seen evs t.events).mpr ⟨hg, ht.1⟩, ?_⟩
  intro ls err h
  simp only [Outcome.after, seenAfter_append]
  exact ht.2 ls err h

theorem Burst.events_after (evs : List LoopEvent) (b : Burst ω) :
    (b.after evs).events = evs ++ b.events := by
  cases b <;> rfl

theorem Burst.world_after (evs : List LoopEvent) (b : Burst ω) :
    (b.after evs).world = b.world := by
  cases b <;> rfl

theorem made_tame (op : Operation ω) (h : op.Made) : op.Tame := by
  obtain ⟨request, w0, h⟩ := h
  exact (Request.make_spec request w0).2 op h

theorem Executes.keeps {w w1 : World ω} (h : Executes w w1) : Keeps w w1 := by
  induction h with
  | done => exact Keeps.refl _
  | outside w1 e _ ih => exact ih.trans (Keeps.of_s_eq rfl)
  | prepare w1 op state hm _ ih => exact ih.trans ((made_tame op hm) state w1).1
  | execute w1 op state hm _ ih => exact ih.trans ((made_tame op hm) state w1).2.1
  | commit w1 op state hm _ ih => exact ih.trans ((made_tame op hm) state w1).2.2

theorem executorStep_executes (get : ω → operation.State) (put : operation.State → ω → ω)
    (phase : operation.State → World ω → operation.Result × World ω) (w0 w : World ω)
    (h : Executes w0 (phase (get w.ext) w).2) :
    Executes w0 (operation.executorStep get put phase w).2 := by
  unfold operation.executorStep
  simp only
  split
  · exact Executes.outside _ _ _ h
  · exact h

/-- The executor modelled from the spec reaches the factory through the three
phases of the operation only. -/
theorem NewExecutor_executes (get : ω → operation.State) (put : operation.State → ω → ω)
    (op : Operation ω) (w : World ω) (hop : op.Made) :
    Executes w ((operation.NewExecutor get put).Run op w).2 := by
  simp only [operation.NewExecutor]
  have h1 := executorStep_executes get put op.Prepare w w
    (Executes.prepare _ _ op _ hop (Executes.done w))
  split
  · next err w1 heq => rw [heq] at h1; exact h1
  · next w1 heq =>
    rw [heq] at h1
    have h2 := executorStep_executes get put op.Execute w w1
      (Executes.execute _ _ op _ hop h1)
    split
    · next err w2 heq2 => rw [heq2] at h2; exact h2
    · next w2 heq2 =>
      rw [heq2] at h2
      exact executorStep_executes get put op.Commit w w2 (Executes.commit _ _ op _ hop h2)

theorem ofPlan_made (plan : LocalState → remotestate.Snapshot → ω → Except Error Request × ω)
    (ls : LocalState) (rs : remotestate.Snapshot) (w : World ω) (op : Operation ω)
    (h : ((Resolver.ofPlan plan).NextOp ls rs w).1 = .ok op) : op.Made := by
  simp only [Resolver.ofPlan] at h
  split at h
  · simp at h
  · next request e _ => exact ⟨request, { w with ext := e }, h⟩

/-- What `Loop.nextOp` does when the resolver leaves the factory alone and
returns operations the factory made: it calls `NextOp` with the completed
actions it found, and leaves them and the snapshot it took in the factory. -/
theorem nextOp_spec (cfg : LoopConfig ω)
    (hframe : ∀ ls rs w, (cfg.Resolver.NextOp ls rs w).2.s = w.s)
    (hmade : ∀ ls rs w op, (cfg.Resolver.NextOp ls rs w).1 = .ok op → op.Made)
    (w : World ω) :
    ∃ ls rs, (Loop.nextOp cfg w).1 = LoopEvent.NextOp ls rs ∧
      ls.CompletedActions = w.s.LocalState.CompletedActions ∧
      (Loop.nextOp cfg w).2.2.s.RemoteState = rs ∧
      (Loop.nextOp cfg w).2.2.s.LocalState.CompletedActions = w.s.LocalState.CompletedActions ∧
      ∀ op, (Loop.nextOp cfg w).2.1 = .ok op → op.Made := by
  refine ⟨_, _, rfl, rfl, ?_, ?_, ?_⟩
  · simp only [Loop.nextOp]
    rw [hframe]
  · simp only [Loop.nextOp]
    rw [hframe]
  · simp only [Loop.nextOp]
    exact hmade _ _ _

theorem burst_sound (cfg : LoopConfig ω)
    (hframe : ∀ ls rs w, (cfg.Resolver.NextOp ls rs w).2.s = w.s)
    (hmade : ∀ ls rs w op, (cfg.Resolver.NextOp ls rs w).1 = .ok op → op.Made)
    (hexec : ∀ op w, op.Made → Executes w (cfg.Executor.Run op w).2) :
    ∀ (fuel : Nat) (r : Except Error (Operation ω)) (w : World ω)
      (seen : List remotestate.Snapshot),
      (∀ op, r = .ok op → op.Made) →
      Covered seen w.s.LocalState.CompletedActions → w.s.RemoteState ∈ seen →
      Good seen (Loop.burst cfg fuel r w).events ∧
        Covered (seenAfter seen (Loop.burst cfg fuel r w).events)
          (Loop.burst cfg fuel r w).world.s.LocalState.CompletedActions := by
  intro fuel
  induction fuel with
  | zero =>
    intro r w seen _ hc _
    cases r with
    | error err => exact ⟨trivial, hc⟩
    | ok op => exact ⟨trivial, hc⟩
  | succ fuel ih =>
    intro r w seen hop hc hr
    cases r with
    | error err => exact ⟨trivial, hc⟩
    | ok op =>
      have hk := (hexec op w (hop op rfl)).keeps
      simp only [Loop.burst]
      split
      · next err w1 heq =>
        rw [heq] at hk
        exact ⟨trivial, (hk.covered hc hr).1⟩
      · next w1 heq =>
        rw [heq] at hk
        obtain ⟨ls, rs, hev, hls, hrs, hcs, hm⟩ := nextOp_spec cfg hframe hmade w1
        have hc1 := (hk.covered hc hr).1
        have hc2 : Covered (rs :: seen)
            (Loop.nextOp cfg w1).2.2.s.LocalState.CompletedActions := by
          rw [hcs]
          exact hc1.mono (fun x hx => List.mem_cons_of_mem _ hx)
        have hr2 : (Loop.nextOp cfg w1).2.2.s.RemoteState ∈ rs :: seen := by
          rw [hrs]; exact List.mem_cons_self _ _
        have h := ih (Loop.nextOp cfg w1).2.1 (Loop.nextOp cfg w1).2.2 (rs :: seen) hm hc2 hr2
        rw [Burst.events_after, Burst.world_after, hev]
        refine ⟨?_, ?_⟩
        · simp only [List.cons_append, List.nil_append, Good]
          exact ⟨hls ▸ hc1, h.1⟩
        · simp only [List.cons_append, List.nil_append, seenAfter]
          exact h.2

theorem wait_sound (cfg : LoopConfig ω) (next : World ω → Outcome ω)
    (seen : List remotestate.Snapshot) (w : World ω)
    (hc : Covered seen w.s.LocalState.CompletedActions)
    (hnext : ∀ w1 : World ω, w1.s = w.s → (next w1).Sound seen) :
    (Loop.wait cfg next w).Sound seen := by
  unfold Loop.wait
  split
  · refine ⟨trivial, ?_⟩
    intro ls err h
    simp only [Ending.returned.injEq] at h
    rw [← h.1]
    exact hc
  · next e _ =>
    have hn : (next { w with ext := e }).Sound (seenAfter seen [LoopEvent.Wait]) :=
      hnext { w with ext := e } rfl
    exact Outcome.Sound.after (by trivial) hn
  · refine ⟨trivial, ?_⟩
    intro ls err h
    simp at h

theorem returned_sound (seen : List remotestate.Snapshot) (evs : List LoopEvent)
    (ls : LocalState) (err : Error) (w : World ω) (hg : Good seen evs)
    (hc : Covered (seenAfter seen evs) ls.CompletedActions) :
    Outcome.Sound seen { ending := .returned ls err, events := evs, world := w } := by
  refine ⟨hg, ?_⟩
  intro ls1 err1 h
  simp only [Ending.returned.injEq] at h
  rw [← h.1]
  exact hc

theorem loop_sound (cfg : LoopConfig ω)
    (hframe : ∀ ls rs w, (cfg.Resolver.NextOp ls rs w).2.s = w.s)
    (hmade : ∀ ls rs w op, (cfg.Resolver.NextOp ls rs w).1 = .ok op → op.Made)
    (hexec : ∀ op w, op.Made → Executes w (cfg.Executor.Run op w).2) :
    ∀ (fuel : Nat) (w : World ω) (seen : List remotestate.Snapshot),
      Covered seen w.s.LocalState.CompletedActions → (Loop.loop cfg fuel w).Sound seen := by
  intro fuel
  induction fuel with
  | zero =>
    intro w seen _
    exact ⟨trivial, fun ls err h => by simp [Loop.loop] at h⟩
  | succ fuel ih =>
    intro w seen hc
    obtain ⟨ls, rs, hev, hls, hrs, hcs, htame⟩ := nextOp_spec cfg hframe hmade w
    have hc0 : Covered seen ls.CompletedActions := hls ▸ hc
    have hc1 : Covered (rs :: seen) (Loop.nextOp cfg w).2.2.s.LocalState.CompletedActions := by
      rw [hcs]
      exact hc.mono (fun x hx => List.mem_cons_of_mem _ hx)
    have hr1 : (Loop.nextOp cfg w).2.2.s.RemoteState ∈ rs :: seen := by
      rw [hrs]; exact List.mem_cons_self _ _
    have hb := burst_sound cfg hframe hmade hexec fuel (Loop.nextOp cfg w).2.1
      (Loop.nextOp cfg w).2.2 (rs :: seen) htame hc1 hr1
    simp only [Loop.loop]
    split
    · next evs w1 heq =>
      rw [heq] at hb
      rw [hev]
      exact ⟨⟨hc0, hb.1⟩, fun ls1 err1 h => by simp at h⟩
    · next err evs w1 heq =>
      rw [heq] at hb
      rw [hev]
      exact returned_sound seen _ _ _ _ ⟨hc0, hb.1⟩ hb.2
    · next err evs w1 heq =>
      rw [heq] at hb
      rw [hev]
      simp only [Burst.events, Burst.world] at hb
      have hg2 : Good seen (LoopEvent.NextOp ls rs ::
          evs ++ [LoopEvent.SetAvailable (charmDirAvailable w1.s.LocalState.State)]) := by
        refine ⟨hc0, ?_⟩
        exact (Good_append _ _ _).mpr ⟨hb.1, trivial⟩
      have hs2 : seenAfter seen (LoopEvent.NextOp ls rs ::
          evs ++ [LoopEvent.SetAvailable (charmDirAvailable w1.s.LocalState.State)]) =
          seenAfter (rs :: seen) evs := by
        show seenAfter (rs :: seen)
          (evs ++ [LoopEvent.SetAvailable (charmDirAvailable w1.s.LocalState.State)]) = _
        rw [seenAfter_append]
        rfl
      have hg3 : Good seen ((LoopEvent.NextOp ls rs ::
          evs ++ [LoopEvent.SetAvailable (charmDirAvailable w1.s.LocalState.State)]) ++
            [LoopEvent.OnIdle]) :=
        (Good_append _ _ _).mpr ⟨hg2, trivial⟩
      have hs3 : seenAfter seen ((LoopEvent.NextOp ls rs ::
          evs ++ [LoopEvent.SetAvailable (charmDirAvailable w1.s.LocalState.State)]) ++
            [LoopEvent.OnIdle]) = seenAfter (rs :: seen) evs := by
        rw [seenAfter_append, hs2]; rfl
      split
      · refine Outcome.Sound.after hg2 ?_
        rw [hs2]
        exact wait_sound cfg _ _ _ hb.2 (fun w2 h => ih w2 _ (h ▸ hb.2))
      · split
        · split
          · refine Outcome.Sound.after hg2 ?_
            rw [hs2]
            exact wait_sound cfg _ _ _ hb.2 (fun w2 h => ih w2 _ (h ▸ hb.2))
          · split
            · exact returned_sound seen _ _ _ _ hg3 (hs3 ▸ hb.2)
            · refine Outcome.Sound.after hg3 ?_
              rw [hs3]
              exact wait_sound cfg _ _ _ hb.2 (fun w2 h => ih w2 _ (h ▸ hb.2))
        · exact returned_sound seen _ _ _ _ hg2 (hs2 ▸ hb.2)

/-- C9, amended: when the resolver leaves the factory as it is (it does not
write to the completed-action map it is handed) and returns only operations
that the decorating factory made, and the executor reaches the factory only by
calling methods of such operations, then at every call `Loop` makes to `NextOp`,
and when `Loop` returns, the completed actions are none or are all pending in
one remote-state snapshot that `Loop` handed to an earlier `NextOp` call; that
snapshot need not be the most recent one. -/
theorem loop_completed_actions_were_pending (cfg : LoopConfig ω)
    (hframe : ∀ ls rs w, (cfg.Resolver.NextOp ls rs w).2.s = w.s)
    (hmade : ∀ ls rs w op, (cfg.Resolver.NextOp ls rs w).1 = .ok op → op.Made)
    (hexec : ∀ op w, op.Made → Executes w (cfg.Executor.Run op w).2) (fuel : Nat) (e : ω) :
    (∀ pre post ls rs, (Loop cfg fuel e).events = pre ++ LoopEvent.NextOp ls rs :: post →
      ls.CompletedActions = ∅ ∨
        ∃ ls1 rs1, LoopEvent.NextOp ls1 rs1 ∈ pre ∧ ∀ x ∈ ls.CompletedActions, x ∈ rs1.Actions) ∧
    (∀ ls err, (Loop cfg fuel e).ending = Ending.returned ls err →
      ls.CompletedActions = ∅ ∨
        ∃ ls1 rs1, LoopEvent.NextOp ls1 rs1 ∈ (Loop cfg fuel e).events ∧
          ∀ x ∈ ls.CompletedActions, x ∈ rs1.Actions) := by
  have hsound : (Loop cfg fuel e).Sound [] := by
    unfold Loop
    exact Outcome.Sound.after (by trivial)
      (loop_sound cfg hframe hmade hexec fuel _ _ (Or.inl rfl))
  have hconv : ∀ (evs : List LoopEvent) (completed : Finset String),
      Covered (seenAfter [] evs) completed →
      completed = ∅ ∨
        ∃ ls1 rs1, LoopEvent.NextOp ls1 rs1 ∈ evs ∧ ∀ x ∈ completed, x ∈ rs1.Actions := by
    intro evs completed h
    rcases h with h | ⟨rs1, hmem, hx⟩
    · exact Or.inl h
    · rcases (mem_seenAfter [] evs rs1).mp hmem with h0 | ⟨ls1, h1⟩
      · simp at h0
      · exact Or.inr ⟨ls1, rs1, h1, hx⟩
  constructor
  · intro pre post ls rs hsplit
    have hg := hsound.1
    rw [hsplit] at hg
    exact hconv pre _ (Good_split [] pre post ls rs hg)
  · intro ls err hend
    exact hconv _ _ (hsound.2 ls err hend)

/-- C9 amended, on scenario B, whose resolver asks the factory for its
operations and whose executor is the one modelled from the spec: at the second
`NextOp` call, and when the loop returns, the completed action `a1` was pending
in the snapshot of the first call. -/
theorem loop_completed_actions_were_pending_witness :
    ((scenarioBLocal {"a1"}).CompletedActions = ∅ ∨
      ∃ ls1 rs1, LoopEvent.NextOp ls1 rs1 ∈
          [LoopEvent.SetAvailable false,
            LoopEvent.NextOp (scenarioBLocal ∅) (exampleRemote 0 ["a1", "a2"]),
            LoopEvent.Run] ∧
        ∀ x ∈ (scenarioBLocal {"a1"}).CompletedActions, x ∈ rs1.Actions) ∧
    ((scenarioBLocal {"a1"}).CompletedActions = ∅ ∨
      ∃ ls1 rs1, LoopEvent.NextOp ls1 rs1 ∈ (Loop scenarioB 2 0).events ∧
        ∀ x ∈ (scenarioBLocal {"a1"}).CompletedActions, x ∈ rs1.Actions) :=
  ⟨(loop_completed_actions_were_pending scenarioB
      (fun ls rs w =>
        (ofPlan_spec
          (fun _ _ e => (if e = 1 then .ok (Request.Action "a1") else .error ErrNoOperation, e))
          ls rs w).1)
      (fun ls rs w op h =>
        ofPlan_made
          (fun _ _ e => (if e = 1 then .ok (Request.Action "a1") else .error ErrNoOperation, e))
          ls rs w op h)
      (fun op w hop => NewExecutor_executes (fun _ => operation.State.zero) (fun _ e => e) op w hop)
      2 0).1
      [LoopEvent.SetAvailable false,
        LoopEvent.NextOp (scenarioBLocal ∅) (exampleRemote 0 ["a1", "a2"]),
        LoopEvent.Run]
      [LoopEvent.SetAvailable false, LoopEvent.Wait]
      (scenarioBLocal {"a1"}) (exampleRemote 0 ["a2"]) (by decide),
    (loop_completed_actions_were_pending scenarioB
      (fun ls rs w =>
        (ofPlan_spec
          (fun _ _ e => (if e = 1 then .ok (Request.Action "a1") else .error ErrNoOperation, e))
          ls rs w).1)
      (fun ls rs w op h =>
        ofPlan_made
          (fun _ _ e => (if e = 1 then .ok (Request.Action "a1") else .error ErrNoOperation, e))
          ls rs w op h)
      (fun op w hop => NewExecutor_executes (fun _ => operation.State.zero) (fun _ e => e) op w hop)
      2 0).2 (scenarioBLocal {"a1"}) tomb.ErrDying (by decide)⟩

/-! ### Construction does not touch the local state -/

theorem Commit_failed_s (op : Operation ω) (state : operation.State) (w : World ω)
    (h : (op.Commit state w).1.2 ≠ none) : (op.Commit state w).2.s = w.s := by
  induction op with
  | base b => rfl
  | onCommitWrapper op f ih =>
    cases hc : (op.Commit state w).1.2 with
    | none =>
      rw [Commit_wrapper_ok op f state w hc] at h
      exact absurd rfl h
    | some e =>
      rw [Commit_wrapper_failed op f state w e hc]
      exact ih (by rw [hc]; simp)

/-- C11: each of the six constructors of the decorating factory leaves the
factory, its `LocalState` included, exactly as it was; and the operation a
successful construction returns leaves the `LocalState` as it finds it when it
is prepared, when it is executed, and when it is committed and its commit
fails: the `LocalState` changes only in a `Commit` that succeeds. -/
theorem construction_leaves_local_state (request : Request) (w : World ω) :
    (request.make w).2.s = w.s ∧
    ∀ op, (request.make w).1 = .ok op → ∀ (state : operation.State) (w2 : World ω),
      (op.Prepare state w2).2.s.LocalState = w2.s.LocalState ∧
      (op.Execute state w2).2.s.LocalState = w2.s.LocalState ∧
      ((op.Commit state w2).1.2 ≠ none →
        (op.Commit state w2).2.s.LocalState = w2.s.LocalState) := by
  refine ⟨(Request.make_spec request w).1, ?_⟩
  intro op _ state w2
  refine ⟨?_, ?_, ?_⟩
  · rw [Prepare_s]
  · rw [Execute_s]
  · intro h
    rw [Commit_failed_s op state w2 h]

/-- C11, at a concrete input: a config-changed hook built on a factory whose
underlying commit fails. -/
theorem construction_leaves_local_state_witness :
    (resolverOpFactory.NewRunHook (exampleInfo hooks.ConfigChanged)
        (exampleWorld () (.ok (constBase (none, some (Error.New 10 "commit failed"))))
          (exampleLocal {"a1"}) (exampleRemote 5 []))).2.s.LocalState = exampleLocal {"a1"} ∧
    ((resolverOpFactory.wrapHookOp
          (exampleWorld () (.ok (constBase (none, some (Error.New 10 "commit failed"))))
            (exampleLocal {"a1"}) (exampleRemote 5 [])).s
          (.base (constBase (none, some (Error.New 10 "commit failed"))))
          (exampleInfo hooks.ConfigChanged)).Commit operation.State.zero
        (exampleWorld () (.ok (constBase (none, some (Error.New 10 "commit failed"))))
          (exampleLocal {"a1"}) (exampleRemote 50 []))).2.s.LocalState = exampleLocal {"a1"} :=
  ⟨congrArg resolverOpFactory.LocalState
      (construction_leaves_local_state (Request.RunHook (exampleInfo hooks.ConfigChanged))
        (exampleWorld () (.ok (constBase (none, some (Error.New 10 "commit failed"))))
          (exampleLocal {"a1"}) (exampleRemote 5 []))).1,
    ((construction_leaves_local_state (Request.RunHook (exampleInfo hooks.ConfigChanged))
        (exampleWorld () (.ok (constBase (none, some (Error.New 10 "commit failed"))))
          (exampleLocal {"a1"}) (exampleRemote 5 []))).2 _ rfl operation.State.zero
      (exampleWorld () (.ok (constBase (none, some (Error.New 10 "commit failed"))))
        (exampleLocal {"a1"}) (exampleRemote 50 []))).2.2 (by decide)⟩

/-! ### `updateCharmDir` -/

/-- C12: for an operation state whose kind is install or upgrade, or that is not
started, or that is stopped, `updateCharmDir` calls `SetAvailable(false)`,
whatever the other fields are: on any locker it is that one call, and a
recording locker records `false` and nothing else. -/
theorem updateCharmDir_unavailable (opState : operation.State)
    (h : opState.Kind = operation.Install ∨ opState.Kind = operation.Upgrade ∨
      opState.Started = false ∨ opState.Stopped = true) :
    (∀ (ω : Type) (locker : charmdir.Locker ω) (e : ω),
      updateCharmDir opState locker e = locker.SetAvailable false e) ∧
    ∀ log, updateCharmDir opState recordingLocker log = log ++ [false] := by
  have hav : charmDirAvailable opState = false := by
    unfold charmDirAvailable
    rcases h with h | h | h | h
    · simp [h]
    · simp [h]
    · simp [h]
    · simp [h]
  constructor
  · intro ω locker e
    simp [updateCharmDir, hav]
  · intro log
    simp [updateCharmDir, hav, recordingLocker]

/-- C12, at concrete inputs: a started state of kind upgrade, and a state of kind
continue that was never started. -/
theorem updateCharmDir_unavailable_witness :
    updateCharmDir (exampleState operation.Upgrade none) recordingLocker [] = [false] ∧
    updateCharmDir { exampleState operation.Continue none with Started := false }
      recordingLocker [] = [false] :=
  ⟨(updateCharmDir_unavailable (exampleState operation.Upgrade none) (Or.inr (Or.inl rfl))).2 [],
    (updateCharmDir_unavailable { exampleState operation.Continue none with Started := false }
      (Or.inr (Or.inr (Or.inl rfl)))).2 []⟩

/-- C13, where it fails: for a started, not stopped state of kind continue whose
hook is of kind upgrade-charm, `updateCharmDir` calls `SetAvailable(true)`. -/
theorem updateCharmDir_available_with_upgrade_charm_hook :
    (exampleState operation.Continue (some (exampleInfo hooks.UpgradeCharm))).Hook =
      some (exampleInfo hooks.UpgradeCharm) ∧
    (exampleInfo hooks.UpgradeCharm).Kind = hooks.UpgradeCharm ∧
    updateCharmDir (exampleState operation.Continue (some (exampleInfo hooks.UpgradeCharm)))
      recordingLocker [] = [true] := by
  decide

/-- C13, amended: for an operation state of kind run-hook whose hook is of kind
upgrade-charm, `updateCharmDir` calls `SetAvailable(false)`, whatever the
`Started` and `Stopped` flags are. -/
theorem updateCharmDir_unavailable_running_upgrade_charm (opState : operation.State)
    (h : hook.Info) (hkind : opState.Kind = operation.RunHook) (hhook : opState.Hook = some h)
    (hh : h.Kind = hooks.UpgradeCharm) :
    (∀ (ω : Type) (locker : charmdir.Locker ω) (e : ω),
      updateCharmDir opState locker e = locker.SetAvailable false e) ∧
    ∀ log, updateCharmDir opState recordingLocker log = log ++ [false] := by
  have hav : charmDirAvailable opState = false := by
    unfold charmDirAvailable
    simp [hkind, hhook, hh]
  constructor
  · intro ω locker e
    simp [updateCharmDir, hav]
  · intro log
    simp [updateCharmDir, hav, recordingLocker]

/-- C13 amended, at a concrete input: a started, not stopped state of kind
run-hook whose hook is of kind upgrade-charm. -/
theorem updateCharmDir_unavailable_running_upgrade_charm_witness :
    updateCharmDir (exampleState operation.RunHook (some (exampleInfo hooks.UpgradeCharm)))
      recordingLocker [] = [false] :=
  (updateCharmDir_unavailable_running_upgrade_charm
    (exampleState operation.RunHook (some (exampleInfo hooks.UpgradeCharm)))
    (exampleInfo hooks.UpgradeCharm) rfl rfl rfl).2 []

/-- C14: for an operation state that is started and not stopped, whose kind is
neither install nor upgrade and whose hook, if it has one, is not of kind
upgrade-charm, `updateCharmDir` calls `SetAvailable(true)`: on any locker it is
that one call (there is no error it could return), and a recording locker
records `true` and nothing else. -/
theorem updateCharmDir_available (opState : operation.State)
    (hstarted : opState.Started = true) (hstopped : opState.Stopped = false)
    (hinstall : opState.Kind ≠ operation.Install) (hupgrade : opState.Kind ≠ operation.Upgrade)
    (hhook : ∀ h, opState.Hook = some h → h.Kind ≠ hooks.UpgradeCharm) :
    (∀ (ω : Type) (locker : charmdir.Locker ω) (e : ω),
      updateCharmDir opState locker e = locker.SetAvailable true e) ∧
    ∀ log, updateCharmDir opState recordingLocker log = log ++ [true] := by
  have hav : charmDirAvailable opState = true := by
    unfold charmDirAvailable
    cases hh : opState.Hook with
    | none => simp [hstarted, hstopped, hinstall, hupgrade]
    | some h => simp [hstarted, hstopped, hinstall, hupgrade, hhook h hh]
  constructor
  · intro ω locker e
    simp [updateCharmDir, hav]
  · intro log
    simp [updateCharmDir, hav, recordingLocker]

/-- C14, at a concrete input: a started, not stopped state of kind run-hook
whose hook is of kind config-changed. -/
theorem updateCharmDir_available_witness :
    updateCharmDir (exampleState operation.RunHook (some (exampleInfo hooks.ConfigChanged)))
      recordingLocker [] = [true] :=
  (updateCharmDir_available
    (exampleState operation.RunHook (some (exampleInfo hooks.ConfigChanged)))
    rfl rfl (by decide) (by decide)
    (fun h hh => by
      have : h = exampleInfo hooks.ConfigChanged := by
        simpa [exampleState] using hh.symm
      rw [this]
      decide)).2 []

/-! ### Unfolding the loop -/

theorem Burst.after_nil (b : Burst ω) : b.after [] = b := by
  cases b <;> rfl

theorem Burst.after_after (b : Burst ω) (a c : List LoopEvent) :
    (b.after a).after c = b.after (c ++ a) := by
  cases b <;> simp [Burst.after]

theorem burst_error (cfg : LoopConfig ω) (fuel : Nat) (err : Error) (w : World ω) :
    Loop.burst cfg fuel (.error err) w = .settled err [] w := by
  cases fuel <;> rfl

theorem nextOp_event (cfg : LoopConfig ω) (w : World ω) :
    ∃ ls rs, (Loop.nextOp cfg w).1 = LoopEvent.NextOp ls rs :=
  ⟨_, _, rfl⟩

theorem burst_afterOps (cfg : LoopConfig ω) :
    ∀ (k : Nat) (r : Except Error (Operation ω)) (w : World ω)
      (r1 : Except Error (Operation ω)) (w1 : World ω),
      Loop.afterOps cfg k (r, w) = some (r1, w1) →
      ∃ calls : List (LocalState × remotestate.Snapshot), calls.length = k ∧
        ∀ fuel, Loop.burst cfg (fuel + k) r w =
          (Loop.burst cfg fuel r1 w1).after (burstEvents calls) := by
  intro k
  induction k with
  | zero =>
    intro r w r1 w1 h
    simp only [Loop.afterOps, Option.some.injEq, Prod.mk.injEq] at h
    obtain ⟨rfl, rfl⟩ := h
    exact ⟨[], rfl, fun fuel => by simp [burstEvents, Burst.after_nil]⟩
  | succ k ih =>
    intro r w r1 w1 h
    cases r with
    | error err => simp [Loop.afterOps] at h
    | ok op =>
      simp only [Loop.afterOps] at h
      split at h
      · simp at h
      · next wa heq =>
        obtain ⟨calls, hlen, hb⟩ :=
          ih (Loop.nextOp cfg wa).2.1 (Loop.nextOp cfg wa).2.2 r1 w1 h
        obtain ⟨ls, rs, hev⟩ := nextOp_event cfg wa
        refine ⟨(ls, rs) :: calls, by simp [hlen], ?_⟩
        intro fuel
        have hf : fuel + (k + 1) = (fuel + k) + 1 := by omega
        rw [hf]
        simp only [Loop.burst, heq]
        rw [hb fuel, Burst.after_after, hev]
        rfl

theorem burst_settled_of_afterOps (cfg : LoopConfig ω) (k fuel : Nat)
    (r : Except Error (Operation ω)) (w wk : World ω) (err : Error)
    (hops : Loop.afterOps cfg k (r, w) = some (.error err, wk)) (hfuel : k ≤ fuel) :
    ∃ calls : List (LocalState × remotestate.Snapshot), calls.length = k ∧
      Loop.burst cfg fuel r w = .settled err (burstEvents calls) wk := by
  obtain ⟨calls, hlen, hb⟩ := burst_afterOps cfg k r w _ _ hops
  refine ⟨calls, hlen, ?_⟩
  have hf : fuel = (fuel - k) + k := by omega
  rw [hf, hb, burst_error]
  simp [Burst.after]

theorem burst_failed_of_afterOps (cfg : LoopConfig ω) (k fuel : Nat)
    (r : Except Error (Operation ω)) (w wk w1 : World ω) (op : Operation ω) (e : Error)
    (hops : Loop.afterOps cfg k (r, w) = some (.ok op, wk))
    (hrun : cfg.Executor.Run op wk = (some e, w1)) (hfuel : k < fuel) :
    ∃ calls : List (LocalState × remotestate.Snapshot), calls.length = k ∧
      Loop.burst cfg fuel r w =
        .failed (errors.Trace e) (burstEvents calls ++ [LoopEvent.Run]) w1 := by
  obtain ⟨calls, hlen, hb⟩ := burst_afterOps cfg k r w _ _ hops
  refine ⟨calls, hlen, ?_⟩
  have hf : fuel = (fuel - k - 1 + 1) + k := by omega
  rw [hf, hb]
  simp only [Loop.burst, hrun]
  simp [Burst.after]

theorem executorStep_fst (get : ω → operation.State) (put : operation.State → ω → ω)
    (phase : operation.State → World ω → operation.Result × World ω) (w : World ω) :
    (operation.executorStep get put phase w).1 = (phase (get w.ext) w).1.2 := by
  unfold operation.executorStep
  simp only
  split <;> rfl

theorem executorStep_s (get : ω → operation.State) (put : operation.State → ω → ω)
    (phase : operation.State → World ω → operation.Result × World ω) (w : World ω) :
    (operation.executorStep get put phase w).2.s = (phase (get w.ext) w).2.s := by
  unfold operation.executorStep
  simp only
  split <;> rfl

/-- A run of the executor that fails leaves the factory as it was. -/
theorem Run_failed_s (get : ω → operation.State) (put : operation.State → ω → ω)
    (op : Operation ω) (w w1 : World ω) (e : Error)
    (h : (operation.NewExecutor get put).Run op w = (some e, w1)) : w1.s = w.s := by
  have hp : (operation.executorStep get put op.Prepare w).2.s = w.s := by
    rw [executorStep_s, Prepare_s]
  simp only [operation.NewExecutor] at h
  split at h
  · next err wa heq =>
    rw [heq] at hp
    simp only [Prod.mk.injEq] at h
    rw [← h.2]
    exact hp
  · next wa heq =>
    rw [heq] at hp
    have hx : (operation.executorStep get put op.Execute wa).2.s = wa.s := by
      rw [executorStep_s, Execute_s]
    split at h
    · next err wb heq2 =>
      rw [heq2] at hx
      simp only [Prod.mk.injEq] at h
      rw [← h.2]
      exact hx.trans hp
    · next wb heq2 =>
      rw [heq2] at hx
      have hc1 := executorStep_fst get put op.Commit wb
      have hc2 := executorStep_s get put op.Commit wb
      rw [h] at hc1 hc2
      have hne : (op.Commit (get wb.ext) wb).1.2 ≠ none := by
        rw [← hc1]; simp
      rw [Commit_failed_s op _ wb hne] at hc2
      exact hc2.trans (hx.trans hp)

theorem mem_burstEvents (calls : List (LocalState × remotestate.Snapshot)) (ev : LoopEvent)
    (h : ev ∈ burstEvents calls) : ev = .Run ∨ ∃ ls rs, ev = .NextOp ls rs := by
  induction calls with
  | nil => simp [burstEvents] at h
  | cons c calls ih =>
    simp only [burstEvents, List.mem_cons] at h
    rcases h with h | h | h
    · exact Or.inl h
    · exact Or.inr ⟨_, _, h⟩
    · exact ih h

theorem OnIdle_not_mem_burstEvents (calls : List (LocalState × remotestate.Snapshot)) :
    LoopEvent.OnIdle ∉ burstEvents calls := by
  intro h
  rcases mem_burstEvents calls _ h with h | ⟨_, _, h⟩ <;> cases h

theorem Wait_not_mem_burstEvents (calls : List (LocalState × remotestate.Snapshot)) :
    LoopEvent.Wait ∉ burstEvents calls := by
  intro h
  rcases mem_burstEvents calls _ h with h | ⟨_, _, h⟩ <;> cases h

/-- C15, where it fails: in scenario C with an executor that returns an already
annotated error `e` for the second operation after having committed it, `Loop`
returns the local state with the second operation's commit in it (charm URL
`cs:v3`, not `cs:v2`), and an error whose cause is not `e` but the cause of
`e`. -/
theorem run_failure_after_commit :
    (Loop scenarioCommitThenFail 3 0).events =
      [LoopEvent.SetAvailable false,
        LoopEvent.NextOp (scriptedLocal (some "cs:v1") false false) (exampleRemote 0 []),
        LoopEvent.Run,
        LoopEvent.NextOp (scriptedLocal (some "cs:v2") false true) (exampleRemote 0 []),
        LoopEvent.Run] ∧
    (Loop scenarioCommitThenFail 3 0).ending =
      Ending.returned (scriptedLocal (some "cs:v3") false true)
        (errors.Trace (errors.Trace (Error.New 16 "state not written"))) ∧
    errors.Cause (errors.Trace (errors.Trace (Error.New 16 "state not written"))) ≠
      errors.Trace (Error.New 16 "state not written") := by
  decide

/-- C15, amended: when, in an iteration of the outer loop, the first `k`
operations the resolver yields run without error and the executor fails with
`e` on the next one, `Loop` returns there: the calls of the iteration are the
`k + 1` calls to `NextOp`, each followed by a `Run`, and nothing after the
failing `Run` (no `NextOp`, no `Run`, no `OnIdle`, no `SetAvailable`, no wait:
the world is as the failing `Run` left it); the error returned is
`errors.Trace(e)`, whose cause is that of `e`, which is `e` when `e` is its own
cause; the local state returned is the one the failing `Run` left, and for the
executor modelled from the spec, whose `Run` fails only when a phase of the
operation fails, that is the local state the failing operation was handed out
under. -/
theorem run_failure_ends_loop (cfg : LoopConfig ω)
    (k fuel : Nat) (w wk w1 : World ω) (op : Operation ω) (e : Error)
    (hops : Loop.afterOps cfg k (Loop.nextOp cfg w).2 = some (.ok op, wk))
    (hrun : cfg.Executor.Run op wk = (some e, w1)) (hfuel : k < fuel) :
    ∃ calls : List (LocalState × remotestate.Snapshot), calls.length = k ∧
      Loop.loop cfg (fuel + 1) w =
        { ending := .returned w1.s.LocalState (errors.Trace e)
          events := (Loop.nextOp cfg w).1 :: burstEvents calls ++ [LoopEvent.Run]
          world := w1 } ∧
      LoopEvent.OnIdle ∉ (Loop.nextOp cfg w).1 :: burstEvents calls ++ [LoopEvent.Run] ∧
      errors.Cause (errors.Trace e) = errors.Cause e ∧
      (errors.Cause e = e → errors.Cause (errors.Trace e) = e) ∧
      (∀ (get : ω → operation.State) (put : operation.State → ω → ω),
        cfg.Executor = operation.NewExecutor get put → w1.s = wk.s) := by
  obtain ⟨calls, hlen, hb⟩ :=
    burst_failed_of_afterOps cfg k fuel (Loop.nextOp cfg w).2.1 (Loop.nextOp cfg w).2.2 wk w1 op e
      hops hrun hfuel
  refine ⟨calls, hlen, ?_, ?_, rfl, fun h => h, ?_⟩
  · simp only [Loop.loop, hb]
    rfl
  · obtain ⟨ls, rs, hev⟩ := nextOp_event cfg w
    rw [hev]
    intro h
    simp only [List.cons_append, List.mem_cons, List.mem_append, List.mem_singleton] at h
    rcases h with h | h | h
    · cases h
    · exact OnIdle_not_mem_burstEvents calls h
    · simp at h
  · intro get put hexec
    rw [hexec] at hrun
    exact Run_failed_s get put op wk w1 e hrun

/-- C15 amended, on scenario C: of three queued upgrades the second fails to
execute; `Loop` returns after two `NextOp` calls and two `Run` calls, with the
local state of the first upgrade only. -/
theorem run_failure_ends_loop_witness :
    (Loop scenarioC 3 0).events =
      [LoopEvent.SetAvailable false,
        LoopEvent.NextOp (scriptedLocal (some "cs:v1") false false) (exampleRemote 0 []),
        LoopEvent.Run,
        LoopEvent.NextOp (scriptedLocal (some "cs:v2") false true) (exampleRemote 0 []),
        LoopEvent.Run] ∧
    (Loop scenarioC 3 0).ending =
      Ending.returned (scriptedLocal (some "cs:v2") false true)
        (errors.Trace (Error.New 11 "execute failed")) ∧
    (Loop.loop scenarioC 3 (Loop.start scenarioC 0)).ending =
      Ending.returned (scriptedLocal (some "cs:v2") false true)
        (errors.Trace (Error.New 11 "execute failed")) ∧
    (Loop.loop scenarioC 3 (Loop.start scenarioC 0)).events =
      [LoopEvent.NextOp (scriptedLocal (some "cs:v1") false false) (exampleRemote 0 []),
        LoopEvent.Run,
        LoopEvent.NextOp (scriptedLocal (some "cs:v2") false true) (exampleRemote 0 []),
        LoopEvent.Run] ∧
    (Loop.loop scenarioC 3 (Loop.start scenarioC 0)).world.ext = 2 := by
  refine ⟨by decide, by decide, ?_⟩
  obtain ⟨calls, hlen, h, _, _, _, _⟩ :=
    run_failure_ends_loop scenarioC 1 2
      (Loop.start scenarioC 0) _ _ _ _
      rfl rfl (by decide)
  refine ⟨?_, by decide, ?_⟩
  · rw [h]
    rfl
  · rw [h]
    rfl

/-- C16: when the inner loop of an iteration ends because the resolver returns an
error whose cause is `ErrNoOperation`, after `k` operations (`k = 0`: on the
first call of the iteration), and `OnIdle` is not nil, then `Loop` calls
`SetAvailable` and then `OnIdle`, once: `OnIdle` is called in the world that
`SetAvailable` left, and what `Loop` does next it does in the world that this
one call of `OnIdle` left.  When `OnIdle` returns an error, `Loop` returns
without waiting; when it returns none, `Loop` waits, and the three outcomes of
the wait are given: no signal (`Loop` stays blocked and makes no further call),
`Dying` (`Loop` returns `tomb.ErrDying`), remote state changed (the next
iteration follows). -/
theorem idle_notifier_called_once (cfg : LoopConfig ω) (onIdle : ω → Option Error × ω)
    (hidle : cfg.OnIdle = some onIdle) (k fuel : Nat) (w wk : World ω) (err : Error)
    (hops : Loop.afterOps cfg k (Loop.nextOp cfg w).2 = some (.error err, wk))
    (hcause : errors.Cause err = ErrNoOperation) (hfuel : k ≤ fuel) :
    ∃ calls : List (LocalState × remotestate.Snapshot), calls.length = k ∧
      List.count LoopEvent.OnIdle ((Loop.nextOp cfg w).1 :: burstEvents calls ++
        [LoopEvent.SetAvailable (charmDirAvailable wk.s.LocalState.State), LoopEvent.OnIdle]) = 1 ∧
      match onIdle
        (cfg.CharmDirLocker.SetAvailable (charmDirAvailable wk.s.LocalState.State) wk.ext) with
      | (some e, e1) =>
        Loop.loop cfg (fuel + 1) w =
          { ending := .returned wk.s.LocalState (errors.Trace e)
            events := (Loop.nextOp cfg w).1 :: burstEvents calls ++
              [LoopEvent.SetAvailable (charmDirAvailable wk.s.LocalState.State), LoopEvent.OnIdle]
            world := { wk with ext := e1 } }
      | (none, e1) =>
        match cfg.select e1 with
        | (.never, e2) =>
          Loop.loop cfg (fuel + 1) w =
            { ending := .blocked
              events := (Loop.nextOp cfg w).1 :: burstEvents calls ++
                [LoopEvent.SetAvailable (charmDirAvailable wk.s.LocalState.State),
                  LoopEvent.OnIdle, LoopEvent.Wait]
              world := { wk with ext := e2 } }
        | (.dying, e2) =>
          Loop.loop cfg (fuel + 1) w =
            { ending := .returned wk.s.LocalState tomb.ErrDying
              events := (Loop.nextOp cfg w).1 :: burstEvents calls ++
                [LoopEvent.SetAvailable (charmDirAvailable wk.s.LocalState.State),
                  LoopEvent.OnIdle, LoopEvent.Wait]
              world := { wk with ext := e2 } }
        | (.remoteStateChanged, e2) =>
          Loop.loop cfg (fuel + 1) w =
            (Loop.loop cfg fuel { wk with ext := e2 }).after
              ((Loop.nextOp cfg w).1 :: burstEvents calls ++
                [LoopEvent.SetAvailable (charmDirAvailable wk.s.LocalState.State),
                  LoopEvent.OnIdle, LoopEvent.Wait]) := by
  obtain ⟨calls, hlen, hb⟩ := burst_settled_of_afterOps cfg k fuel (Loop.nextOp cfg w).2.1
    (Loop.nextOp cfg w).2.2 wk err hops hfuel
  obtain ⟨ls, rs, hev⟩ := nextOp_event cfg w
  have hne : ErrNoOperation ≠ ErrWaiting := by decide
  refine ⟨calls, hlen, ?_, ?_⟩
  · rw [hev]
    simp [List.count_cons, List.count_append,
      List.count_eq_zero.mpr (OnIdle_not_mem_burstEvents calls)]
  · cases hres : onIdle
        (cfg.CharmDirLocker.SetAvailable (charmDirAvailable wk.s.LocalState.State) wk.ext) with
    | mk oerr e1 =>
      cases oerr with
      | some oe =>
        simp [Loop.loop, hb, hcause, hne, hidle, updateCharmDir, hres]
      | none =>
        cases hsel : cfg.select e1 with
        | mk wake e2 =>
          cases wake <;>
            simp [Loop.loop, hb, hcause, hne, hidle, updateCharmDir, hres, Loop.wait, hsel,
              Outcome.after]

/-- C16, at concrete inputs, in runs whose collaborators record the calls they
receive: the resolver returns `ErrNoOperation` on the very first call.  When
`OnIdle` succeeds and no signal arrives, the calls received are `SetAvailable`,
`NextOp`, `SetAvailable`, one `OnIdle` and the wait; when `OnIdle` fails, they
end with the one `OnIdle`. -/
theorem idle_notifier_called_once_witness :
    ((Loop.loop (recorded none false [] (some none) []) 1
          (Loop.start (recorded none false [] (some none) []) [])).ending = Ending.blocked ∧
      (Loop.loop (recorded none false [] (some none) []) 1
          (Loop.start (recorded none false [] (some none) []) [])).events =
        [LoopEvent.NextOp (recordedLocal false none false false) (exampleRemote 0 []),
          LoopEvent.SetAvailable false, LoopEvent.OnIdle, LoopEvent.Wait] ∧
      (Loop.loop (recorded none false [] (some none) []) 1
          (Loop.start (recorded none false [] (some none) []) [])).world.ext =
        [LoopEvent.SetAvailable false,
          LoopEvent.NextOp (recordedLocal false none false false) (exampleRemote 0 []),
          LoopEvent.SetAvailable false, LoopEvent.OnIdle, LoopEvent.Wait]) ∧
    ((Loop.loop (recorded none false [] (some (some (Error.New 12 "idle failed"))) []) 1
          (Loop.start (recorded none false [] (some (some (Error.New 12 "idle failed"))) [])
            [])).ending =
        Ending.returned (recordedLocal false none false false)
          (errors.Trace (Error.New 12 "idle failed")) ∧
      (Loop.loop (recorded none false [] (some (some (Error.New 12 "idle failed"))) []) 1
          (Loop.start (recorded none false [] (some (some (Error.New 12 "idle failed"))) [])
            [])).world.ext =
        [LoopEvent.SetAvailable false,
          LoopEvent.NextOp (recordedLocal false none false false) (exampleRemote 0 []),
          LoopEvent.SetAvailable false, LoopEvent.OnIdle]) := by
  constructor
  · obtain ⟨calls, hlen, _, h⟩ :=
      idle_notifier_called_once (recorded none false [] (some none) [])
        (fun log => (none, log ++ [LoopEvent.OnIdle])) rfl 0 0
        (Loop.start (recorded none false [] (some none) []) []) _ _ rfl rfl (Nat.le_refl 0)
    have hc : calls = [] := List.length_eq_zero.mp hlen
    subst hc
    have h2 : Loop.loop (recorded none false [] (some none) []) 1
          (Loop.start (recorded none false [] (some none) []) []) =
        { ending := Ending.blocked
          events :=
            [LoopEvent.NextOp (recordedLocal false none false false) (exampleRemote 0 []),
              LoopEvent.SetAvailable false, LoopEvent.OnIdle, LoopEvent.Wait]
          world :=
            { ext :=
                [LoopEvent.SetAvailable false,
                  LoopEvent.NextOp (recordedLocal false none false false) (exampleRemote 0 []),
                  LoopEvent.SetAvailable false, LoopEvent.OnIdle, LoopEvent.Wait]
              s := _ } } := h
    exact ⟨congrArg Outcome.ending h2, congrArg Outcome.events h2,
      congrArg (fun t => t.world.ext) h2⟩
  · obtain ⟨calls, hlen, _, h⟩ :=
      idle_notifier_called_once
        (recorded none false [] (some (some (Error.New 12 "idle failed"))) [])
        (fun log => (some (Error.New 12 "idle failed"), log ++ [LoopEvent.OnIdle])) rfl 0 0
        (Loop.start (recorded none false [] (some (some (Error.New 12 "idle failed"))) []) [])
        _ _ rfl rfl (Nat.le_refl 0)
    have hc : calls = [] := List.length_eq_zero.mp hlen
    subst hc
    have h2 : Loop.loop (recorded none false [] (some (some (Error.New 12 "idle failed"))) []) 1
          (Loop.start (recorded none false [] (some (some (Error.New 12 "idle failed"))) [])
            []) =
        { ending := Ending.returned (recordedLocal false none false false)
            (errors.Trace (Error.New 12 "idle failed"))
          events := _
          world :=
            { ext :=
                [LoopEvent.SetAvailable false,
                  LoopEvent.NextOp (recordedLocal false none false false) (exampleRemote 0 []),
                  LoopEvent.SetAvailable false, LoopEvent.OnIdle]
              s := _ } } := h
    exact ⟨congrArg Outcome.ending h2, congrArg (fun t => t.world.ext) h2⟩

theorem Loop_eq_loop_start (cfg : LoopConfig ω) (fuel : Nat) (e : ω) :
    Loop cfg fuel e =
      (Loop.loop cfg fuel (Loop.start cfg e)).after
        [LoopEvent.SetAvailable (charmDirAvailable (cfg.Executor.State e))] :=
  rfl

/-- C17: when the inner loop of an iteration ends because the resolver returns an
error whose cause is `ErrWaiting`, after `k` operations, `Loop` calls
`SetAvailable` and waits, without calling `OnIdle`.  If no signal arrives it
stays in the wait: it does not return and makes no further call.  If the remote
state changes, the next iteration follows the wait; if the `Dying` signal
fires, `Loop` returns `tomb.ErrDying`. -/
theorem waiting_skips_idle_notifier (cfg : LoopConfig ω) (k fuel : Nat) (w wk : World ω)
    (err : Error)
    (hops : Loop.afterOps cfg k (Loop.nextOp cfg w).2 = some (.error err, wk))
    (hcause : errors.Cause err = ErrWaiting) (hfuel : k ≤ fuel) :
    ∃ calls : List (LocalState × remotestate.Snapshot), calls.length = k ∧
      LoopEvent.OnIdle ∉ (Loop.nextOp cfg w).1 :: burstEvents calls ++
        [LoopEvent.SetAvailable (charmDirAvailable wk.s.LocalState.State), LoopEvent.Wait] ∧
      match cfg.select (updateCharmDir wk.s.LocalState.State cfg.CharmDirLocker wk.ext) with
      | (.never, e) =>
        Loop.loop cfg (fuel + 1) w =
          { ending := .blocked
            events := (Loop.nextOp cfg w).1 :: burstEvents calls ++
              [LoopEvent.SetAvailable (charmDirAvailable wk.s.LocalState.State), LoopEvent.Wait]
            world := { wk with ext := e } }
      | (.dying, e) =>
        Loop.loop cfg (fuel + 1) w =
          { ending := .returned wk.s.LocalState tomb.ErrDying
            events := (Loop.nextOp cfg w).1 :: burstEvents calls ++
              [LoopEvent.SetAvailable (charmDirAvailable wk.s.LocalState.State), LoopEvent.Wait]
            world := { wk with ext := e } }
      | (.remoteStateChanged, e) =>
        Loop.loop cfg (fuel + 1) w =
          (Loop.loop cfg fuel { wk with ext := e }).after
            ((Loop.nextOp cfg w).1 :: burstEvents calls ++
              [LoopEvent.SetAvailable (charmDirAvailable wk.s.LocalState.State),
                LoopEvent.Wait]) := by
  obtain ⟨calls, hlen, hb⟩ := burst_settled_of_afterOps cfg k fuel (Loop.nextOp cfg w).2.1
    (Loop.nextOp cfg w).2.2 wk err hops hfuel
  obtain ⟨ls, rs, hev⟩ := nextOp_event cfg w
  refine ⟨calls, hlen, ?_, ?_⟩
  · rw [hev]
    simp [OnIdle_not_mem_burstEvents calls]
  · cases hsel : cfg.select (updateCharmDir wk.s.LocalState.State cfg.CharmDirLocker wk.ext) with
    | mk wake e =>
      cases wake <;>
        simp [Loop.loop, hb, hcause, Loop.wait, hsel, Outcome.after]

/-- C17, at a concrete input: the resolver returns `ErrWaiting` on its first call
and no signal arrives; `Loop` is left waiting, having called neither `OnIdle`
nor the resolver again. -/
theorem waiting_skips_idle_notifier_witness :
    (Loop.loop scenarioWaiting 1 (Loop.start scenarioWaiting 0)).ending = Ending.blocked ∧
    (Loop.loop scenarioWaiting 1 (Loop.start scenarioWaiting 0)).events =
      [LoopEvent.NextOp (scriptedLocal none false false) (exampleRemote 0 []),
        LoopEvent.SetAvailable false, LoopEvent.Wait] := by
  obtain ⟨calls, hlen, _, h⟩ :=
    waiting_skips_idle_notifier scenarioWaiting 0 0 (Loop.start scenarioWaiting 0) _ _ rfl rfl
      (Nat.le_refl 0)
  have hc : calls = [] := List.length_eq_zero.mp hlen
  subst hc
  have h2 : Loop.loop scenarioWaiting 1 (Loop.start scenarioWaiting 0) =
      { ending := Ending.blocked
        events :=
          [LoopEvent.NextOp (scriptedLocal none false false) (exampleRemote 0 []),
            LoopEvent.SetAvailable false, LoopEvent.Wait]
        world := _ } := h
  exact ⟨congrArg Outcome.ending h2, congrArg Outcome.events h2⟩

/-- C18, where it fails: `OnIdle` fails with an error `e` that is already
annotated, `errors.Trace` of "idle failed"; `Loop` returns `errors.Trace(e)`,
whose cause is the cause of `e`, the error "idle failed", and not `e`. -/
theorem idle_failure_cause_differs :
    (Loop scenarioIdleFailsTraced 1 0).events =
      [LoopEvent.SetAvailable false,
        LoopEvent.NextOp (scriptedLocal none false false) (exampleRemote 0 []),
        LoopEvent.SetAvailable false, LoopEvent.OnIdle] ∧
    (Loop scenarioIdleFailsTraced 1 0).ending =
      Ending.returned (scriptedLocal none false false)
        (errors.Trace (errors.Trace (Error.New 12 "idle failed"))) ∧
    errors.Cause (errors.Trace (errors.Trace (Error.New 12 "idle failed"))) =
      Error.New 12 "idle failed" ∧
    errors.Cause (errors.Trace (errors.Trace (Error.New 12 "idle failed"))) ≠
      errors.Trace (Error.New 12 "idle failed") := by
  decide

/-- C18, amended: when the inner loop of an iteration ends because the resolver
returns an error `err` whose cause is neither `ErrWaiting` nor `ErrNoOperation`
(the two sentinel values themselves: an error of the same text is another
error), `Loop` calls `SetAvailable` and returns `err` itself with the local
state it holds, calling neither `OnIdle` nor anything else; and when the cause
is `ErrNoOperation` and `OnIdle` returns the error `e`, `Loop` returns
`errors.Trace(e)`, whose cause is that of `e`, which is `e` when `e` is its own
cause, with the local state it holds, without waiting. -/
theorem fatal_errors_end_loop (cfg : LoopConfig ω) (k fuel : Nat) (w wk : World ω) (err : Error)
    (hops : Loop.afterOps cfg k (Loop.nextOp cfg w).2 = some (.error err, wk))
    (hfuel : k ≤ fuel) :
    ∃ calls : List (LocalState × remotestate.Snapshot), calls.length = k ∧
      (errors.Cause err ≠ ErrWaiting → errors.Cause err ≠ ErrNoOperation →
        Loop.loop cfg (fuel + 1) w =
            { ending := .returned wk.s.LocalState err
              events := (Loop.nextOp cfg w).1 :: burstEvents calls ++
                [LoopEvent.SetAvailable (charmDirAvailable wk.s.LocalState.State)]
              world :=
                { wk with
                  ext := cfg.CharmDirLocker.SetAvailable
                    (charmDirAvailable wk.s.LocalState.State) wk.ext } } ∧
          LoopEvent.OnIdle ∉ (Loop.nextOp cfg w).1 :: burstEvents calls ++
            [LoopEvent.SetAvailable (charmDirAvailable wk.s.LocalState.State)]) ∧
      (∀ (onIdle : ω → Option Error × ω) (e : Error) (e1 : ω),
        errors.Cause err = ErrNoOperation → cfg.OnIdle = some onIdle →
        onIdle (cfg.CharmDirLocker.SetAvailable
          (charmDirAvailable wk.s.LocalState.State) wk.ext) = (some e, e1) →
        Loop.loop cfg (fuel + 1) w =
            { ending := .returned wk.s.LocalState (errors.Trace e)
              events := (Loop.nextOp cfg w).1 :: burstEvents calls ++
                [LoopEvent.SetAvailable (charmDirAvailable wk.s.LocalState.State),
                  LoopEvent.OnIdle]
              world := { wk with ext := e1 } } ∧
          errors.Cause (errors.Trace e) = errors.Cause e ∧
          (errors.Cause e = e → errors.Cause (errors.Trace e) = e) ∧
          LoopEvent.Wait ∉ (Loop.nextOp cfg w).1 :: burstEvents calls ++
            [LoopEvent.SetAvailable (charmDirAvailable wk.s.LocalState.State),
              LoopEvent.OnIdle]) := by
  obtain ⟨calls, hlen, hb⟩ := burst_settled_of_afterOps cfg k fuel (Loop.nextOp cfg w).2.1
    (Loop.nextOp cfg w).2.2 wk err hops hfuel
  obtain ⟨ls, rs, hev⟩ := nextOp_event cfg w
  have hne : ErrNoOperation ≠ ErrWaiting := by decide
  refine ⟨calls, hlen, ?_, ?_⟩
  · intro h1 h2
    constructor
    · simp [Loop.loop, hb, h1, h2, updateCharmDir]
    · rw [hev]
      simp [OnIdle_not_mem_burstEvents calls]
  · intro onIdle e e1 hcause hidle hres
    refine ⟨?_, rfl, fun h => h, ?_⟩
    · simp [Loop.loop, hb, hcause, hne, hidle, updateCharmDir, hres]
    · rw [hev]
      simp [Wait_not_mem_burstEvents calls]

/-- C18 amended, at concrete inputs: a resolver that fails on its first call, a
resolver that fails with an error of its own that has the text of `ErrWaiting`
(it is not `ErrWaiting`, and `Loop` returns it), and an `OnIdle` that fails with
an error that is its own cause. -/
theorem fatal_errors_end_loop_witness :
    ((Loop.loop scenarioResolverFails 1 (Loop.start scenarioResolverFails 0)).ending =
        Ending.returned (scriptedLocal none false false) (Error.New 14 "resolver failed") ∧
      (Loop.loop scenarioResolverFails 1 (Loop.start scenarioResolverFails 0)).events =
        [LoopEvent.NextOp (scriptedLocal none false false) (exampleRemote 0 []),
          LoopEvent.SetAvailable false]) ∧
    ((Loop.loop scenarioResolverFailsLikeWaiting 1
          (Loop.start scenarioResolverFailsLikeWaiting 0)).ending =
        Ending.returned (scriptedLocal none false false)
          (Error.New 99 "waiting for remote state change") ∧
      (Loop.loop scenarioResolverFailsLikeWaiting 1
          (Loop.start scenarioResolverFailsLikeWaiting 0)).events =
        [LoopEvent.NextOp (scriptedLocal none false false) (exampleRemote 0 []),
          LoopEvent.SetAvailable false]) ∧
    ((Loop.loop scenarioIdleFails 1 (Loop.start scenarioIdleFails 0)).ending =
        Ending.returned (scriptedLocal none false false)
          (errors.Trace (Error.New 12 "idle failed")) ∧
      (Loop.loop scenarioIdleFails 1 (Loop.start scenarioIdleFails 0)).events =
        [LoopEvent.NextOp (scriptedLocal none false false) (exampleRemote 0 []),
          LoopEvent.SetAvailable false, LoopEvent.OnIdle] ∧
      errors.Cause (errors.Trace (Error.New 12 "idle failed")) = Error.New 12 "idle failed") := by
  refine ⟨?_, ?_, ?_⟩
  · obtain ⟨calls, hlen, h, _⟩ :=
      fatal_errors_end_loop scenarioResolverFails 0 0 (Loop.start scenarioResolverFails 0) _ _
        rfl (Nat.le_refl 0)
    have hc : calls = [] := List.length_eq_zero.mp hlen
    subst hc
    have h2 := (h (by decide) (by decide)).1
    exact ⟨congrArg Outcome.ending h2, congrArg Outcome.events h2⟩
  · obtain ⟨calls, hlen, h, _⟩ :=
      fatal_errors_end_loop scenarioResolverFailsLikeWaiting 0 0
        (Loop.start scenarioResolverFailsLikeWaiting 0) _ _ rfl (Nat.le_refl 0)
    have hc : calls = [] := List.length_eq_zero.mp hlen
    subst hc
    have h2 := (h (by decide) (by decide)).1
    exact ⟨congrArg Outcome.ending h2, congrArg Outcome.events h2⟩
  · obtain ⟨calls, hlen, _, h⟩ :=
      fatal_errors_end_loop scenarioIdleFails 0 0 (Loop.start scenarioIdleFails 0) _ _
        rfl (Nat.le_refl 0)
    have hc : calls = [] := List.length_eq_zero.mp hlen
    subst hc
    have h2 := h (fun e => (some (Error.New 12 "idle failed"), e)) (Error.New 12 "idle failed") 1
      rfl rfl rfl
    exact ⟨congrArg Outcome.ending h2.1, congrArg Outcome.events h2.1, h2.2.2.1 rfl⟩

/-- C19, where it fails: a resolver that returns `tomb.ErrDying`, an error whose
cause is neither `ErrWaiting` nor `ErrNoOperation`, makes `Loop` return
`tomb.ErrDying` although the `Dying` signal never fires and `Loop` never waits:
the same outcome as the cancellation of scenario D. -/
theorem resolver_failure_can_be_ErrDying :
    errors.Cause tomb.ErrDying ≠ ErrWaiting ∧ errors.Cause tomb.ErrDying ≠ ErrNoOperation ∧
    (Loop scenarioResolverDying 1 0).ending =
      Ending.returned (scriptedLocal none false false) tomb.ErrDying ∧
    (Loop scenarioResolverDying 1 0).events =
      [LoopEvent.SetAvailable false,
        LoopEvent.NextOp (scriptedLocal none false false) (exampleRemote 0 []),
        LoopEvent.SetAvailable false] ∧
    (Loop scenarioD 1 0).ending =
      Ending.returned (scriptedLocal none false false) tomb.ErrDying := by
  decide

/-- C19, amended: when the inner loop of an iteration (the first or a later one,
after earlier wakeups) ends because the resolver returns an error whose cause is
`ErrWaiting` or `ErrNoOperation`, `OnIdle` (called in the second case, if there
is one) returns no error, and the `select` statement that follows receives from
`Dying`, `Loop` returns the local state it holds together with `tomb.ErrDying`,
and makes no further call; that error is neither sentinel and differs from
`errors.Trace(e)`, the error `Loop` returns when the executor or `OnIdle` fails
with `e`. -/
theorem dying_returns_ErrDying (cfg : LoopConfig ω) (k fuel : Nat) (w wk : World ω) (err : Error)
    (hops : Loop.afterOps cfg k (Loop.nextOp cfg w).2 = some (.error err, wk))
    (hfuel : k ≤ fuel) :
    ∃ calls : List (LocalState × remotestate.Snapshot), calls.length = k ∧
      (∀ e2 : ω,
        errors.Cause err = ErrWaiting ∨ (errors.Cause err = ErrNoOperation ∧ cfg.OnIdle = none) →
        cfg.select (cfg.CharmDirLocker.SetAvailable
          (charmDirAvailable wk.s.LocalState.State) wk.ext) = (Wakeup.dying, e2) →
        Loop.loop cfg (fuel + 1) w =
          { ending := .returned wk.s.LocalState tomb.ErrDying
            events := (Loop.nextOp cfg w).1 :: burstEvents calls ++
              [LoopEvent.SetAvailable (charmDirAvailable wk.s.LocalState.State), LoopEvent.Wait]
            world := { wk with ext := e2 } }) ∧
      (∀ (onIdle : ω → Option Error × ω) (e1 e2 : ω),
        errors.Cause err = ErrNoOperation → cfg.OnIdle = some onIdle →
        onIdle (cfg.CharmDirLocker.SetAvailable
          (charmDirAvailable wk.s.LocalState.State) wk.ext) = (none, e1) →
        cfg.select e1 = (Wakeup.dying, e2) →
        Loop.loop cfg (fuel + 1) w =
          { ending := .returned wk.s.LocalState tomb.ErrDying
            events := (Loop.nextOp cfg w).1 :: burstEvents calls ++
              [LoopEvent.SetAvailable (charmDirAvailable wk.s.LocalState.State),
                LoopEvent.OnIdle, LoopEvent.Wait]
            world := { wk with ext := e2 } }) ∧
      (∀ e, tomb.ErrDying ≠ errors.Trace e) ∧
      tomb.ErrDying ≠ ErrWaiting ∧ tomb.ErrDying ≠ ErrNoOperation := by
  obtain ⟨calls, hlen, hb⟩ := burst_settled_of_afterOps cfg k fuel (Loop.nextOp cfg w).2.1
    (Loop.nextOp cfg w).2.2 wk err hops hfuel
  have hne : ErrNoOperation ≠ ErrWaiting := by decide
  refine ⟨calls, hlen, ?_, ?_, (fun e h => by cases h), by decide, by decide⟩
  · intro e2 hcause hsel
    rcases hcause with hc | ⟨hc, hi⟩
    · simp [Loop.loop, hb, hc, updateCharmDir, Loop.wait, hsel, Outcome.after]
    · simp [Loop.loop, hb, hc, hne, hi, updateCharmDir, Loop.wait, hsel, Outcome.after]
  · intro onIdle e1 e2 hc hi hres hsel
    simp [Loop.loop, hb, hc, hne, hi, updateCharmDir, hres, Loop.wait, hsel, Outcome.after]

/-- C19 amended, at concrete inputs: scenario D, where the resolver returns
`ErrWaiting` and the `Dying` signal fires in the first wait; and a recorded run
in which the first wait ends because the remote state changed and the `Dying`
signal fires in the second wait, after `OnIdle`: the theorem is applied to the
second iteration, which the whole run ends with. -/
theorem dying_returns_ErrDying_witness :
    (Loop.loop scenarioD 1 (Loop.start scenarioD 0)).ending =
      Ending.returned (scriptedLocal none false false) tomb.ErrDying ∧
    Loop scenarioWakeThenDie 2 [] =
      (Loop.loop scenarioWakeThenDie 1 scenarioWakeThenDie.second).after
        [LoopEvent.SetAvailable false,
          LoopEvent.NextOp (recordedLocal false none false false) (exampleRemote 0 []),
          LoopEvent.SetAvailable false, LoopEvent.Wait] ∧
    (Loop.loop scenarioWakeThenDie 1 scenarioWakeThenDie.second).ending =
      Ending.returned (recordedLocal false none false false) tomb.ErrDying ∧
    (Loop.loop scenarioWakeThenDie 1 scenarioWakeThenDie.second).world.ext =
      [LoopEvent.SetAvailable false,
        LoopEvent.NextOp (recordedLocal false none false false) (exampleRemote 0 []),
        LoopEvent.SetAvailable false, LoopEvent.Wait,
        LoopEvent.NextOp (recordedLocal false none false false) (exampleRemote 0 []),
        LoopEvent.SetAvailable false, LoopEvent.OnIdle, LoopEvent.Wait] := by
  refine ⟨?_, rfl, ?_⟩
  · obtain ⟨calls, hlen, h, _⟩ :=
      dying_returns_ErrDying scenarioD 0 0 (Loop.start scenarioD 0) _ _ rfl (Nat.le_refl 0)
    exact congrArg Outcome.ending (h 1 (Or.inl rfl) rfl)
  · obtain ⟨calls, hlen, _, h, _⟩ :=
      dying_returns_ErrDying scenarioWakeThenDie 0 0 scenarioWakeThenDie.second _ _ rfl
        (Nat.le_refl 0)
    have h2 := h (fun log => (none, log ++ [LoopEvent.OnIdle])) _ _ rfl rfl rfl rfl
    exact ⟨congrArg Outcome.ending h2, congrArg (fun t => t.world.ext) h2⟩

/-- A run of the executor that succeeds on an upgrade operation leaves in the
factory what the callback of `wrapUpgradeOp` assigns. -/
theorem Run_ok_upgrade (get : ω → operation.State) (put : operation.State → ω → ω)
    (b : operation.Base ω) (u : Option charm.URL) (w w1 : World ω)
    (h : (operation.NewExecutor get put).Run (resolverOpFactory.wrapUpgradeOp (.base b) u) w =
      (none, w1)) :
    w1.s = { w.s with LocalState :=
      { w.s.LocalState with CharmURL := u, Restart := true, Conflicted := false } } := by
  have hp : (operation.executorStep get put
      (resolverOpFactory.wrapUpgradeOp (.base b) u).Prepare w).2.s = w.s := by
    rw [executorStep_s, Prepare_s]
  simp only [operation.NewExecutor] at h
  split at h
  · simp at h
  · next wa heq =>
    rw [heq] at hp
    have hx : (operation.executorStep get put
        (resolverOpFactory.wrapUpgradeOp (.base b) u).Execute wa).2.s = wa.s := by
      rw [executorStep_s, Execute_s]
    split at h
    · simp at h
    · next wb heq2 =>
      rw [heq2] at hx
      have hc1 := executorStep_fst get put
        (resolverOpFactory.wrapUpgradeOp (.base b) u).Commit wb
      have hc2 := executorStep_s get put
        (resolverOpFactory.wrapUpgradeOp (.base b) u).Commit wb
      rw [h] at hc1 hc2
      rw [resolverOpFactory.Commit_wrapUpgradeOp] at hc1 hc2
      cases hb : (b.Commit (get wb.ext) wb.ext).1.2 with
      | some err => simp [hb] at hc1
      | none =>
        simp only [hb] at hc2
        rw [hc2, hx, hp]

theorem nextOp_frame (cfg : LoopConfig ω)
    (hframe : ∀ ls rs w, (cfg.Resolver.NextOp ls rs w).2.s = w.s) (w : World ω) :
    (Loop.nextOp cfg w).2.2.s.LocalState =
      { w.s.LocalState with State := cfg.Executor.State (cfg.Watcher.Snapshot w.ext).2 } := by
  simp only [Loop.nextOp]
  rw [hframe]

/-- C20: scenario A.  When the resolver's first answer is the operation
`NewUpgrade(u)` returned, the executor (the one modelled from the spec) runs it
without error, the resolver's second answer is an error whose cause is
`ErrNoOperation`, and `OnIdle`, called in the world that `SetAvailable` left,
returns no error, then `Loop` comes to wait holding a local state with
`CharmURL = u`, `Restart = true`, `Conflicted = false` and no completed action,
having called `OnIdle` once: it waits in the world that this one call of
`OnIdle` left.  If no signal arrives it stays in the wait; it returns that local
state with `tomb.ErrDying` when the wait ends by `Dying`; the next iteration
follows when the remote state changes.  The initial charm URL and conflict flag
are those of `cfg`, and are arbitrary. -/
theorem upgrade_then_idle (cfg : LoopConfig ω) (get : ω → operation.State)
    (put : operation.State → ω → ω) (hexec : cfg.Executor = operation.NewExecutor get put)
    (hframe : ∀ ls rs w, (cfg.Resolver.NextOp ls rs w).2.s = w.s)
    (onIdle : ω → Option Error × ω) (hidle : cfg.OnIdle = some onIdle)
    (e : ω) (fuel : Nat) (u : Option charm.URL) (op : Operation ω) (w0 wk : World ω)
    (err : Error) (e1 : ω)
    (hmade : (resolverOpFactory.NewUpgrade u w0).1 = .ok op)
    (hfirst : (Loop.nextOp cfg (Loop.start cfg e)).2.1 = .ok op)
    (hops : Loop.afterOps cfg 1 (Loop.nextOp cfg (Loop.start cfg e)).2 = some (.error err, wk))
    (hcause : errors.Cause err = ErrNoOperation)
    (hidleok : onIdle (cfg.CharmDirLocker.SetAvailable
      (charmDirAvailable wk.s.LocalState.State) wk.ext) = (none, e1)) :
    wk.s.LocalState.CharmURL = u ∧ wk.s.LocalState.Restart = true ∧
    wk.s.LocalState.Conflicted = false ∧ wk.s.LocalState.CompletedActions = ∅ ∧
    ∃ calls : List (LocalState × remotestate.Snapshot), calls.length = 1 ∧
      List.count LoopEvent.OnIdle
        (LoopEvent.SetAvailable (charmDirAvailable (cfg.Executor.State e)) ::
          (Loop.nextOp cfg (Loop.start cfg e)).1 :: burstEvents calls ++
          [LoopEvent.SetAvailable (charmDirAvailable wk.s.LocalState.State),
            LoopEvent.OnIdle, LoopEvent.Wait]) = 1 ∧
      match cfg.select e1 with
      | (.never, e2) =>
        Loop cfg (fuel + 2) e =
          { ending := .blocked
            events := LoopEvent.SetAvailable (charmDirAvailable (cfg.Executor.State e)) ::
              (Loop.nextOp cfg (Loop.start cfg e)).1 :: burstEvents calls ++
              [LoopEvent.SetAvailable (charmDirAvailable wk.s.LocalState.State),
                LoopEvent.OnIdle, LoopEvent.Wait]
            world := { wk with ext := e2 } }
      | (.dying, e2) =>
        Loop cfg (fuel + 2) e =
          { ending := .returned wk.s.LocalState tomb.ErrDying
            events := LoopEvent.SetAvailable (charmDirAvailable (cfg.Executor.State e)) ::
              (Loop.nextOp cfg (Loop.start cfg e)).1 :: burstEvents calls ++
              [LoopEvent.SetAvailable (charmDirAvailable wk.s.LocalState.State),
                LoopEvent.OnIdle, LoopEvent.Wait]
            world := { wk with ext := e2 } }
      | (.remoteStateChanged, e2) =>
        Loop cfg (fuel + 2) e =
          (Loop.loop cfg (fuel + 1) { wk with ext := e2 }).after
            (LoopEvent.SetAvailable (charmDirAvailable (cfg.Executor.State e)) ::
              (Loop.nextOp cfg (Loop.start cfg e)).1 :: burstEvents calls ++
              [LoopEvent.SetAvailable (charmDirAvailable wk.s.LocalState.State),
                LoopEvent.OnIdle, LoopEvent.Wait]) := by
  obtain ⟨b, rfl⟩ := resolverOpFactory.NewUpgrade_ok u w0 op hmade
  have hlocal : wk.s.LocalState.CharmURL = u ∧ wk.s.LocalState.Restart = true ∧
      wk.s.LocalState.Conflicted = false ∧ wk.s.LocalState.CompletedActions = ∅ := by
    have hpair : (Loop.nextOp cfg (Loop.start cfg e)).2 =
        (.ok (resolverOpFactory.wrapUpgradeOp (.base b) u),
          (Loop.nextOp cfg (Loop.start cfg e)).2.2) := Prod.ext hfirst rfl
    have hops2 := hops
    rw [hpair] at hops2
    simp only [Loop.afterOps] at hops2
    split at hops2
    · simp at hops2
    · next w2 hrun =>
      simp only [Option.some.injEq] at hops2
      have hk : wk = (Loop.nextOp cfg w2).2.2 := by rw [hops2]
      rw [hexec] at hrun
      have h2 := Run_ok_upgrade get put b u _ w2 hrun
      have h1 := nextOp_frame cfg hframe (Loop.start cfg e)
      have h3 := nextOp_frame cfg hframe w2
      rw [hk, h3, h2, h1]
      exact ⟨rfl, rfl, rfl, rfl⟩
  refine ⟨hlocal.1, hlocal.2.1, hlocal.2.2.1, hlocal.2.2.2, ?_⟩
  obtain ⟨calls, hlen, hb⟩ := burst_settled_of_afterOps cfg 1 (fuel + 1)
    (Loop.nextOp cfg (Loop.start cfg e)).2.1 (Loop.nextOp cfg (Loop.start cfg e)).2.2 wk err
    hops (by omega)
  obtain ⟨ls, rs, hev⟩ := nextOp_event cfg (Loop.start cfg e)
  have hne : ErrNoOperation ≠ ErrWaiting := by decide
  refine ⟨calls, hlen, ?_, ?_⟩
  · rw [hev]
    simp [List.count_cons, List.count_append,
      List.count_eq_zero.mpr (OnIdle_not_mem_burstEvents calls)]
  · rw [Loop_eq_loop_start]
    cases hsel : cfg.select e1 with
    | mk wake e2 =>
      cases wake <;>
        simp [Loop.loop, hb, hcause, hne, hidle, updateCharmDir, hidleok, Loop.wait, hsel,
          Outcome.after]

/-- C20, on scenario A with charm `cs:v1`, no conflict and target `cs:v2`, in a
run whose collaborators record the calls they receive: `Loop` returns on
`Dying` with charm `cs:v2`, `Restart` set and no conflict, and the calls
received are `SetAvailable`, `NextOp`, the run of the upgrade, `NextOp`,
`SetAvailable`, one `OnIdle` and the wait. -/
theorem upgrade_then_idle_witness :
    (Loop (scenarioARecorded (some "cs:v1") false (some "cs:v2")) 2 []).ending =
      Ending.returned (recordedLocal true (some "cs:v2") false true) tomb.ErrDying ∧
    (Loop (scenarioARecorded (some "cs:v1") false (some "cs:v2")) 2 []).events =
      [LoopEvent.SetAvailable false,
        LoopEvent.NextOp (recordedLocal false (some "cs:v1") false false) (exampleRemote 0 []),
        LoopEvent.Run,
        LoopEvent.NextOp (recordedLocal true (some "cs:v2") false true) (exampleRemote 0 []),
        LoopEvent.SetAvailable true, LoopEvent.OnIdle, LoopEvent.Wait] ∧
    (Loop (scenarioARecorded (some "cs:v1") false (some "cs:v2")) 2 []).world.ext =
      [LoopEvent.SetAvailable false,
        LoopEvent.NextOp (recordedLocal false (some "cs:v1") false false) (exampleRemote 0 []),
        LoopEvent.Run,
        LoopEvent.NextOp (recordedLocal true (some "cs:v2") false true) (exampleRemote 0 []),
        LoopEvent.SetAvailable true, LoopEvent.OnIdle, LoopEvent.Wait] := by
  obtain ⟨_, _, _, _, calls, hlen, _, h⟩ :=
    upgrade_then_idle (scenarioARecorded (some "cs:v1") false (some "cs:v2"))
      (fun log => if ran log then exampleState operation.Continue none else operation.State.zero)
      (fun _ log => log) rfl
      (fun ls rs w =>
        (ofPlan_spec
          (fun ls rs log =>
            (([.ok (Request.Upgrade (some "cs:v2"))] : List (Except Error Request)).getD
              (nextOpCalls log) (.error ErrNoOperation), log ++ [LoopEvent.NextOp ls rs]))
          ls rs w).1)
      (fun log => (none, log ++ [LoopEvent.OnIdle])) rfl [] 0 (some "cs:v2") _
      (Loop.start (scenarioARecorded (some "cs:v1") false (some "cs:v2")) []) _ _ _
      rfl rfl rfl rfl rfl
  have h2 : Loop (scenarioARecorded (some "cs:v1") false (some "cs:v2")) 2 [] =
      { ending := Ending.returned (recordedLocal true (some "cs:v2") false true) tomb.ErrDying
        events := _
        world :=
          { ext :=
              [LoopEvent.SetAvailable false,
                LoopEvent.NextOp (recordedLocal false (some "cs:v1") false false)
                  (exampleRemote 0 []),
                LoopEvent.Run,
                LoopEvent.NextOp (recordedLocal true (some "cs:v2") false true)
                  (exampleRemote 0 []),
                LoopEvent.SetAvailable true, LoopEvent.OnIdle, LoopEvent.Wait]
            s := _ } } := h
  exact ⟨congrArg Outcome.ending h2, by decide, congrArg (fun t => t.world.ext) h2⟩

/-! ### The start of the loop and the charm directory -/

theorem loop_events_head (cfg : LoopConfig ω) (fuel : Nat) (w : World ω) :
    ∃ rest, (Loop.loop cfg (fuel + 1) w).events = (Loop.nextOp cfg w).1 :: rest := by
  simp only [Loop.loop]
  split
  · exact ⟨_, rfl⟩
  · exact ⟨_, rfl⟩
  · split
    · exact ⟨_, rfl⟩
    · split
      · split
        · exact ⟨_, rfl⟩
        · split
          · exact ⟨_, rfl⟩
          · exact ⟨_, rfl⟩
      · exact ⟨_, rfl⟩

/-- C21: `Loop` first calls `SetAvailable` with the value `updateCharmDir`
computes from the operation state the executor already holds, and only then
calls the resolver for the first time, with a local state that has the charm
URL and the conflict flag of the configuration, `Restart = false`, the three
version counters at zero and no completed action (and the operation state read
from the executor). -/
theorem first_resolver_call (cfg : LoopConfig ω) (fuel : Nat) (e : ω) :
    (Loop.start cfg e).ext =
      cfg.CharmDirLocker.SetAvailable (charmDirAvailable (cfg.Executor.State e)) e ∧
    ∃ ls rs rest,
      (Loop cfg (fuel + 1) e).events =
        LoopEvent.SetAvailable (charmDirAvailable (cfg.Executor.State e)) ::
          LoopEvent.NextOp ls rs :: rest ∧
      (Loop.nextOp cfg (Loop.start cfg e)).1 = LoopEvent.NextOp ls rs ∧
      ls.CharmURL = cfg.CharmURL ∧ ls.Conflicted = cfg.Conflicted ∧ ls.Restart = false ∧
      ls.UpdateStatusVersion = 0 ∧ ls.ConfigVersion = 0 ∧ ls.LeaderSettingsVersion = 0 ∧
      ls.CompletedActions = ∅ ∧
      ls.State = cfg.Executor.State (cfg.Watcher.Snapshot (Loop.start cfg e).ext).2 ∧
      rs = (cfg.Watcher.Snapshot (Loop.start cfg e).ext).1 := by
  refine ⟨rfl, ?_⟩
  obtain ⟨rest, hrest⟩ := loop_events_head cfg fuel (Loop.start cfg e)
  refine ⟨_, _, rest, ?_, rfl, rfl, rfl, rfl, rfl, rfl, rfl, rfl, rfl, rfl⟩
  rw [Loop_eq_loop_start]
  simp only [Outcome.after, hrest]
  rfl

/-- The last of `k + 1` operations that ran without error: it is the operation
the inner loop stands at after `k` operations, and the resolver's next answer is
computed in the world its run left. -/
theorem afterOps_succ (cfg : LoopConfig ω) :
    ∀ (k : Nat) (rw : Except Error (Operation ω) × World ω) (r1 : Except Error (Operation ω))
      (wk : World ω),
      Loop.afterOps cfg (k + 1) rw = some (r1, wk) →
      ∃ op wq wprev, Loop.afterOps cfg k rw = some (.ok op, wq) ∧
        cfg.Executor.Run op wq = (none, wprev) ∧ (Loop.nextOp cfg wprev).2 = (r1, wk) := by
  intro k
  induction k with
  | zero =>
    intro rw r1 wk h
    obtain ⟨r, w⟩ := rw
    cases r with
    | error err => simp [Loop.afterOps] at h
    | ok op =>
      simp only [Loop.afterOps] at h
      split at h
      · simp at h
      · next wa hrun =>
        simp only [Option.some.injEq] at h
        exact ⟨op, w, wa, rfl, hrun, h⟩
  | succ k ih =>
    intro rw r1 wk h
    obtain ⟨r, w⟩ := rw
    cases r with
    | error err => simp [Loop.afterOps] at h
    | ok op =>
      rw [Loop.afterOps] at h
      split at h
      · simp at h
      · next wa hrun =>
        obtain ⟨op1, wq, wprev, h1, h2, h3⟩ := ih _ r1 wk h
        refine ⟨op1, wq, wprev, ?_, h2, h3⟩
        rw [Loop.afterOps]
        simp only [hrun]
        exact h1

/-- C22: when the inner loop of an iteration ends because the resolver returns an
error (a sentinel or not), after `k` operations, `Loop` calls `SetAvailable`
once, before it classifies the error: the inner loop makes no such call, and
`OnIdle`, the wait or the return find the world as that one call left it.  The
value is the one `updateCharmDir` computes from `rf.LocalState.State`, which,
the resolver leaving the factory alone, is the operation state read from the
executor before the resolver's last call: at the start of the iteration when
`k = 0`, and otherwise in the world that the run of the last operation of the
burst, the `k`-th, left. -/
theorem charm_dir_updated_once (cfg : LoopConfig ω)
    (hframe : ∀ ls rs w, (cfg.Resolver.NextOp ls rs w).2.s = w.s)
    (k fuel : Nat) (w wk : World ω) (err : Error)
    (hops : Loop.afterOps cfg k (Loop.nextOp cfg w).2 = some (.error err, wk))
    (hfuel : k ≤ fuel) :
    ∃ (calls : List (LocalState × remotestate.Snapshot)) (wprev : World ω),
      calls.length = k ∧
      (∀ available, LoopEvent.SetAvailable available ∉
        (Loop.nextOp cfg w).1 :: burstEvents calls) ∧
      (Loop.nextOp cfg wprev).2 = (.error err, wk) ∧
      wk.s.LocalState.State = cfg.Executor.State (cfg.Watcher.Snapshot wprev.ext).2 ∧
      (k = 0 → wprev = w) ∧
      (∀ j, k = j + 1 → ∃ op wq,
        Loop.afterOps cfg j (Loop.nextOp cfg w).2 = some (.ok op, wq) ∧
          cfg.Executor.Run op wq = (none, wprev)) ∧
      (errors.Cause err = ErrWaiting ∨ (errors.Cause err = ErrNoOperation ∧ cfg.OnIdle = none) →
        Loop.loop cfg (fuel + 1) w =
          (Loop.wait cfg (Loop.loop cfg fuel)
            { wk with
              ext := cfg.CharmDirLocker.SetAvailable
                (charmDirAvailable wk.s.LocalState.State) wk.ext }).after
            ((Loop.nextOp cfg w).1 :: burstEvents calls ++
              [LoopEvent.SetAvailable (charmDirAvailable wk.s.LocalState.State)])) ∧
      (∀ onIdle : ω → Option Error × ω,
        errors.Cause err = ErrNoOperation → cfg.OnIdle = some onIdle →
        match onIdle (cfg.CharmDirLocker.SetAvailable
          (charmDirAvailable wk.s.LocalState.State) wk.ext) with
        | (some e, e1) =>
          Loop.loop cfg (fuel + 1) w =
            { ending := .returned wk.s.LocalState (errors.Trace e)
              events := (Loop.nextOp cfg w).1 :: burstEvents calls ++
                [LoopEvent.SetAvailable (charmDirAvailable wk.s.LocalState.State),
                  LoopEvent.OnIdle]
              world := { wk with ext := e1 } }
        | (none, e1) =>
          Loop.loop cfg (fuel + 1) w =
            (Loop.wait cfg (Loop.loop cfg fuel) { wk with ext := e1 }).after
              ((Loop.nextOp cfg w).1 :: burstEvents calls ++
                [LoopEvent.SetAvailable (charmDirAvailable wk.s.LocalState.State),
                  LoopEvent.OnIdle])) ∧
      (errors.Cause err ≠ ErrWaiting → errors.Cause err ≠ ErrNoOperation →
        Loop.loop cfg (fuel + 1) w =
          { ending := .returned wk.s.LocalState err
            events := (Loop.nextOp cfg w).1 :: burstEvents calls ++
              [LoopEvent.SetAvailable (charmDirAvailable wk.s.LocalState.State)]
            world :=
              { wk with
                ext := cfg.CharmDirLocker.SetAvailable
                  (charmDirAvailable wk.s.LocalState.State) wk.ext } }) := by
  obtain ⟨calls, hlen, hb⟩ := burst_settled_of_afterOps cfg k fuel (Loop.nextOp cfg w).2.1
    (Loop.nextOp cfg w).2.2 wk err hops hfuel
  obtain ⟨ls, rs, hev⟩ := nextOp_event cfg w
  have hne : ErrNoOperation ≠ ErrWaiting := by decide
  have hprev : ∃ wprev : World ω, (Loop.nextOp cfg wprev).2 = (.error err, wk) ∧
      (k = 0 → wprev = w) ∧
      (∀ j, k = j + 1 → ∃ op wq,
        Loop.afterOps cfg j (Loop.nextOp cfg w).2 = some (.ok op, wq) ∧
          cfg.Executor.Run op wq = (none, wprev)) := by
    cases k with
    | zero =>
      simp only [Loop.afterOps, Option.some.injEq] at hops
      exact ⟨w, hops, fun _ => rfl, fun j hj => by omega⟩
    | succ j =>
      obtain ⟨op, wq, wprev, h1, h2, h3⟩ := afterOps_succ cfg j _ _ wk hops
      refine ⟨wprev, h3, fun h0 => by omega, fun j1 hj => ?_⟩
      have hj1 : j = j1 := by omega
      subst hj1
      exact ⟨op, wq, h1, h2⟩
  obtain ⟨wprev, hlast, h0, hpos⟩ := hprev
  have hstate : wk.s.LocalState.State =
      cfg.Executor.State (cfg.Watcher.Snapshot wprev.ext).2 := by
    have hf := nextOp_frame cfg hframe wprev
    rw [hlast] at hf
    rw [hf]
  have hnone : ∀ available, LoopEvent.SetAvailable available ∉
      (Loop.nextOp cfg w).1 :: burstEvents calls := by
    intro available hmem
    rw [hev] at hmem
    simp only [List.mem_cons] at hmem
    rcases hmem with h | h
    · cases h
    · rcases mem_burstEvents calls _ h with h | ⟨_, _, h⟩ <;> cases h
  refine ⟨calls, wprev, hlen, hnone, hlast, hstate, h0, hpos, ?_, ?_, ?_⟩
  · intro hcause
    rcases hcause with hc | ⟨hc, hi⟩
    · simp [Loop.loop, hb, hc, updateCharmDir]
    · simp [Loop.loop, hb, hc, hne, hi, updateCharmDir]
  · intro onIdle hc hi
    cases hres : onIdle (cfg.CharmDirLocker.SetAvailable
        (charmDirAvailable wk.s.LocalState.State) wk.ext) with
    | mk oerr e1 =>
      cases oerr <;> simp [Loop.loop, hb, hc, hne, hi, updateCharmDir, hres]
  · intro h1 h2
    simp [Loop.loop, hb, h1, h2, updateCharmDir]

/-- C22, on scenario A, in a run whose collaborators record the calls they
receive: the inner loop ends after one operation, whose run leaves the operation
state started; the locker receives `SetAvailable(true)`, the value computed from
that state, once, after the second `NextOp` and before `OnIdle`. -/
theorem charm_dir_updated_once_witness :
    charmDirAvailable (exampleState operation.Continue none) = true ∧
    (Loop.loop (scenarioARecorded (some "cs:v1") false (some "cs:v2")) 2
        (Loop.start (scenarioARecorded (some "cs:v1") false (some "cs:v2")) [])).world.ext =
      [LoopEvent.SetAvailable false,
        LoopEvent.NextOp (recordedLocal false (some "cs:v1") false false) (exampleRemote 0 []),
        LoopEvent.Run,
        LoopEvent.NextOp (recordedLocal true (some "cs:v2") false true) (exampleRemote 0 []),
        LoopEvent.SetAvailable true, LoopEvent.OnIdle, LoopEvent.Wait] := by
  refine ⟨by decide, ?_⟩
  obtain ⟨calls, wprev, hlen, _, _, _, _, _, _, h, _⟩ :=
    charm_dir_updated_once (scenarioARecorded (some "cs:v1") false (some "cs:v2"))
      (fun ls rs w =>
        (ofPlan_spec
          (fun ls rs log =>
            (([.ok (Request.Upgrade (some "cs:v2"))] : List (Except Error Request)).getD
              (nextOpCalls log) (.error ErrNoOperation), log ++ [LoopEvent.NextOp ls rs]))
          ls rs w).1)
      1 1 (Loop.start (scenarioARecorded (some "cs:v1") false (some "cs:v2")) []) _ _
      rfl (Nat.le_refl 1)
  have h2 := h (fun log => (none, log ++ [LoopEvent.OnIdle])) rfl rfl
  exact congrArg (fun t => t.world.ext) h2

/-! ### How often the callbacks fire -/

theorem count_firingOrder (n : Nat) :
    ∀ j0 x : Nat, (firingOrder j0 n).count x = if j0 ≤ x ∧ x < j0 + n then x - j0 + 1 else 0 := by
  induction n with
  | zero =>
    intro j0 x
    have : ¬ (j0 ≤ x ∧ x < j0) := by omega
    simp [firingOrder, this]
  | succ n ih =>
    intro j0 x
    simp only [firingOrder, List.count_append, ih (j0 + 1) x,
      List.count_eq_of_nodup (List.nodup_range' j0 (n + 1)), List.mem_range'_1]
    by_cases h1 : j0 + 1 ≤ x ∧ x < j0 + 1 + n
    · have h2 : j0 ≤ x ∧ x < j0 + (n + 1) := by omega
      simp only [h1, h2, and_self, if_true]
      omega
    · by_cases h2 : j0 ≤ x ∧ x < j0 + (n + 1)
      · simp only [h1, h2, and_self, if_true, if_false]
        omega
      · simp only [h1, h2, if_false]

theorem length_firingOrder (n : Nat) :
    ∀ j0 : Nat, 2 * (firingOrder j0 n).length = n * (n + 1) := by
  induction n with
  | zero => intro j0; simp [firingOrder]
  | succ n ih =>
    intro j0
    simp only [firingOrder, List.length_append, List.length_range']
    have := ih (j0 + 1)
    have h2 : (n + 1) * (n + 1 + 1) = n * (n + 1) + 2 * (n + 1) := by ring
    omega

/-- C23: a successful `Commit` of `N` nested decorations calls the callback of
the `j`-th decoration from the outermost exactly `j` times, `N (N + 1) / 2`
calls in all, in the order `firingOrder 1 N`; for the operation `wrapHookOp`
builds for a config-changed or leader-settings-changed hook, two decorations
with the update-status callback outside, the world after the commit is the one
left by the kind-specific callback, then the update-status callback, then the
kind-specific callback again. -/
theorem callbacks_fire_once_per_enclosing_layer (c : operation.State → operation.Result)
    (gs : List (resolverOpFactory (List Event) → resolverOpFactory (List Event)))
    (state : operation.State) (w : World (List Event)) (hok : (c state).2 = none) :
    ((recordingChain c 1 gs).Commit state w).2.ext =
      w.ext ++ Event.commit state :: (firingOrder 1 gs.length).map Event.fired ∧
    (∀ j, 1 ≤ j → j ≤ gs.length →
      List.count (Event.fired j) ((firingOrder 1 gs.length).map Event.fired) = j) ∧
    ((firingOrder 1 gs.length).map Event.fired).length = gs.length * (gs.length + 1) / 2 ∧
    ∀ (ω : Type) (s : resolverOpFactory ω) (b : operation.Base ω) (info : hook.Info)
      (state1 : operation.State) (w1 : World ω), (b.Commit state1 w1.ext).1.2 = none →
      (info.Kind = hooks.ConfigChanged →
        resolverOpFactory.wrapHookOp s (.base b) info =
            decorate (.base b)
              [resolverOpFactory.updateStatusCallback s.RemoteState.UpdateStatusVersion,
                resolverOpFactory.configCallback s.RemoteState.ConfigVersion] ∧
          ((resolverOpFactory.wrapHookOp s (.base b) info).Commit state1 w1).2 =
            resolverOpFactory.configCallback s.RemoteState.ConfigVersion
              (resolverOpFactory.updateStatusCallback s.RemoteState.UpdateStatusVersion
                (resolverOpFactory.configCallback s.RemoteState.ConfigVersion
                  { w1 with ext := (b.Commit state1 w1.ext).2 }))) ∧
      (info.Kind = hooks.LeaderSettingsChanged →
        resolverOpFactory.wrapHookOp s (.base b) info =
            decorate (.base b)
              [resolverOpFactory.updateStatusCallback s.RemoteState.UpdateStatusVersion,
                resolverOpFactory.leaderSettingsCallback
                  s.RemoteState.LeaderSettingsVersion] ∧
          ((resolverOpFactory.wrapHookOp s (.base b) info).Commit state1 w1).2 =
            resolverOpFactory.leaderSettingsCallback s.RemoteState.LeaderSettingsVersion
              (resolverOpFactory.updateStatusCallback s.RemoteState.UpdateStatusVersion
                (resolverOpFactory.leaderSettingsCallback s.RemoteState.LeaderSettingsVersion
                  { w1 with ext := (b.Commit state1 w1.ext).2 }))) := by
  have hinj : Function.Injective Event.fired := fun a b h => by cases h; rfl
  refine ⟨?_, ?_, ?_, ?_⟩
  · rw [Commit_recordingChain_ext, hok]
    simp
  · intro j h1 h2
    rw [List.count_map_of_injective _ _ hinj, count_firingOrder]
    have : 1 ≤ j ∧ j < 1 + gs.length := by omega
    simp only [this, and_self, if_true]
    omega
  · have := length_firingOrder gs.length 1
    rw [List.length_map]
    omega
  · intro ω s b info state1 w1 hb
    have hne : hooks.ConfigChanged ≠ hooks.LeaderSettingsChanged := by decide
    constructor
    · intro hk
      constructor
      · simp [resolverOpFactory.wrapHookOp, hk, decorate]
      · simp [resolverOpFactory.wrapHookOp, hk, Operation.Commit, onCommit, hb]
    · intro hk
      constructor
      · simp [resolverOpFactory.wrapHookOp, hk, decorate, hne.symm]
      · simp [resolverOpFactory.wrapHookOp, hk, Operation.Commit, onCommit, hb, hne.symm]

/-- C23, at a concrete input: three decorations fire in the order 3, 2, 3, 1, 2,
3, and the config-changed operation fires config, update-status, config. -/
theorem callbacks_fire_once_per_enclosing_layer_witness :
    ((recordingChain (fun st => (some st, none)) 1 [id, id, id]).Commit operation.State.zero
        (exampleWorld [] (.error (Error.New 15 "unused")) (exampleLocal ∅) (exampleRemote 5 []))).2.ext =
      [Event.commit operation.State.zero, Event.fired 3, Event.fired 2, Event.fired 3,
        Event.fired 1, Event.fired 2, Event.fired 3] ∧
    List.count (Event.fired 2)
      [Event.fired 3, Event.fired 2, Event.fired 3, Event.fired 1, Event.fired 2,
        Event.fired 3] = 2 ∧
    ((resolverOpFactory.wrapHookOp
          (exampleWorld () (.ok (constBase (none, none))) (exampleLocal ∅) (exampleRemote 5 [])).s
          (.base (constBase (none, none))) (exampleInfo hooks.ConfigChanged)).Commit
        operation.State.zero
        (exampleWorld () (.ok (constBase (none, none))) (exampleLocal ∅)
          (exampleRemote 50 []))).2 =
      resolverOpFactory.configCallback 5
        (resolverOpFactory.updateStatusCallback 7
          (resolverOpFactory.configCallback 5
            (exampleWorld () (.ok (constBase (none, none))) (exampleLocal ∅)
              (exampleRemote 50 [])))) :=
  ⟨(callbacks_fire_once_per_enclosing_layer (fun st => (some st, none)) [id, id, id]
      operation.State.zero
      (exampleWorld [] (.error (Error.New 15 "unused")) (exampleLocal ∅) (exampleRemote 5 []))
      rfl).1,
    (callbacks_fire_once_per_enclosing_layer (fun st => (some st, none)) [id, id, id]
      operation.State.zero
      (exampleWorld [] (.error (Error.New 15 "unused")) (exampleLocal ∅) (exampleRemote 5 []))
      rfl).2.1 2 (by decide) (by decide),
    ((callbacks_fire_once_per_enclosing_layer (fun st => (some st, none)) [id, id, id]
      operation.State.zero
      (exampleWorld [] (.error (Error.New 15 "unused")) (exampleLocal ∅) (exampleRemote 5 []))
      rfl).2.2.2 Unit
      (exampleWorld () (.ok (constBase (none, none))) (exampleLocal ∅) (exampleRemote 5 [])).s
      (constBase (none, none)) (exampleInfo hooks.ConfigChanged) operation.State.zero
      (exampleWorld () (.ok (constBase (none, none))) (exampleLocal ∅) (exampleRemote 50 []))
      rfl).1 rfl |>.2⟩

/-- C24: an operation returned by `NewRunHook` or `NewSkipHook` for a hook that is
neither config-changed nor leader-settings-changed leaves, when it commits
successfully, the local state it finds with only `UpdateStatusVersion`
assigned; for a config-changed hook `LeaderSettingsVersion`, and for a
leader-settings-changed hook `ConfigVersion`, is left as found; `CharmURL`,
`Conflicted`, `Restart` and the completed actions are left as found for every
kind. -/
theorem hook_commit_frame (info : hook.Info) (w0 w2 : World ω) (state : operation.State)
    (op : Operation ω)
    (hmade : (resolverOpFactory.NewRunHook info w0).1 = .ok op ∨
      (resolverOpFactory.NewSkipHook info w0).1 = .ok op)
    (hok : (op.Commit state w2).1.2 = none) :
    (info.Kind ≠ hooks.ConfigChanged → info.Kind ≠ hooks.LeaderSettingsChanged →
      (op.Commit state w2).2.s.LocalState =
        { w2.s.LocalState with UpdateStatusVersion := w0.s.RemoteState.UpdateStatusVersion }) ∧
    (info.Kind = hooks.ConfigChanged →
      (op.Commit state w2).2.s.LocalState.LeaderSettingsVersion =
        w2.s.LocalState.LeaderSettingsVersion) ∧
    (info.Kind = hooks.LeaderSettingsChanged →
      (op.Commit state w2).2.s.LocalState.ConfigVersion = w2.s.LocalState.ConfigVersion) ∧
    (op.Commit state w2).2.s.LocalState.CharmURL = w2.s.LocalState.CharmURL ∧
    (op.Commit state w2).2.s.LocalState.Conflicted = w2.s.LocalState.Conflicted ∧
    (op.Commit state w2).2.s.LocalState.Restart = w2.s.LocalState.Restart ∧
    (op.Commit state w2).2.s.LocalState.CompletedActions = w2.s.LocalState.CompletedActions ∧
    (op.Commit state w2).2.s.LocalState.State = w2.s.LocalState.State := by
  have hb : ∃ b, op = resolverOpFactory.wrapHookOp w0.s (.base b) info := by
    rcases hmade with h | h
    · exact resolverOpFactory.NewRunHook_ok info w0 op h
    · exact resolverOpFactory.NewSkipHook_ok info w0 op h
  obtain ⟨b, rfl⟩ := hb
  have hne : hooks.ConfigChanged ≠ hooks.LeaderSettingsChanged := by decide
  rw [resolverOpFactory.Commit_wrapHookOp] at hok ⊢
  cases hc : (b.Commit state w2.ext).1.2 with
  | some err => simp [hc] at hok
  | none =>
    refine ⟨?_, ?_, ?_, rfl, rfl, rfl, rfl, rfl⟩
    · intro h1 h2
      simp [h1, h2]
    · intro h1
      have h2 : info.Kind ≠ hooks.LeaderSettingsChanged := fun h => hne (h1.symm.trans h)
      simp [h2]
    · intro h1
      have h2 : info.Kind ≠ hooks.ConfigChanged := fun h => hne (h.symm.trans h1)
      simp [h2]

/-- C24, at concrete inputs: a start hook and a config-changed hook built under
the versions 5, 6, 7 and committed on a local state with the versions 1, 2, 3. -/
theorem hook_commit_frame_witness :
    ((resolverOpFactory.wrapHookOp
          (exampleWorld () (.ok (constBase (none, none))) (exampleLocal ∅) (exampleRemote 5 [])).s
          (.base (constBase (none, none))) (exampleInfo "start")).Commit operation.State.zero
        (exampleWorld () (.ok (constBase (none, none))) (exampleLocal {"a1"})
          (exampleRemote 50 []))).2.s.LocalState =
      { exampleLocal {"a1"} with UpdateStatusVersion := 7 } ∧
    ((resolverOpFactory.wrapHookOp
          (exampleWorld () (.ok (constBase (none, none))) (exampleLocal ∅) (exampleRemote 5 [])).s
          (.base (constBase (none, none))) (exampleInfo hooks.ConfigChanged)).Commit
        operation.State.zero
        (exampleWorld () (.ok (constBase (none, none))) (exampleLocal {"a1"})
          (exampleRemote 50 []))).2.s.LocalState.LeaderSettingsVersion = 3 :=
  ⟨(hook_commit_frame (exampleInfo "start")
      (exampleWorld () (.ok (constBase (none, none))) (exampleLocal ∅) (exampleRemote 5 []))
      (exampleWorld () (.ok (constBase (none, none))) (exampleLocal {"a1"}) (exampleRemote 50 []))
      operation.State.zero _ (Or.inl rfl) rfl).1 (by decide) (by decide),
    (hook_commit_frame (exampleInfo hooks.ConfigChanged)
      (exampleWorld () (.ok (constBase (none, none))) (exampleLocal ∅) (exampleRemote 5 []))
      (exampleWorld () (.ok (constBase (none, none))) (exampleLocal {"a1"}) (exampleRemote 50 []))
      operation.State.zero _ (Or.inr rfl) rfl).2.1 rfl⟩

/-! ### `trimCompletedActions` -/

theorem trimCompletedActions_run (pendingActions : List String)
    (completedActions : Finset String) :
    trimCompletedActions.run pendingActions completedActions =
      (trimCompletedActions pendingActions completedActions, completedActions) := by
  have h : ∀ (pending : List String) (acc : Finset String),
      pending.foldl
        (fun (maps : Finset String × Finset String) pendingAction =>
          if pendingAction ∈ maps.2 then (insert pendingAction maps.1, maps.2) else maps)
        (acc, completedActions) =
      (pending.foldl
        (fun newCompletedActions pendingAction =>
          if pendingAction ∈ completedActions then insert pendingAction newCompletedActions
          else newCompletedActions) acc, completedActions) := by
    intro pending
    induction pending with
    | nil => intro acc; rfl
    | cons a pending ih =>
      intro acc
      simp only [List.foldl_cons]
      by_cases ha : a ∈ completedActions
      · simp only [ha, if_true]
        exact ih _
      · simp only [ha, if_false]
        exact ih _
  exact h pendingActions ∅

/-- C25: `trimCompletedActions(P, C)` returns a set that contains `x` exactly when
`x` occurs in `P` and is in `C`; it leaves `C` as it was (the loop writes to the
new map only); and trimming the result again by `P` gives the result. -/
theorem trimCompletedActions_spec (pendingActions : List String)
    (completedActions : Finset String) :
    (∀ x, x ∈ trimCompletedActions pendingActions completedActions ↔
      x ∈ pendingActions ∧ x ∈ completedActions) ∧
    trimCompletedActions.run pendingActions completedActions =
      (trimCompletedActions pendingActions completedActions, completedActions) ∧
    trimCompletedActions pendingActions
        (trimCompletedActions pendingActions completedActions) =
      trimCompletedActions pendingActions completedActions := by
  refine ⟨?_, trimCompletedActions_run pendingActions completedActions, ?_⟩
  · intro x
    rw [trimCompletedActions_eq]
    simp only [Finset.mem_filter, List.mem_toFinset]
  · rw [trimCompletedActions_eq, trimCompletedActions_eq]
    ext x
    simp only [Finset.mem_filter, List.mem_toFinset]
    constructor
    · rintro ⟨_, h⟩
      exact h
    · rintro ⟨h1, h2⟩
      exact ⟨h1, h1, h2⟩

end resolver
